import Mathlib

/-!
# denon-prime4 firmware updater: XZ inspector, device list, inventory and fastboot channel

A shallow embedding of the Go packages `updater` and `fastboot`.

* Bytes are `Fin 256`; Go's fixed-width integers are natural numbers or integers that are
  reduced explicitly (`% 2 ^ 32`, `% 2 ^ 64`, `wrapInt64`) wherever the Go operation wraps.
* `getXZUncompressedLength` is embedded over `bytes.Reader`, the reader every caller in the
  repository passes (`bytes.NewReader`), with `Seek`, `Read` and `ReadByte` as in the Go
  standard library.
* `hash/crc32` is embedded from the table-driven reference implementation of the Go standard
  library (`simpleMakeTable`, `simpleUpdate`) for the IEEE polynomial.
* The reader goroutine of `NewFastBootChannel` is a function from the successive results of
  `ReadContext` to the values it sends on its channels, in order.
* `runDevice` is a function from the FDT view of the image file and from what the USB devices
  answer to the returned error and the sequence of writes on the OUT endpoint and of progress
  ticks. The packages `dt`, `gousb`, `crypto/sha1` and `xz` are parameters: the FDT view by
  the results of its calls, the devices by the result of opening them and by what the selects
  of a fastboot call receive, the digest and the decompressor as functions. The walks of `dt`
  are never nil: a node or property that is not there is a walk whose methods return an error.
  Logging, sleeping and contexts are left out.
-/

namespace updater

/-- A byte. -/
abbrev Byte := Fin 256

/-- Conversion `byte(n)` of an unsigned integer: the low eight bits. -/
def byteOfNat (n : Nat) : Byte := ⟨n % 256, Nat.mod_lt n (by decide)⟩

/-- The errors of the packages `updater` and `fastboot` and the standard library errors they
pass on; `new msg` is `errors.New(msg)` and stands for the errors of other libraries, too.
`wrap msg cause` is `fmt.Errorf(msg + ": %w", cause)`; `wrapIdx msg i cause` is the same with
a `%d` argument `i` in the message. -/
inductive Error where
  | ErrInvalidLength
  | ErrFooterMagicMismatch
  | ErrChecksumMismatch
  | errOverflowU64
  | EOF
  | negativePosition
  | ErrNoMatchingDevices
  | ErrNoImagesInDeviceTree
  | ErrMissingVersion
  | ErrBadVersion
  | ErrUnsupportedConfiguration
  | ErrUnexpectedResponse
  | ErrMaxLengthExceeded
  | ErrLength
  | InvalidByteError (b : Nat)
  | FastBootError (Message : List (Fin 256))
  | UnexpectedDataSizeError (Purpose : String) (ActualLength ExpectedLength : Nat)
  | TooShortPayloadError (Purpose : String) (ActualLength ExpectedLength : Nat)
  | new (msg : String)
  | wrap (msg : String) (cause : Error)
  | wrapIdx (msg : String) (i : Nat) (cause : Error)
deriving DecidableEq, Repr

/-- Go's `errors.Is(e, target)` for these error values: `e` or an error it wraps equals
`target`. -/
def Error.Is : Error → Error → Bool
  | .wrap msg cause, target =>
      decide (Error.wrap msg cause = target) || Error.Is cause target
  | .wrapIdx msg i cause, target =>
      decide (Error.wrapIdx msg i cause = target) || Error.Is cause target
  | e, target => decide (e = target)

/-! ## `xz_util.go` -/

/-- The state of an `io.ByteReader` over a byte slice: the bytes not read yet. -/
abbrev ByteReader := List Byte

/-- `ReadByte` of `bytes.Reader`: `io.EOF` at the end, else the next byte. -/
def ReadByte : ByteReader → Except Error (Byte × ByteReader)
  | [] => .error .EOF
  | b :: rest => .ok (b, rest)

/-- The three results `(x, n, err)` of `readUvarint`. -/
structure UvarintResult where
  x : Nat
  n : Nat
  err : Option Error
deriving DecidableEq, Repr

/-- The constant `maxUvarintLen`. -/
def maxUvarintLen : Nat := 10

/-- The `for` loop of `readUvarint` with its variables `x`, `s` and `i`. Every iteration
reads one byte, so the loop is a recursion over the unread bytes. `x` is a `uint64`:
the shifted byte is reduced modulo `2 ^ 64`. -/
def readUvarintLoop : ByteReader → Nat → Nat → Nat → UvarintResult × ByteReader
  | [], x, _, i => (⟨x, i, some .EOF⟩, [])
  | b :: rest, x, s, i =>
      let i := i + 1
      if i > maxUvarintLen then
        (⟨x, i, some .errOverflowU64⟩, rest)
      else if b.val < 0x80 then
        if i = maxUvarintLen ∧ b.val > 1 then
          (⟨x, i, some .errOverflowU64⟩, rest)
        else
          (⟨x ||| ((b.val <<< s) % 2 ^ 64), i, none⟩, rest)
      else
        readUvarintLoop rest (x ||| (((b.val &&& 0x7f) <<< s) % 2 ^ 64)) (s + 7) i

/-- `readUvarint`: reads a uvarint from the byte reader; also returns the reader state. -/
def readUvarint (r : ByteReader) : UvarintResult × ByteReader :=
  readUvarintLoop r 0 0 0

/-- The standard uvarint encoding (what `write_uvarint` of the specification produces):
7-bit little-endian groups, the top bit set on every byte but the last, minimal length. -/
def writeUvarint (v : Nat) : List Byte :=
  if h : v < 128 then [byteOfNat v] else byteOfNat (128 + v % 128) :: writeUvarint (v / 128)
termination_by v
decreasing_by omega

/-! ## `hash/crc32` (Go standard library) -/

/-- The reversed IEEE polynomial `crc32.IEEE`. -/
def IEEE : Nat := 0xedb88320

/-- One iteration of the inner loop of `simpleMakeTable`. -/
def crcShift (poly crc : Nat) : Nat :=
  if crc &&& 1 = 1 then (crc >>> 1) ^^^ poly else crc >>> 1

/-- Entry `i` of the table built by `simpleMakeTable(poly)`: eight shifts of `i`. -/
def crcTable (poly i : Nat) : Nat :=
  Nat.iterate (crcShift poly) 8 i

/-- The loop of `simpleUpdate` (without the two complements). -/
def crcLoop (poly : Nat) : Nat → List Byte → Nat
  | crc, [] => crc
  | crc, v :: p => crcLoop poly (crcTable poly ((crc % 256) ^^^ v.val) ^^^ (crc >>> 8)) p

/-- `simpleUpdate(crc, tab, p)` on `uint32`. -/
def simpleUpdate (poly crc : Nat) (p : List Byte) : Nat :=
  (crcLoop poly (crc ^^^ 0xffffffff) p) ^^^ 0xffffffff

/-- `crc32.ChecksumIEEE(data)`. -/
def ChecksumIEEE (data : List Byte) : Nat := simpleUpdate IEEE 0 data

/-! ## `xz.go` -/

/-- The constant `footerLen`. -/
def footerLen : Nat := 12

/-- `binary.LittleEndian.Uint32` of the four bytes at offset `off` (zero for a missing
byte; the callers pass slices that are long enough). -/
def leUint32 (b : List Byte) (off : Nat) : Nat :=
  (b.getD off 0).val + (b.getD (off + 1) 0).val * 2 ^ 8 + (b.getD (off + 2) 0).val * 2 ^ 16
    + (b.getD (off + 3) 0).val * 2 ^ 24

/-- `bytes.Reader.Seek(offset, io.SeekEnd)` followed by reading on: the unread bytes after the
seek, or the error for a negative position. -/
def seekEnd (s : List Byte) (offset : Int) : Except Error ByteReader :=
  let abs : Int := (s.length : Int) + offset
  if abs < 0 then .error .negativePosition else .ok (s.drop abs.toNat)

/-- `bytes.Reader.Read(b)` with `len(b) = n`: `io.EOF` when nothing is left, else the bytes
copied (their number is the returned count). -/
def readBytes (r : ByteReader) (n : Nat) : Except Error (List Byte) :=
  if r.length = 0 then .error .EOF else .ok (r.take n)

/-- Conversion `int64(x)` of a 64-bit pattern, and the result of an `int64` addition. -/
def wrapInt64 (z : Int) : Int := (z + 2 ^ 63) % 2 ^ 64 - 2 ^ 63

/-- The backward size computed from the footer:
`int64(binary.LittleEndian.Uint32(footerBytes[4:8])+1) * 4`, the addition being `uint32`. -/
def backwardSize (footerBytes : List Byte) : Nat :=
  ((leUint32 footerBytes 4 + 1) % 2 ^ 32) * 4

/-- The record loop of `getXZUncompressedLength`: `remaining` is `numberOfRecords - i`. The
test `uncompressedRecordSize < 0` compares a `uint64` and never holds; the sum is an `int64`
addition of the converted size. -/
def recordLoop : Nat → Nat → Int → ByteReader → Except Error Int
  | 0, _, total, _ => .ok total
  | remaining + 1, i, total, br =>
      match readUvarint br with
      | (⟨_, _, some err⟩, _) => .error (.wrapIdx "failed to read index record" i err)
      | (⟨_, _, none⟩, br) =>
        match readUvarint br with
        | (⟨_, _, some err⟩, _) =>
            .error (.wrapIdx "failed to read uncompressed size for index record" i err)
        | (⟨uncompressedRecordSize, _, none⟩, br) =>
            recordLoop remaining (i + 1) (wrapInt64 (total + wrapInt64 uncompressedRecordSize)) br

/-- `getXZUncompressedLength(bytes.NewReader(s))`. The test `numberOfRecords < 0` compares a
`uint64` and never holds. -/
def getXZUncompressedLength (s : List Byte) : Except Error Int :=
  match seekEnd s (-(footerLen : Int)) with
  | .error err => .error (.wrap "failed to seek to footer" err)
  | .ok r =>
    match readBytes r footerLen with
    | .error err => .error (.wrap "failed to read footer bytes" err)
    | .ok footerBytes =>
      if footerBytes.length ≠ footerLen then
        .error (.wrap "failed to read footer bytes" .ErrInvalidLength)
      else if (footerBytes.drop 10).take 2 ≠ [0x59, 0x5a] then
        .error (.wrap "failed to read footer bytes" .ErrFooterMagicMismatch)
      else
        let checksum := leUint32 footerBytes 0
        let calculatedChecksum := ChecksumIEEE ((footerBytes.drop 4).take 6)
        if checksum ≠ calculatedChecksum then
          .error (.wrap "failed to read footer bytes" .ErrChecksumMismatch)
        else
          match seekEnd s (-((backwardSize footerBytes + footerLen : Nat) : Int)) with
          | .error err => .error (.wrap "failed to seek to index" err)
          | .ok br =>
            match ReadByte br with
            | .error err => .error (.wrap "failed to read index marker" err)
            | .ok (indexMarker, br) =>
              if indexMarker ≠ 0 then
                .error (.new "invalid index marker")
              else
                match readUvarint br with
                | (⟨_, _, some err⟩, _) =>
                    .error (.wrap "failed to read number of records from index" err)
                | (⟨numberOfRecords, _, none⟩, br) =>
                    recordLoop numberOfRecords 0 0 br

/-- The part of `getXZUncompressedLength` that follows the footer checks, for the backward
size `bs`: seek to the index, check the marker, read the record count, sum the records. -/
def indexPart (s : List Byte) (bs : Nat) : Except Error Int :=
  match seekEnd s (-((bs + footerLen : Nat) : Int)) with
  | .error err => .error (.wrap "failed to seek to index" err)
  | .ok br =>
    match ReadByte br with
    | .error err => .error (.wrap "failed to read index marker" err)
    | .ok (indexMarker, br) =>
      if indexMarker ≠ 0 then
        .error (.new "invalid index marker")
      else
        match readUvarint br with
        | (⟨_, _, some err⟩, _) =>
            .error (.wrap "failed to read number of records from index" err)
        | (⟨numberOfRecords, _, none⟩, br) =>
            recordLoop numberOfRecords 0 0 br

/-! ## Notions of the claims about the XZ inspector -/

/-- The input with bit `j` of the byte at offset `p` flipped. -/
def flipBit : List Byte → Nat → Nat → List Byte
  | [], _, _ => []
  | b :: bs, 0, j => byteOfNat (b.val ^^^ 2 ^ j) :: bs
  | b :: bs, p + 1, j => b :: flipBit bs p j

/-- The backward size as the specification defines it (§4.1 step 4), without wrap-around:
`(LE_u32(bytes[4..8]) + 1) × 4`. -/
def specBackwardSize (footerBytes : List Byte) : Nat :=
  (leUint32 footerBytes 4 + 1) * 4

/-- The four little-endian bytes of a 32-bit value. -/
def le32Bytes (v : Nat) : List Byte :=
  [byteOfNat v, byteOfNat (v / 2 ^ 8), byteOfNat (v / 2 ^ 16), byteOfNat (v / 2 ^ 24)]

/-- The records of an XZ index, each an unpadded size followed by an uncompressed size, both in
the standard uvarint encoding. -/
def encodeRecords : List (Nat × Nat) → List Byte
  | [] => []
  | r :: rs => writeUvarint r.1 ++ writeUvarint r.2 ++ encodeRecords rs

/-- An XZ index: the marker byte `0x00`, the record count, the records, and then `tail` (the
index padding and the index CRC-32 of the XZ format, which the inspector never reads). -/
def xzIndex (records : List (Nat × Nat)) (tail : List Byte) : List Byte :=
  0 :: (writeUvarint records.length ++ encodeRecords records ++ tail)

/-- An XZ footer with the stored backward-size field `v` and the two stream-flag bytes: the
CRC-32 of the six bytes that follow it, the field, the flags, and the magic `YZ`. -/
def xzFooter (v : Nat) (flags : List Byte) : List Byte :=
  le32Bytes (ChecksumIEEE (le32Bytes v ++ flags)) ++ le32Bytes v ++ flags ++ [0x59, 0x5a]

/-! ## `updater.go`: the device list -/

/-- The outcome of a Go function with results `(value, error)`: the value with a nil error,
a non-nil error, or a run-time panic (index out of range, nil dereference). -/
inductive Result (α : Type) where
  | ok (a : α)
  | error (e : Error)
  | panic
deriving DecidableEq, Repr

/-- The struct `DeviceID`; both fields are `uint16`. -/
structure DeviceID where
  VendorID : Nat
  ProductID : Nat
deriving DecidableEq, Repr

/-- `binary.BigEndian.Uint16` of the two bytes `hi`, `lo`. -/
def beUint16 (hi lo : Byte) : Nat := hi.val * 2 ^ 8 + lo.val

/-- The `for` loop of `bytesAsDeviceList` with its variables `i` and `items`, as a recursion
over `b[offset:]`: the loop ends when nothing is left, reads `b[offset : offset+2]` and
`b[offset+2 : offset+4]`, and goes on with `offset + 4`. A slice expression or an index out
of range is a panic. -/
def bytesAsDeviceListLoop : List Byte → Nat → List DeviceID → Result (List DeviceID)
  | [], _, items => .ok items
  | b0 :: b1 :: b2 :: b3 :: rest, i, items =>
      if i < items.length then
        bytesAsDeviceListLoop rest (i + 1) (items.set i ⟨beUint16 b0 b1, beUint16 b2 b3⟩)
      else .panic
  | _, _, _ => .panic

/-- `bytesAsDeviceList(b)`. -/
def bytesAsDeviceList (b : List Byte) : Result (List DeviceID) :=
  if b.length % 4 ≠ 0 then .error .ErrInvalidLength
  else bytesAsDeviceListLoop b 0 (List.replicate (b.length / 4) ⟨0, 0⟩)

/-- Entry `i` of the device list as the specification states it: two big-endian 16-bit
words at `b[4i..4i+2)` and `b[4i+2..4i+4)`. -/
def deviceAt (b : List Byte) (i : Nat) : DeviceID :=
  ⟨(b.getD (4 * i) 0).val * 2 ^ 8 + (b.getD (4 * i + 1) 0).val,
   (b.getD (4 * i + 2) 0).val * 2 ^ 8 + (b.getD (4 * i + 3) 0).val⟩

/-- The reference definition of the device list, in the words of the specification:
`InvalidLength` when the byte length is not divisible by 4, otherwise exactly `len/4` entries
in input order, each big-endian. -/
def bytesAsDeviceListSpec (b : List Byte) : Result (List DeviceID) :=
  if b.length % 4 ≠ 0 then .error .ErrInvalidLength
  else .ok ((List.range (b.length / 4)).map (deviceAt b))

end updater

/-! ## `fastboot.go` -/

namespace fastboot

open updater

/-- The bytes `[]byte(s)` of an ASCII string. -/
def bytesOfString (s : String) : List Byte := s.toList.map (fun c => byteOfNat c.toNat)

/-- The response type `okay`. -/
def okay : List Byte := bytesOfString "OKAY"

/-- The response type `fail`. -/
def fail : List Byte := bytesOfString "FAIL"

/-- The response type `data`. -/
def data : List Byte := bytesOfString "DATA"

/-- The response type `info`. -/
def info : List Byte := bytesOfString "INFO"

/-- The response type `text`. -/
def text : List Byte := bytesOfString "TEXT"

/-- What the reader task sends on its five channels `resultC`, `errorC`, `readyForDataC`,
`infoC` and `textC`. -/
inductive Pub where
  | result (data : List Byte)
  | error (e : Error)
  | readyForData (size : Nat)
  | info (s : List Byte)
  | text (s : List Byte)
deriving DecidableEq, Repr

/-- How the reader task stands after a script of reads: `returned` when the goroutine has
returned (its channels are closed), `waiting` when it is inside the next `ReadContext`,
`panicked` after a run-time panic. -/
inductive Exit where
  | returned
  | waiting
  | panicked
deriving DecidableEq, Repr

/-- One call `ReadContext(ctx, buf)` of a `ContextReader`, as a function of `len(buf)`: the
bytes stored into `buf` (their number is the returned `n`) and the returned error. -/
abbrev Read := Nat → List Byte × Option Error

/-- A reader that delivers the device frame `frame` in one read, copying what fits. -/
def frameRead (frame : List Byte) : Read := fun len => (frame.take len, none)

/-- The value `reverseHexTable[c]` of `encoding/hex` for a hexadecimal digit. -/
def fromHexChar (c : Byte) : Option Nat :=
  if 0x30 ≤ c.val ∧ c.val ≤ 0x39 then some (c.val - 0x30)
  else if 0x61 ≤ c.val ∧ c.val ≤ 0x66 then some (c.val - 0x61 + 10)
  else if 0x41 ≤ c.val ∧ c.val ≤ 0x46 then some (c.val - 0x41 + 10)
  else none

/-- `hex.Decode(dst, src)`: the bytes written to `dst` and the error. -/
def hexDecode : List Byte → List Nat × Option Error
  | p :: q :: rest =>
      match fromHexChar p, fromHexChar q with
      | some a, some b => ((a * 16 + b) :: (hexDecode rest).1, (hexDecode rest).2)
      | none, _ => ([], some (.InvalidByteError p.val))
      | some _, none => ([], some (.InvalidByteError q.val))
  | [_] => ([], some .ErrLength)
  | [] => ([], none)

/-- `binary.BigEndian.Uint32(dataLenBytes)` for the four bytes of `dataLenBytes`, which
`make` zeroed and `hex.Decode` filled from the front. -/
def beUint32 (written : List Nat) : Nat :=
  written.getD 0 0 * 2 ^ 24 + written.getD 1 0 * 2 ^ 16 + written.getD 2 0 * 2 ^ 8
    + written.getD 3 0

/-- Adds a sent value in front of what the rest of the loop sends. -/
def send (p : Pub) (r : List Pub × Exit) : List Pub × Exit := (p :: r.1, r.2)

/-- The `for` loop of the goroutine of `NewFastBootChannel` over the successive reads of
`r`; `bufLen` is `len(msgBuf)`. The assignment `msgBuf = msgBuf[4:n]` changes the variable
that the next `ReadContext` receives, so the loop goes on with `n - 4`. `textBuf` is a nil
`*bytes.Buffer` throughout: `textBuf.Write` panics. -/
def readerLoop : List Read → Nat → List Pub × Exit
  | [], _ => ([], .waiting)
  | rd :: rest, bufLen =>
    match (rd bufLen).2 with
    | some err => ([.error (.wrap "read error" err)], .returned)
    | none =>
      let msg := (rd bufLen).1.take bufLen
      let n := msg.length
      if n < 4 then
        ([.error (.TooShortPayloadError "message type" n 4)], .returned)
      else
        let responseType := msg.take 4
        let msgBuf := msg.drop 4
        if responseType = okay then
          send (.result msgBuf) (readerLoop rest msgBuf.length)
        else if responseType = fail then
          send (.error (.FastBootError msgBuf)) (readerLoop rest msgBuf.length)
        else if responseType = data then
          if msgBuf.length < 8 then
            ([.error (.TooShortPayloadError "allocated data length" msgBuf.length 8)], .returned)
          else
            match hexDecode (msgBuf.take 8) with
            | (written, some err) =>
                send (.error err)
                  (send (.readyForData (beUint32 written)) (readerLoop rest msgBuf.length))
            | (written, none) =>
                send (.readyForData (beUint32 written)) (readerLoop rest msgBuf.length)
        else if responseType = info then
          send (.info msgBuf) (readerLoop rest msgBuf.length)
        else if responseType = text then
          if msgBuf.length > 0 then ([], .panicked)
          else readerLoop rest 0
        else
          ([.error .ErrUnexpectedResponse], .returned)

/-- The goroutine started by `NewFastBootChannel(ctx, logger, r, w)`:
`msgBuf := make([]byte, 512)` and the loop. -/
def readerTask (r : List Read) : List Pub × Exit := readerLoop r 512

/-- What the `select` of successive `Command` calls receives when the calls are served in
the order of sending: the values sent on `resultC` and `errorC`. -/
def commandReturns : List Pub → List (Result (List Byte))
  | [] => []
  | .result d :: rest => .ok d :: commandReturns rest
  | .error e :: rest => .error e :: commandReturns rest
  | _ :: rest => commandReturns rest

/-- The strings sent on `infoC`, in order. -/
def infoSent : List Pub → List (List Byte)
  | [] => []
  | .info s :: rest => s :: infoSent rest
  | _ :: rest => infoSent rest

/-! ### The channel as its callers see it -/

/-- What a call does to the outside, in order: a `WriteContext` on the OUT endpoint, or a
`Read` on the payload reader with the count and error it returned. -/
inductive Action where
  | write (msg : List Byte)
  | read (n : Nat) (err : Option Error)
deriving DecidableEq, Repr

/-- What the final `select` of a call receives from the reader task. -/
inductive Reply where
  | result (data : List Byte)
  | error (e : Error)
deriving DecidableEq, Repr

/-- What the first `select` of `dataCommand` receives from the reader task. -/
inductive DataReply where
  | result (data : List Byte)
  | error (e : Error)
  | readyForData (returnedSize : Nat)
deriving DecidableEq, Repr

/-- The far side of one `FastBootChannel`: the error of the `i`-th `WriteContext` (`none`
for success) and what the selects of the one call made on the channel receive from the
reader task. A select that never receives is not part of the model. -/
structure Peer where
  writeErr : Nat → Option Error
  commandReply : Reply
  dataReply : DataReply
  finalReply : Reply

/-- An `io.Reader` by the results of its successive `Read` calls for buffers of a given
length: each the bytes stored and the error returned. After the last entry `Read` returns
`0, io.EOF`. -/
abbrev Reader := Nat → List (List Byte × Option Error)

/-- `Command(ctx, cmd, param...)` with `msg` the formatted command. -/
def Command (peer : Peer) (msg : List Byte) : Result (List Byte) × List Action :=
  match peer.writeErr 0 with
  | some err => (.error (.wrap "write failed" err), [.write msg])
  | none =>
    match peer.commandReply with
    | .result d => (.ok d, [.write msg])
    | .error err => (.error err, [.write msg])

/-- The streaming loop of `dataCommand` over the reads of `r`; `wi` counts the writes made on
the channel. The result is the error that ends `dataCommand`, or `none` after `io.EOF`. -/
def streamLoop (peer : Peer) : List (List Byte × Option Error) → Nat → Option Error × List Action
  | [], _ => (none, [.read 0 (some .EOF)])
  | (chunk, some err) :: _, _ =>
      if err.Is .EOF then (none, [.read (chunk.take (128 * 1024)).length (some err)])
      else (some err, [.read (chunk.take (128 * 1024)).length (some err)])
  | (chunk, none) :: rest, wi =>
      let buf := chunk.take (128 * 1024)
      match peer.writeErr wi with
      | some err => (some err, [.read buf.length none, .write buf])
      | none =>
          ((streamLoop peer rest (wi + 1)).1,
            .read buf.length none :: .write buf :: (streamLoop peer rest (wi + 1)).2)

/-- `dataCommand(ctx, r, size, cmd, param...)` with `msg` the formatted command: the error
returned (`none` for nil) and what the call did. -/
def dataCommand (peer : Peer) (r : Reader) (size : Nat) (msg : List Byte) :
    Option Error × List Action :=
  match peer.writeErr 0 with
  | some err => (some (.wrap "write failed" err), [.write msg])
  | none =>
    match peer.dataReply with
    | .result _ => (some .ErrUnexpectedResponse, [.write msg])
    | .error err => (some err, [.write msg])
    | .readyForData returnedSize =>
      if returnedSize ≠ size then
        (some (.UnexpectedDataSizeError "allocated data buffer" returnedSize size), [.write msg])
      else
        match streamLoop peer (r (128 * 1024)) 1 with
        | (some err, acts) => (some err, .write msg :: acts)
        | (none, acts) =>
          match peer.finalReply with
          | .result _ => (none, .write msg :: acts)
          | .error err => (some err, .write msg :: acts)

/-- The eight lower-case hexadecimal digits of `%08x` for a `uint32`. -/
def hex8 (size : Nat) : String :=
  String.mk ((List.range 8).reverse.map (fun k => Nat.digitChar (size / 16 ^ k % 16)))

/-- `DownloadFromReader(ctx, r, size)`. -/
def DownloadFromReader (peer : Peer) (r : Reader) (size : Nat) : Option Error × List Action :=
  dataCommand peer r size (bytesOfString ("download:" ++ hex8 size))

/-- `GetVar(ctx, varName)`. -/
def GetVar (peer : Peer) (varName : String) : Result (List Byte) × List Action :=
  Command peer (bytesOfString ("getvar:" ++ varName))

/-- `Flash(ctx, partition)`: the error returned and what the call did. -/
def Flash (peer : Peer) (partition : String) : Option Error × List Action :=
  match Command peer (bytesOfString ("flash:" ++ partition)) with
  | (.error err, acts) => (some err, acts)
  | (_, acts) => (none, acts)

/-- `Reboot(ctx)`: the error returned and what the call did. -/
def Reboot (peer : Peer) : Option Error × List Action :=
  match Command peer (bytesOfString "reboot") with
  | (.error err, acts) => (some err, acts)
  | (_, acts) => (none, acts)

/-- `Erase(ctx, partition)`: the error returned and what the call did. -/
def Erase (peer : Peer) (partition : String) : Option Error × List Action :=
  match Command peer (bytesOfString ("erase:" ++ partition)) with
  | (.error err, acts) => (some err, acts)
  | (_, acts) => (none, acts)

/-- `Boot(ctx)`: the error returned and what the call did. -/
def Boot (peer : Peer) : Option Error × List Action :=
  match Command peer (bytesOfString "boot") with
  | (.error err, acts) => (some err, acts)
  | (_, acts) => (none, acts)

/-- `Continue(ctx)`: the error returned and what the call did. -/
def Continue (peer : Peer) : Option Error × List Action :=
  match Command peer (bytesOfString "continue") with
  | (.error err, acts) => (some err, acts)
  | (_, acts) => (none, acts)

/-- `RebootBootloader(ctx)`: the error returned and what the call did. -/
def RebootBootloader (peer : Peer) : Option Error × List Action :=
  match Command peer (bytesOfString "reboot-bootloader") with
  | (.error err, acts) => (some err, acts)
  | (_, acts) => (none, acts)

/-- The writes on the OUT endpoint among the actions of a call, in order. -/
def writesIn : List Action → List (List Byte)
  | [] => []
  | .write msg :: rest => msg :: writesIn rest
  | .read _ _ :: rest => writesIn rest

/-- The reads of the payload reader among the actions of a call, in order. -/
def readsIn : List Action → List (Nat × Option Error)
  | [] => []
  | .write _ :: rest => readsIn rest
  | .read n err :: rest => (n, err) :: readsIn rest

end fastboot

namespace updater

/-! ## `updater.go`: `runDevice` -/

/-- A `*dt.PropertyWalk`, the result of `Property(name)` on a node walk, by the results of its
`AsBytes()` and `AsString()`. Package `dt` (`github.com/u-root/u-root/pkg/dt`) is a dependency
outside the repository. Its `Walk` and `Property` never return nil: for a node or a property
that is not there they return a walk that carries the error `cannot find node name "…"` or
`cannot find property name "…"`, and the methods of that walk and of every walk made from it
return that error. -/
structure Property where
  AsBytes : Except Error (List Byte)
  AsString : Except Error String

/-- The node walk `image.Walk("hash")` by its properties `algo` and `value`. -/
structure HashNode where
  algo : Property
  value : Property

/-- The node walk `images.Walk(imageName)` by its properties `data`, `compression` and
`partition` and its subnode `hash`. -/
structure ImageNode where
  data : Property
  compression : Property
  partition : Property
  hash : HashNode

/-- The node walk `fdt.Root().Walk("images")`: the result of `ListChildNodes()` and of
`Walk(name)`. -/
structure ImagesNode where
  ListChildNodes : Except Error (List String)
  Walk : String → ImageNode

/-- The FDT view of the image file by the results of the calls that `runDevice` makes on it:
the properties `inmusic,devices` and `inmusic,version` of the root and the node `images`. No
walk is ever nil (see `Property`), so the tests for nil that `runDevice` makes on them never
hold; they have no part in the embedding. -/
structure FDT where
  devices : Property
  version : Property
  images : ImagesNode

/-- What `runDevice` returns: nil, a non-nil error, or a run-time panic. -/
inductive Outcome where
  | nil
  | error (e : Error)
  | panic
deriving DecidableEq, Repr

/-- Control flow of a loop body inside `runDevice`: go on with a value, or `return`. -/
inductive Flow (α : Type) where
  | go (a : α)
  | ret (o : Outcome)
deriving DecidableEq, Repr

/-- The struct `Progress` without its text: `Percentage` is kept as the pair of the two
`float64` values it is the quotient of, `none` where the field is not set. -/
structure Progress where
  Indetermined : Bool
  Percentage : Option (Int × Int)
deriving DecidableEq, Repr

/-- What a run does to the outside, in order: a `WriteContext` on the USB OUT endpoint, or a
`Progress` sent on `progressC`. -/
inductive Event where
  | write (msg : List Byte)
  | progress (p : Progress)
deriving DecidableEq, Repr

/-- The result of `usbCtx.OpenDeviceWithVIDPID` and of the set-up that `withDevice` performs
on the device: an error, `(nil, nil)`, or a device with the first error of `Config`,
`Interface`, `InEndpoint`, `OutEndpoint` and `NewStream` (wrapped as `withDevice` wraps it)
and the far side of the fastboot channel. -/
inductive OpenResult where
  | error (e : Error)
  | absent
  | opened (setup : Option Error) (peer : fastboot.Peer)

/-- Everything outside the repository that a run depends on: the USB devices (by the number
of `withDevice` calls made before and the device id), `crypto/sha1`, and the XZ decompressor
`newXZReader`. -/
structure Env where
  openDevice : Nat → DeviceID → OpenResult
  sha1 : List Byte → List Byte
  newXZReader : List Byte → Except Error fastboot.Reader

/-- The struct `DeviceConfig`; `USBOpTimeout` is a `time.Duration`, an integer. -/
structure DeviceConfig where
  Name : String
  ProductID : Nat
  VendorID : Nat
  ImagePath : String
  USBConfig : Int
  USBInterface : Int
  USBAlternate : Int
  USBInputEndpoint : Int
  USBReadSize : Int
  USBReadBufferSize : Int
  USBOutputEndpoint : Int
  USBWriteSize : Int
  USBWriteBufferSize : Int
  USBOpTimeout : Int
deriving DecidableEq, Repr

/-- The struct `Config`. -/
structure Config where
  Devices : List DeviceConfig
  LibusbDebugLevel : Int
  SkipRebootAfterFlash : Bool
deriving DecidableEq, Repr

/-- The struct `Updater`, without its logger. -/
structure Updater where
  config : Config
  DryRun : Bool
deriving DecidableEq, Repr

/-- `NewUpdater(config, logger)`; a nil logger is replaced by the default one. -/
def NewUpdater (config : Config) : Result Updater :=
  if config.Devices.length < 1 then .error .ErrUnsupportedConfiguration
  else .ok { config := config, DryRun := false }

/-- The method `Config()` of `Updater`. -/
def Updater.Config (u : Updater) : Config := u.config

/-- The variables of `runDevice` that change during the USB phase: the number of
`withDevice` calls, `devicesMatched`, `totalDownloadedSizeFloat`, and what was done so far. -/
structure St where
  calls : Nat
  devicesMatched : Nat
  totalDownloaded : Int
  events : List Event

/-- The data size that both loops of `runDevice` derive from the property `compression`: the
result of `getXZUncompressedLength` for `xz`, and a `return` with an error otherwise. The test
`compression != nil` always holds, so an image without the property ends the run with the
error of `AsString()`. -/
def declaredSize (compression : Property) (dataBytes : List Byte) : Flow Int :=
  match compression.AsString with
  | .error err => .ret (.error err)
  | .ok compressionStr =>
    if compressionStr = "xz" then
      match getXZUncompressedLength dataBytes with
      | .error err => .ret (.error err)
      | .ok uncompressedSize => .go uncompressedSize
    else .ret (.error (.new ("unsupported compression: " ++ compressionStr)))

/-- The hash verification of one image in the first loop body of `runDevice`: `go` when the
loop continues, `ret` when `runDevice` returns. The tests `hashProp == nil`,
`hashAlgo != nil` and `hashValue == nil` are decided by the walks never being nil: an image
without the node `hash` or without one of its properties ends the run with the error of
`AsString()` or `AsBytes()`. -/
def verifyHash (env : Env) (hash : HashNode) (dataBytes : List Byte) : Flow Unit :=
  match hash.algo.AsString with
  | .error err => .ret (.error err)
  | .ok hashAlgoStr =>
    match hash.value.AsBytes with
    | .error err => .ret (.error err)
    | .ok hashBytes =>
      if hashAlgoStr = "sha1" then
        if env.sha1 dataBytes ≠ hashBytes then .ret (.error .ErrChecksumMismatch)
        else .go ()
      else
        .ret (.error (.new ("checksum algorithm not supported yet: " ++ hashAlgoStr)))

/-- The inventory of one image: the first loop body of `runDevice` over `imageNames`, with
`total` the variable `totalDataSizeFloat`. The test `data == nil` never holds: an image
without the property `data` ends the run with the error of `AsBytes()`. -/
def inventoryImage (env : Env) (image : ImageNode) (total : Int) : Flow Int :=
  match image.data.AsBytes with
  | .error err => .ret (.error err)
  | .ok dataBytes =>
    match declaredSize image.compression dataBytes with
    | .ret o => .ret o
    | .go dataSize =>
      match verifyHash env image.hash dataBytes with
      | .ret o => .ret o
      | .go _ => .go (total + dataSize)

/-- The first loop of `runDevice` over `imageNames`; `images.Walk(imageName)` is never
nil. -/
def inventoryLoop (env : Env) (images : ImagesNode) : List String → Int → Flow Int
  | [], total => .go total
  | imageName :: rest, total =>
    match inventoryImage env (images.Walk imageName) total with
    | .ret o => .ret o
    | .go total => inventoryLoop env images rest total

/-- The closure `withDevice(f)`: the error it returns (`none` for nil) and the new state. -/
def withDevice (env : Env) (deviceID : DeviceID) (f : fastboot.Peer → St → Option Error × St)
    (st : St) : Option Error × St :=
  let st1 : St := { st with calls := st.calls + 1 }
  match env.openDevice st.calls deviceID with
  | .error err => (some err, st1)
  | .absent => (some .ErrNoMatchingDevices, st1)
  | .opened setup peer =>
    let st2 : St := { st1 with devicesMatched := st1.devicesMatched + 1 }
    match setup with
    | some err => (some err, st2)
    | none => f peer st2

/-- The writes of a fastboot call without a payload reader, as events. -/
def writesOf : List fastboot.Action → List Event
  | [] => []
  | .write msg :: rest => .write msg :: writesOf rest
  | .read _ _ :: rest => writesOf rest

/-- The events of a call that reads the monitored payload reader: a write is a write, and a
`Read` that returns no error makes `ReaderMonitor` call its function, which adds the count to
`totalDownloadedSizeFloat` and sends a `Progress` with the new quotient. -/
def monitored (totalData : Int) : List fastboot.Action → St → St
  | [], st => st
  | .write msg :: rest, st =>
      monitored totalData rest { st with events := st.events ++ [.write msg] }
  | .read _ (some _) :: rest, st => monitored totalData rest st
  | .read n none :: rest, st =>
      monitored totalData rest
        { st with
          totalDownloaded := st.totalDownloaded + n
          events := st.events ++ [.progress ⟨false, some (st.totalDownloaded + n, totalData)⟩] }

/-- The reads that `io.Copy(io.Discard, finalReader)` makes: one after the other until the
first error. -/
def discardReads : List (List Byte × Option Error) → List fastboot.Action
  | [] => [.read 0 (some .EOF)]
  | (chunk, some err) :: _ => [.read (chunk.take 8192).length (some err)]
  | (chunk, none) :: rest => .read (chunk.take 8192).length none :: discardReads rest

/-- The pieces in which `bytes.Reader.Read` hands out `d` to buffers of length `n`; `fuel`
bounds their number. -/
def chunksOf (n : Nat) : Nat → List Byte → List (List Byte × Option Error)
  | 0, _ => []
  | _ + 1, [] => []
  | fuel + 1, b :: d => ((b :: d).take n, none) :: chunksOf n fuel ((b :: d).drop n)

/-- The reader `bytes.NewReader(dataBytes)`. -/
def bytesReader (dataBytes : List Byte) : fastboot.Reader :=
  fun n => chunksOf n dataBytes.length dataBytes

/-- The unlock step of `runDevice`. -/
def unlock (env : Env) (deviceID : DeviceID) (st : St) : Option Error × St :=
  withDevice env deviceID
    (fun peer st =>
      match fastboot.Command peer
          (fastboot.bytesOfString ("oem:" ++ "inmusic-unlock-magic-7de5fbc22b8c524e")) with
      | (.error err, acts) => (some err, { st with events := st.events ++ writesOf acts })
      | (_, acts) => (none, { st with events := st.events ++ writesOf acts }))
    st

/-- The loop of `runDevice` over the fastboot variables: a failing `GetVar` is a warning. -/
def probe (env : Env) (deviceID : DeviceID) : List String → St → Option Error × St
  | [], st => (none, st)
  | varName :: rest, st =>
    match withDevice env deviceID
        (fun peer st =>
          (none, { st with events := st.events ++ writesOf (fastboot.GetVar peer varName).2 }))
        st with
    | (some err, st) => (some err, st)
    | (none, st) => probe env deviceID rest st

/-- The variables that `runDevice` logs. -/
def probeVariables : List String :=
  ["version", "version-bootloader", "version-baseband", "product", "serialno", "secure",
   "is-userspace"]

/-- Conversion `uint32(dataSize)` of an `int64`. -/
def uint32OfInt (z : Int) : Nat := (z % 2 ^ 32).toNat

/-- The second loop body of `runDevice` over `imageNames` for an image node: parse, download,
flash. The tests for nil never hold; the property `compression` is always read. -/
def flashImage (u : Updater) (env : Env) (deviceID : DeviceID) (totalData : Int)
    (image : ImageNode) (st : St) : Option Error × St :=
  match image.partition.AsString with
  | .error err => (some err, st)
  | .ok partitionStr =>
    match image.data.AsBytes with
    | .error err => (some err, st)
    | .ok dataBytes =>
      let prepared : Except Error (Int × fastboot.Reader) :=
        match image.compression.AsString with
        | .error err => .error err
        | .ok compressionStr =>
          if compressionStr = "xz" then
            match getXZUncompressedLength dataBytes with
            | .error err => .error err
            | .ok uncompressedSize =>
              match env.newXZReader dataBytes with
              | .error err => .error err
              | .ok uncompressedDataReader => .ok (uncompressedSize, uncompressedDataReader)
          else .error (.new ("unsupported compression: " ++ compressionStr))
      match prepared with
      | .error err => (some err, st)
      | .ok (dataSize, finalReader) =>
        match withDevice env deviceID
            (fun peer st =>
              if u.DryRun then
                (none, monitored totalData (discardReads (finalReader 8192)) st)
              else
                match fastboot.DownloadFromReader peer finalReader (uint32OfInt dataSize) with
                | (some err, acts) =>
                    (some (.wrap "download failed" err), monitored totalData acts st)
                | (none, acts) => (none, monitored totalData acts st))
            st with
        | (some err, st) => (some err, st)
        | (none, st) =>
          let st : St :=
            { st with
              events := st.events
                ++ [.progress ⟨false, some (st.totalDownloaded, totalData)⟩] }
          withDevice env deviceID
            (fun peer st =>
              if u.DryRun then (none, st)
              else
                match fastboot.Flash peer partitionStr with
                | (some err, acts) =>
                    (some (.wrap "flash failed" err),
                      { st with events := st.events ++ writesOf acts })
                | (none, acts) => (none, { st with events := st.events ++ writesOf acts }))
            st

/-- The second loop of `runDevice` over `imageNames`. -/
def flashLoop (u : Updater) (env : Env) (deviceID : DeviceID) (totalData : Int)
    (images : ImagesNode) : List String → St → Option Error × St
  | [], st => (none, st)
  | imageName :: rest, st =>
    match flashImage u env deviceID totalData (images.Walk imageName) st with
    | (some err, st) => (some err, st)
    | (none, st) => flashLoop u env deviceID totalData images rest st

/-- The body of the loop of `runDevice` over `devicesList`: unlock, probe, download and flash
every image, reboot. -/
def updateDevice (u : Updater) (env : Env) (totalData : Int) (images : ImagesNode)
    (imageNames : List String) (deviceID : DeviceID) (st : St) : Option Error × St :=
  match unlock env deviceID st with
  | (some err, st) => (some err, st)
  | (none, st) =>
    match probe env deviceID probeVariables st with
    | (some err, st) => (some err, st)
    | (none, st) =>
      match flashLoop u env deviceID totalData images imageNames
          { st with totalDownloaded := 0 } with
      | (some err, st) => (some err, st)
      | (none, st) =>
        let st : St := { st with events := st.events ++ [.progress ⟨true, none⟩] }
        if u.config.SkipRebootAfterFlash then (none, st)
        else
          withDevice env deviceID
            (fun peer st =>
              if u.DryRun then (none, st)
              else
                match fastboot.Reboot peer with
                | (some err, acts) =>
                    (some (.wrap "reboot failed" err),
                      { st with events := st.events ++ writesOf acts })
                | (none, acts) => (none, { st with events := st.events ++ writesOf acts }))
            st

/-- The loop of `runDevice` over `devicesList` and the final test of `devicesMatched`. -/
def deviceLoop (u : Updater) (env : Env) (totalData : Int) (images : ImagesNode)
    (imageNames : List String) : List DeviceID → St → Outcome × St
  | [], st => (if st.devicesMatched = 0 then .error .ErrNoMatchingDevices else .nil, st)
  | deviceID :: rest, st =>
    match updateDevice u env totalData images imageNames deviceID st with
    | (some err, st) => (.error err, st)
    | (none, st) => deviceLoop u env totalData images imageNames rest st

/-- The first tick of `runDevice`, "Preparing update...". -/
def preparing : Event := .progress ⟨true, none⟩

/-- `runDevice(progressC, deviceConfig)`: what it returns and what it did, in order. `image`
is the result of opening the image file and building the FDT view over it. The tests
`version == nil` and `images == nil` never hold: a version that is not there gives
`ErrBadVersion`, a node `images` that is not there the error of `ListChildNodes()`.
`io.Copy(hasher, dataReader)` from a `bytes.Reader` into a SHA-1 state has no error. -/
def runDevice (u : Updater) (env : Env) (image : Except Error FDT) : Outcome × List Event :=
  match image with
  | .error err => (.error err, [preparing])
  | .ok fdt =>
    match fdt.devices.AsBytes with
    | .error err => (.error err, [preparing])
    | .ok devicesBytes =>
      match bytesAsDeviceList devicesBytes with
      | .panic => (.panic, [preparing])
      | .error err => (.error err, [preparing])
      | .ok devicesList =>
        match fdt.version.AsString with
        | .error _ => (.error .ErrBadVersion, [preparing])
        | .ok _ =>
          match fdt.images.ListChildNodes with
          | .error err => (.error err, [preparing])
          | .ok imageNames =>
            match inventoryLoop env fdt.images imageNames 0 with
            | .ret o => (o, [preparing])
            | .go totalData =>
              let r := deviceLoop u env totalData fdt.images imageNames devicesList
                ⟨0, 0, 0, [preparing]⟩
              (r.1, r.2.events)

/-- The writes on the USB OUT endpoint among the events of a run. -/
def outWrites : List Event → List (List Byte)
  | [] => []
  | .write msg :: rest => msg :: outWrites rest
  | .progress _ :: rest => outWrites rest

/-! ## Notions of the claims about `runDevice` -/

/-- The image has a hash node with the algorithm `sha1` and a value that differs from the
SHA-1 digest of the raw bytes of its property `data`. -/
def HashMismatch (env : Env) (image : ImageNode) : Prop :=
  ∃ dataBytes hashBytes,
    image.data.AsBytes = .ok dataBytes ∧ image.hash.algo.AsString = .ok "sha1" ∧
    image.hash.value.AsBytes = .ok hashBytes ∧ env.sha1 dataBytes ≠ hashBytes

/-- The manifest has the device list `devicesList`, a version, and a node `images` that lists
`imageNames`: `runDevice` gets as far as its first loop over the images. -/
def Listed (fdt : FDT) (devicesList : List DeviceID) (imageNames : List String) : Prop :=
  ∃ devicesBytes versionStr,
    fdt.devices.AsBytes = .ok devicesBytes ∧
    bytesAsDeviceList devicesBytes = .ok devicesList ∧
    fdt.version.AsString = .ok versionStr ∧
    fdt.images.ListChildNodes = .ok imageNames

/-- An image that the first loop body returns on, whatever the total so far. -/
def Rejected (env : Env) (image : ImageNode) : Prop :=
  ∀ total, ∃ e, inventoryImage env image total = .ret (.error e)

/-- A configuration with one device profile. -/
def exampleConfig : Config :=
  ⟨[⟨"Prime 4", 0x0001, 0x15e4, "prime4.img", 1, 0, 0, 0x81, 512, 0, 0x01, 512, 0, 0⟩], 0, false⟩

/-- A property with the given bytes that is no string. -/
def bytesProperty (b : List Byte) : Property := ⟨.ok b, .error (.new "not a string")⟩

/-- A property with the given string. -/
def stringProperty (s : String) : Property := ⟨.ok (fastboot.bytesOfString s), .ok s⟩

/-- The walk of a property that is not there, or of a property of a node that is not there:
both methods return the error of the walk, which has the message `msg`. -/
def absentProperty (msg : String) : Property := ⟨.error (.new msg), .error (.new msg)⟩

/-- The walk of a node `hash` that is not there. -/
def absentHash : HashNode :=
  ⟨absentProperty "cannot find node name \x22hash\x22",
   absentProperty "cannot find node name \x22hash\x22"⟩

/-- The walk of a child `name` of the node `images` that is not there. -/
def absentImage (name : String) : ImageNode :=
  ⟨absentProperty ("cannot find node name \x22" ++ name ++ "\x22"),
   absentProperty ("cannot find node name \x22" ++ name ++ "\x22"),
   absentProperty ("cannot find node name \x22" ++ name ++ "\x22"),
   ⟨absentProperty ("cannot find node name \x22" ++ name ++ "\x22"),
    absentProperty ("cannot find node name \x22" ++ name ++ "\x22")⟩⟩

/-- An image node as the inventory accepts it: data, the compression `xz`, a partition, and a
node `hash` with the algorithm `sha1` and a value. -/
def xzImage (dataBytes : List Byte) (partition : String) (hashValue : List Byte) : ImageNode :=
  ⟨bytesProperty dataBytes, stringProperty "xz", stringProperty partition,
   ⟨stringProperty "sha1", bytesProperty hashValue⟩⟩

/-- A manifest with the bytes `devices` of the property `inmusic,devices`, the version `1.0`
and the given images. -/
def manifestOf (devices : List Byte) (images : List (String × ImageNode)) : FDT :=
  ⟨bytesProperty devices, stringProperty "1.0",
   ⟨.ok (images.map (fun p => p.1)), fun name => (images.lookup name).getD (absentImage name)⟩⟩

/-- The XZ stream of the three bytes `01 02 03` (60 bytes, as `xz` writes it). -/
def xzOneTwoThree : List Byte :=
  [0xfd, 0x37, 0x7a, 0x58, 0x5a, 0x00, 0x00, 0x04, 0xe6, 0xd6, 0xb4, 0x46,
   0x02, 0x00, 0x21, 0x01, 0x16, 0x00, 0x00, 0x00, 0x74, 0x2f, 0xe5, 0xa3,
   0x01, 0x00, 0x02, 0x01, 0x02, 0x03, 0x00, 0x00,
   0xa3, 0xab, 0xf5, 0xf3, 0x41, 0x37, 0x8a, 0x3b,
   0x00, 0x01, 0x1b, 0x03, 0x0b, 0x2f, 0xb9, 0x10,
   0x1f, 0xb6, 0xf3, 0x7d, 0x01, 0x00, 0x00, 0x00, 0x00, 0x04, 0x59, 0x5a]

/-- The SHA-1 digest of `xzOneTwoThree`. -/
def sha1OneTwoThree : List Byte :=
  [0xda, 0x2a, 0x05, 0xd7, 0xa9, 0x2e, 0x43, 0x4e, 0xf6, 0x18,
   0xb8, 0x44, 0xa8, 0x3e, 0x6f, 0x32, 0xad, 0x86, 0xcf, 0x89]

/-- The XZ stream of the three bytes `04 05 06`. -/
def xzFourFiveSix : List Byte :=
  [0xfd, 0x37, 0x7a, 0x58, 0x5a, 0x00, 0x00, 0x04, 0xe6, 0xd6, 0xb4, 0x46,
   0x02, 0x00, 0x21, 0x01, 0x16, 0x00, 0x00, 0x00, 0x74, 0x2f, 0xe5, 0xa3,
   0x01, 0x00, 0x02, 0x04, 0x05, 0x06, 0x00, 0x00,
   0xbe, 0xb9, 0x22, 0xe2, 0xcf, 0x1f, 0x16, 0x0c,
   0x00, 0x01, 0x1b, 0x03, 0x0b, 0x2f, 0xb9, 0x10,
   0x1f, 0xb6, 0xf3, 0x7d, 0x01, 0x00, 0x00, 0x00, 0x00, 0x04, 0x59, 0x5a]

/-- The SHA-1 digest of `xzFourFiveSix`. -/
def sha1FourFiveSix : List Byte :=
  [0x4a, 0xa1, 0x03, 0x30, 0x74, 0xf9, 0x5a, 0x58, 0x4f, 0xb5,
   0xfa, 0x96, 0xde, 0x8a, 0x1c, 0xc1, 0x77, 0xa9, 0xce, 0xff]

/-- The stream `xzOneTwoThree` with one byte corrupted: the byte at offset 27, the first of the
payload, is `00` instead of `01`. -/
def xzCorrupt : List Byte :=
  [0xfd, 0x37, 0x7a, 0x58, 0x5a, 0x00, 0x00, 0x04, 0xe6, 0xd6, 0xb4, 0x46,
   0x02, 0x00, 0x21, 0x01, 0x16, 0x00, 0x00, 0x00, 0x74, 0x2f, 0xe5, 0xa3,
   0x01, 0x00, 0x02, 0x00, 0x02, 0x03, 0x00, 0x00,
   0xa3, 0xab, 0xf5, 0xf3, 0x41, 0x37, 0x8a, 0x3b,
   0x00, 0x01, 0x1b, 0x03, 0x0b, 0x2f, 0xb9, 0x10,
   0x1f, 0xb6, 0xf3, 0x7d, 0x01, 0x00, 0x00, 0x00, 0x00, 0x04, 0x59, 0x5a]

/-- The SHA-1 digest of `xzCorrupt`. -/
def sha1Corrupt : List Byte :=
  [0x6c, 0xcc, 0x2c, 0xb1, 0xd4, 0x61, 0x83, 0x0c, 0xae, 0x08,
   0x2f, 0x9e, 0xce, 0x0e, 0xaf, 0x59, 0x9c, 0x67, 0x90, 0xab]

/-- The digests of `crypto/sha1` for the data of the examples; elsewhere the empty string
stands in for the digest. -/
def sha1Table (d : List Byte) : List Byte :=
  if d = xzOneTwoThree then sha1OneTwoThree
  else if d = xzFourFiveSix then sha1FourFiveSix
  else if d = xzCorrupt then sha1Corrupt
  else []

/-- What the data of the examples decompress to. -/
def payloadOf (d : List Byte) : List Byte :=
  if d = xzFourFiveSix then [4, 5, 6] else [1, 2, 3]

/-- The reads of a decompressor that returns the whole payload together with `io.EOF`, as a
reader does that fills the buffer it is given and reports the end of the stream with the last
bytes. -/
def readsWithEOF (payload : List Byte) : List (List Byte × Option Error) :=
  [(payload, some .EOF)]

/-- The reads of a decompressor that returns the whole payload with a nil error; the next
`Read` returns `0, io.EOF`. -/
def readsThenEOF (payload : List Byte) : List (List Byte × Option Error) :=
  [(payload, none)]

/-- The reads of a decompressor that returns the first two bytes with a nil error and the
others together with `io.EOF`. -/
def readsInTwo (payload : List Byte) : List (List Byte × Option Error) :=
  [(payload.take 2, none), (payload.drop 2, some .EOF)]

end updater

namespace fastboot

open updater

/-- `bytes.Reader.Seek(offset, io.SeekStart)` on a reader over `s`: the returned offset, which
is the new offset from the start as the interface `io.Seeker` demands, and the bytes that the
following reads hand out; the error for a negative position. -/
def seekStart (s : List Byte) (offset : Int) : Except Error (Int × List Byte) :=
  if offset < 0 then .error .negativePosition else .ok (offset, s.drop offset.toNat)

/-- The constant `math.MaxUint32`. -/
def MaxUint32 : Int := 2 ^ 32 - 1

/-- `DownloadFromReadSeeker(ctx, r)` for `r` a `bytes.Reader` over `s`: the variable `len` is
what `r.Seek(0, io.SeekStart)` returns. -/
def DownloadFromReadSeeker (peer : Peer) (s : List Byte) : Option Error × List Action :=
  match seekStart s 0 with
  | .error err => (some err, [])
  | .ok (len, unread) =>
    if len > MaxUint32 then (some .ErrMaxLengthExceeded, [])
    else DownloadFromReader peer (bytesReader unread) (uint32OfInt len)

/-- A partition name of 59 characters. -/
def longPartition : String := String.mk (List.replicate 59 'a')

/-- A channel on which every write succeeds and every select receives `OKAY`, and the first
select of a download `DATA` for `size` bytes. -/
def okPeer (size : Nat) : Peer := ⟨fun _ => none, .result [], .readyForData size, .result []⟩

end fastboot

namespace updater

/-- An environment of the examples: the devices as given, the digests `sha1Table`, and a
decompressor whose reader returns the payload of the data in the reads `reads`. -/
def exampleEnv (openDevice : Nat → DeviceID → OpenResult)
    (reads : List Byte → List (List Byte × Option Error)) : Env :=
  ⟨openDevice, sha1Table, fun d => .ok (fun _ => reads (payloadOf d))⟩

/-- Every device is present, sets up, accepts every write, answers every command with `OKAY`
and every download with `DATA` for three bytes. -/
def acceptingEnv (reads : List Byte → List (List Byte × Option Error)) : Env :=
  exampleEnv (fun _ _ => .opened none (fastboot.okPeer 3)) reads

/-- The device `15e4:0001` is not there (`OpenDeviceWithVIDPID` returns `(nil, nil)`), every
other device is present and accepts everything. -/
def secondDeviceEnv (reads : List Byte → List (List Byte × Option Error)) : Env :=
  exampleEnv
    (fun _ deviceID =>
      if deviceID = ⟨0x15e4, 0x0001⟩ then .absent else .opened none (fastboot.okPeer 3))
    reads

/-- A manifest that the inventory accepts: the device `15e4:0001`, the version `1.0` and one
image for the partition `rootfs` with the data `xzOneTwoThree` and its SHA-1 digest. -/
def manifestOne : FDT :=
  manifestOf [0x15, 0xe4, 0x00, 0x01] [("image1", xzImage xzOneTwoThree "rootfs" sha1OneTwoThree)]

/-- The manifest `manifestOne` for the devices `15e4:0001` and `15e4:0002`. -/
def manifestTwoDevices : FDT :=
  manifestOf [0x15, 0xe4, 0x00, 0x01, 0x15, 0xe4, 0x00, 0x02]
    [("image1", xzImage xzOneTwoThree "rootfs" sha1OneTwoThree)]

/-- A manifest that the inventory accepts, for the devices `15e4:0001` and `15e4:0002`, with
two images of three bytes each. -/
def manifestTwoByTwo : FDT :=
  manifestOf [0x15, 0xe4, 0x00, 0x01, 0x15, 0xe4, 0x00, 0x02]
    [("image1", xzImage xzOneTwoThree "boot" sha1OneTwoThree),
     ("image2", xzImage xzFourFiveSix "rootfs" sha1FourFiveSix)]

/-- The manifest `manifestOne` with one byte of the data corrupted: the hash value is still the
digest of the data as it was. -/
def manifestCorrupt : FDT :=
  manifestOf [0x15, 0xe4, 0x00, 0x01] [("image1", xzImage xzCorrupt "rootfs" sha1OneTwoThree)]

/-- The manifest `manifestOne` without the node `hash` of its image. -/
def manifestWithoutHash : FDT :=
  manifestOf [0x15, 0xe4, 0x00, 0x01]
    [("image1", ⟨bytesProperty xzOneTwoThree, stringProperty "xz", stringProperty "rootfs",
       absentHash⟩)]

/-- The manifest `manifestOne` without the property `data` of its image. -/
def manifestWithoutData : FDT :=
  manifestOf [0x15, 0xe4, 0x00, 0x01]
    [("image1", ⟨absentProperty "cannot find property name \x22data\x22", stringProperty "xz",
       stringProperty "rootfs", ⟨stringProperty "sha1", bytesProperty sha1OneTwoThree⟩⟩)]

/-- The command that unlocks the device. -/
def unlockCommand : List Byte :=
  fastboot.bytesOfString ("oem:" ++ "inmusic-unlock-magic-7de5fbc22b8c524e")

/-- The writes that a dry run still makes: the unlock command and the queries of the
variables of the probe. -/
def DryRunWrite (msg : List Byte) : Prop :=
  msg = unlockCommand ∨ ∃ varName ∈ probeVariables, msg = fastboot.bytesOfString ("getvar:" ++ varName)

/-- The ticks among the events of a run, in order. -/
def ticks : List Event → List Progress
  | [] => []
  | .progress p :: rest => p :: ticks rest
  | .write _ :: rest => ticks rest

/-- The value of the field `Percentage` as an exact ratio: zero where the field is not set. -/
def Progress.value (p : Progress) : Rat :=
  match p.Percentage with
  | none => 0
  | some (transferred, total) => (transferred : Rat) / (total : Rat)

/-- The ticks that are not indeterminate, by the pair of transferred bytes and total size that
their `Percentage` is the quotient of. -/
def determinate : List Event → List (Int × Int)
  | [] => []
  | .progress ⟨false, some q⟩ :: rest => q :: determinate rest
  | _ :: rest => determinate rest

/-- The events of the update of one device: its determinate ticks have the total size `total`
for their denominator and numerators that are not negative and never decrease. -/
def MonotoneTicks (total : Int) (segment : List Event) : Prop :=
  (∀ q ∈ determinate segment, q.2 = total ∧ 0 ≤ q.1) ∧
  List.Pairwise (fun a b => a ≤ b) ((determinate segment).map (fun q => q.1))

/-- The events `events` extend `base` by a segment whose determinate ticks have the
denominator `total` and numerators that never decrease and lie between 0 and `k`. -/
def TicksUpTo (total : Int) (base events : List Event) (k : Int) : Prop :=
  ∃ segment, events = base ++ segment ∧
    (∀ q ∈ determinate segment, q.2 = total ∧ 0 ≤ q.1 ∧ q.1 ≤ k) ∧
    List.Pairwise (fun a b => a ≤ b) ((determinate segment).map (fun q => q.1)) ∧ 0 ≤ k

/-- The events `events` extend `base` by a segment without determinate ticks. -/
def NoTicks (base events : List Event) : Prop :=
  ∃ segment, events = base ++ segment ∧ determinate segment = []

/-- The events of the update of one device that has succeeded: the last tick of all is the
indeterminate tick "Finishing update...", whose `Percentage` is not set. -/
def Completed (segment : List Event) : Prop :=
  (ticks segment).getLast? = some ⟨true, none⟩

end updater

namespace fastboot

open updater

/-- A read that answers with an `INFO` frame whose two payload bytes are the length of the
buffer it was given, high byte first. -/
def lengthProbe : Read := fun len => (info ++ [byteOfNat (len / 256), byteOfNat len], none)

/-- A lower-case hexadecimal digit in ASCII: `0` to `9` or `a` to `f`. -/
def LowerHexDigit (c : Byte) : Prop :=
  (0x30 ≤ c.val ∧ c.val ≤ 0x39) ∨ (0x61 ≤ c.val ∧ c.val ≤ 0x66)

end fastboot

/-! # Theorems -/

namespace updater

/-! ## Uvarint -/

theorem byteOfNat_val (n : Nat) : (byteOfNat n).val = n % 256 := rfl

theorem lor_shift_eq_add {x s : Nat} (b : Nat) (hx : x < 2 ^ s) :
    x ||| (b <<< s) = x + b * 2 ^ s := by
  rw [Nat.shiftLeft_eq, Nat.lor_comm, Nat.mul_comm b, ← Nat.mul_add_lt_is_or hx, Nat.add_comm]

theorem writeUvarint_lt {v : Nat} (h : v < 128) : writeUvarint v = [byteOfNat v] := by
  rw [writeUvarint]; simp [h]

theorem writeUvarint_ge {v : Nat} (h : ¬ v < 128) :
    writeUvarint v = byteOfNat (128 + v % 128) :: writeUvarint (v / 128) := by
  rw [writeUvarint]; simp [h]

theorem and_0x7f (n : Nat) : n &&& 0x7f = n % 128 := by
  have := Nat.and_pow_two_sub_one_eq_mod n 7
  simpa using this

/-- Loop invariant of the decoder on an encoded value: after `i` groups the accumulator holds
the low `7 * i` bits. -/
theorem readUvarintLoop_writeUvarint (v : Nat) :
    ∀ (rest : ByteReader) (x i : Nat), i ≤ 9 → x < 2 ^ (7 * i) → x + v * 2 ^ (7 * i) < 2 ^ 64 →
      readUvarintLoop (writeUvarint v ++ rest) x (7 * i) i
        = (⟨x + v * 2 ^ (7 * i), i + (writeUvarint v).length, none⟩, rest) := by
  induction v using Nat.strong_induction_on with
  | _ v ih =>
    intro rest x i hi hx hv
    have hpos : 0 < 2 ^ (7 * i) := Nat.pos_of_ne_zero (by positivity)
    by_cases h : v < 128
    · rw [writeUvarint_lt h]
      have hb : (byteOfNat v).val = v := by rw [byteOfNat_val]; omega
      have hlast : ¬ (i + 1 = maxUvarintLen ∧ v > 1) := by
        rintro ⟨h1, h2⟩
        have h9 : i = 9 := by simp [maxUvarintLen] at h1; exact h1
        subst h9
        norm_num at hv
        omega
      have hsmall : v * 2 ^ (7 * i) < 2 ^ 64 := by omega
      simp only [List.singleton_append, readUvarintLoop, hb, List.length_singleton]
      have key : x ||| ((v <<< (7 * i)) % 2 ^ 64) = x + v * 2 ^ (7 * i) := by
        have h0 := lor_shift_eq_add v hx
        rw [Nat.shiftLeft_eq] at h0 ⊢
        rw [Nat.mod_eq_of_lt hsmall, h0]
      rw [if_neg (by simp [maxUvarintLen]; omega), if_pos (by omega), if_neg hlast, key]
      simp only [List.append_eq, List.nil_append]
    · rw [writeUvarint_ge h]
      have hb : (byteOfNat (128 + v % 128)).val = 128 + v % 128 := by
        rw [byteOfNat_val]; omega
      have hdm : v = 128 * (v / 128) + v % 128 := (Nat.div_add_mod v 128).symm
      have hpow : 2 ^ (7 * (i + 1)) = 128 * 2 ^ (7 * i) := by
        rw [Nat.mul_add, Nat.pow_add]; norm_num; ring
      have hi9 : i + 1 ≤ 9 := by
        by_contra hcon
        have h70 : 2 ^ 63 ≤ 2 ^ (7 * i) := Nat.pow_le_pow_right (by decide) (by omega)
        have : 128 * 2 ^ (7 * i) ≤ v * 2 ^ (7 * i) := Nat.mul_le_mul_right _ (by omega)
        norm_num at h70 hv
        omega
      have hlow : (v % 128) * 2 ^ (7 * i) < 2 ^ 64 := by
        have : (v % 128) * 2 ^ (7 * i) ≤ v * 2 ^ (7 * i) :=
          Nat.mul_le_mul_right _ (Nat.mod_le v 128)
        omega
      have hx' : x + (v % 128) * 2 ^ (7 * i) < 2 ^ (7 * (i + 1)) := by
        rw [hpow]
        have : (v % 128) * 2 ^ (7 * i) ≤ 127 * 2 ^ (7 * i) :=
          Nat.mul_le_mul_right _ (by omega)
        omega
      have hsplit : v * 2 ^ (7 * i) = (v % 128) * 2 ^ (7 * i) + (v / 128) * 2 ^ (7 * (i + 1)) := by
        rw [hpow]; conv_lhs => rw [hdm]
        ring
      have hv' : x + (v % 128) * 2 ^ (7 * i) + (v / 128) * 2 ^ (7 * (i + 1)) < 2 ^ 64 := by
        omega
      have hrec := ih (v / 128) (by omega) rest (x + (v % 128) * 2 ^ (7 * i)) (i + 1) hi9 hx' hv'
      simp only [List.cons_append, readUvarintLoop, hb, List.length_cons]
      rw [if_neg (by simp [maxUvarintLen]; omega), if_neg (by omega)]
      have hand : (128 + v % 128) &&& 0x7f = v % 128 := by
        rw [and_0x7f]; omega
      have key : x ||| (((v % 128) <<< (7 * i)) % 2 ^ 64) = x + (v % 128) * 2 ^ (7 * i) := by
        have h0 := lor_shift_eq_add (v % 128) hx
        rw [Nat.shiftLeft_eq] at h0 ⊢
        rw [Nat.mod_eq_of_lt hlow, h0]
      rw [hand, key]
      have h7 : 7 * i + 7 = 7 * (i + 1) := by ring
      simp only [List.append_eq]
      rw [h7, hrec]
      have : x + v % 128 * 2 ^ (7 * i) + v / 128 * 2 ^ (7 * (i + 1)) = x + v * 2 ^ (7 * i) := by
        omega
      rw [this]
      have : i + 1 + (writeUvarint (v / 128)).length = i + ((writeUvarint (v / 128)).length + 1) := by
        omega
      rw [this]

/-- Decoding an encoded value in front of any further bytes `rest`. -/
theorem readUvarint_encoded_append (v : Nat) (hv : v < 2 ^ 64) (rest : ByteReader) :
    readUvarint (writeUvarint v ++ rest) = (⟨v, (writeUvarint v).length, none⟩, rest) := by
  have := readUvarintLoop_writeUvarint v rest 0 0 (by omega) (by simp) (by simpa using hv)
  simpa [readUvarint] using this

/-- C2: for every `v` in `[0, 2^64 - 1]`, `readUvarint` applied to the standard uvarint
encoding of `v` (followed by any further bytes `rest`, which stay unread) returns the value
`v`, a byte count equal to the length of the encoding, and no error. -/
theorem readUvarint_writeUvarint (v : Nat) (hv : v < 2 ^ 64) (rest : ByteReader) :
    readUvarint (writeUvarint v ++ rest) = (⟨v, (writeUvarint v).length, none⟩, rest) :=
  readUvarint_encoded_append v hv rest

/-- Witness of C2 at the largest 64-bit value. -/
theorem readUvarint_writeUvarint_witness :
    readUvarint (writeUvarint (2 ^ 64 - 1) ++ [])
      = (⟨2 ^ 64 - 1, (writeUvarint (2 ^ 64 - 1)).length, none⟩, []) :=
  readUvarint_writeUvarint (2 ^ 64 - 1) (by decide) []

/-- Continuation bytes only move the loop on. -/
theorem readUvarintLoop_continuation (pre : List Byte) (hcont : ∀ b ∈ pre, 0x80 ≤ b.val) :
    ∀ (tail : ByteReader) (x s i : Nat), i + pre.length ≤ maxUvarintLen →
      ∃ x', readUvarintLoop (pre ++ tail) x s i
        = readUvarintLoop tail x' (s + 7 * pre.length) (i + pre.length) := by
  induction pre with
  | nil => intro tail x s i _; exact ⟨x, by simp⟩
  | cons b pre ih =>
    intro tail x s i hi
    have hb : 0x80 ≤ b.val := hcont b (List.mem_cons_self _ _)
    simp only [List.length_cons] at hi
    obtain ⟨x', hx'⟩ := ih (fun c hc => hcont c (List.mem_cons_of_mem _ hc)) tail
      (x ||| (((b.val &&& 0x7f) <<< s) % 2 ^ 64)) (s + 7) (i + 1) (by omega)
    refine ⟨x', ?_⟩
    simp only [List.cons_append, readUvarintLoop, List.length_cons, List.append_eq]
    rw [if_neg (by omega), if_neg (by omega), hx']
    congr 1 <;> omega

/-- A successful decode consumed at most `maxUvarintLen` bytes, and `n` counts them. -/
theorem readUvarintLoop_ok (bs : ByteReader) :
    ∀ (x s i : Nat), (readUvarintLoop bs x s i).1.err = none →
      (readUvarintLoop bs x s i).1.n ≤ maxUvarintLen ∧
      (readUvarintLoop bs x s i).1.n + (readUvarintLoop bs x s i).2.length = i + bs.length := by
  induction bs with
  | nil => intro x s i h; simp [readUvarintLoop] at h
  | cons b rest ih =>
    intro x s i h
    rw [readUvarintLoop] at h ⊢
    split_ifs at h ⊢ with h1 h2 h3
    · dsimp only [List.length_cons]
      constructor <;> omega
    · have := ih _ _ _ h
      dsimp only [List.length_cons]
      constructor <;> omega

/-- C3: `readUvarint` never accepts an encoding that does not fit 64 bits. For every input
whose first nine bytes `pre` all have the continuation bit set: a terminating tenth byte
(`< 0x80`) with value `> 1` gives `errOverflowU64`; a tenth byte with the continuation bit
followed by an eleventh byte gives `errOverflowU64`; and every successful result, on any
input, consumed at most 10 bytes (`n` being the number of bytes consumed). -/
theorem readUvarint_overflow (pre : List Byte) (hlen : pre.length = 9) (hcont : ∀ b ∈ pre, 0x80 ≤ b.val) :
    (∀ (b10 : Byte) (rest : List Byte), b10.val < 0x80 → 1 < b10.val →
        (readUvarint (pre ++ b10 :: rest)).1.err = some .errOverflowU64) ∧
    (∀ (b10 b11 : Byte) (rest : List Byte), 0x80 ≤ b10.val →
        (readUvarint (pre ++ b10 :: b11 :: rest)).1.err = some .errOverflowU64) ∧
    (∀ bs : List Byte, (readUvarint bs).1.err = none →
        (readUvarint bs).1.n ≤ 10 ∧ (readUvarint bs).1.n + (readUvarint bs).2.length = bs.length) := by
  refine ⟨?_, ?_, ?_⟩
  · intro b10 rest h1 h2
    obtain ⟨x', hx'⟩ := readUvarintLoop_continuation pre hcont (b10 :: rest) 0 0 0
      (by simp [hlen, maxUvarintLen])
    rw [readUvarint, hx', hlen]
    simp [readUvarintLoop, maxUvarintLen, h1, h2]
  · intro b10 b11 rest h1
    obtain ⟨x', hx'⟩ := readUvarintLoop_continuation pre hcont (b10 :: b11 :: rest) 0 0 0
      (by simp [hlen, maxUvarintLen])
    rw [readUvarint, hx', hlen]
    have h2 : ¬ b10.val < 128 := by omega
    simp [readUvarintLoop, maxUvarintLen, h2]
  · intro bs h
    have := readUvarintLoop_ok bs 0 0 0 h
    simpa [readUvarint, maxUvarintLen] using this

/-- Witness of C3: nine `0x80` bytes followed by `0x02`, and by `0x80 0x00`. -/
theorem readUvarint_overflow_witness :
    (readUvarint ([0x80, 0x80, 0x80, 0x80, 0x80, 0x80, 0x80, 0x80, 0x80] ++ [0x02])).1.err
        = some .errOverflowU64 ∧
    (readUvarint ([0x80, 0x80, 0x80, 0x80, 0x80, 0x80, 0x80, 0x80, 0x80] ++ [0x80, 0x00])).1.err
        = some .errOverflowU64 :=
  ⟨(readUvarint_overflow [0x80, 0x80, 0x80, 0x80, 0x80, 0x80, 0x80, 0x80, 0x80] rfl (by simp; decide)).1 0x02 []
      (by decide) (by decide),
   (readUvarint_overflow [0x80, 0x80, 0x80, 0x80, 0x80, 0x80, 0x80, 0x80, 0x80] rfl (by simp; decide)).2.1 0x80 0x00 []
      (by decide)⟩

/-! ## XZ footer -/

theorem seekEnd_neg (s : List Byte) (n : Nat) :
    seekEnd s (-(n : Int)) =
      if s.length < n then .error .negativePosition else .ok (s.drop (s.length - n)) := by
  unfold seekEnd
  simp only
  by_cases h : s.length < n
  · rw [if_pos (by omega), if_pos h]
  · rw [if_neg (by omega), if_neg h]
    congr 2
    omega

theorem getXZUncompressedLength_short (s : List Byte) (h : s.length < 12) :
    getXZUncompressedLength s = .error (.wrap "failed to seek to footer" .negativePosition) := by
  unfold getXZUncompressedLength
  rw [show (-(footerLen : Int)) = -((12 : Nat) : Int) from rfl, seekEnd_neg, if_pos h]

/-- The footer checks of `getXZUncompressedLength` in terms of the last twelve bytes. -/
theorem getXZUncompressedLength_eq (s : List Byte) (h : 12 ≤ s.length) :
    getXZUncompressedLength s =
      if (s.drop (s.length - 12)).drop 10 ≠ [0x59, 0x5a] then
        .error (.wrap "failed to read footer bytes" .ErrFooterMagicMismatch)
      else if leUint32 (s.drop (s.length - 12)) 0
          ≠ ChecksumIEEE (((s.drop (s.length - 12)).drop 4).take 6) then
        .error (.wrap "failed to read footer bytes" .ErrChecksumMismatch)
      else indexPart s (backwardSize (s.drop (s.length - 12))) := by
  have hl : (s.drop (s.length - 12)).length = 12 := by
    rw [List.length_drop]; omega
  have hd : ((s.drop (s.length - 12)).take 12) = s.drop (s.length - 12) :=
    List.take_of_length_le (by omega)
  have hm : ((s.drop (s.length - 12)).drop 10).take 2 = (s.drop (s.length - 12)).drop 10 :=
    List.take_of_length_le (by rw [List.length_drop, hl])
  unfold getXZUncompressedLength
  rw [show (-(footerLen : Int)) = -((12 : Nat) : Int) from rfl, seekEnd_neg, if_neg (by omega)]
  simp only [readBytes, footerLen, hl, hd]
  rw [if_neg (by decide)]
  dsimp only
  rw [hl, hm, if_neg (by simp)]
  rfl

/-- C4: for every input of at least 12 bytes whose last two bytes are not `YZ`,
`getXZUncompressedLength` returns the error that wraps `ErrFooterMagicMismatch`, whatever the
CRC field and the rest of the input contain. -/
theorem getXZUncompressedLength_magic_mismatch (s : List Byte) (hlen : 12 ≤ s.length)
    (hmagic : s.drop (s.length - 2) ≠ [0x59, 0x5a]) :
    getXZUncompressedLength s
      = .error (.wrap "failed to read footer bytes" .ErrFooterMagicMismatch) := by
  rw [getXZUncompressedLength_eq s hlen, if_pos]
  rw [List.drop_drop]
  have : s.length - 12 + 10 = s.length - 2 := by omega
  rw [this]; exact hmagic

/-- Witness of C4: twelve bytes ending in `YY`. -/
theorem getXZUncompressedLength_magic_mismatch_witness :
    getXZUncompressedLength [0, 0, 0, 0, 0, 0, 0, 0, 0, 0, 0x59, 0x59]
      = .error (.wrap "failed to read footer bytes" .ErrFooterMagicMismatch) :=
  getXZUncompressedLength_magic_mismatch [0, 0, 0, 0, 0, 0, 0, 0, 0, 0, 0x59, 0x59] (by decide) (by decide)

/-! ## CRC-32 is affine over xor -/

theorem xor_mod_two_pow (a b n : Nat) : (a ^^^ b) % 2 ^ n = (a % 2 ^ n) ^^^ (b % 2 ^ n) := by
  apply Nat.eq_of_testBit_eq
  intro i
  simp only [Nat.testBit_mod_two_pow, Nat.testBit_xor]
  by_cases h : i < n <;> simp [h]

theorem xor_shiftRight (a b n : Nat) : (a ^^^ b) >>> n = (a >>> n) ^^^ (b >>> n) := by
  apply Nat.eq_of_testBit_eq
  intro i
  simp only [Nat.testBit_shiftRight, Nat.testBit_xor]

theorem crcShift_xor (poly a b : Nat) :
    crcShift poly (a ^^^ b) = crcShift poly a ^^^ crcShift poly b := by
  unfold crcShift
  simp only [Nat.and_one_is_mod, xor_shiftRight]
  have hab : (a ^^^ b) % 2 = (a + b) % 2 := Nat.xor_mod_two_eq
  rcases Nat.mod_two_eq_zero_or_one a with ha | ha <;>
  rcases Nat.mod_two_eq_zero_or_one b with hb | hb
  · have : (a ^^^ b) % 2 = 0 := by omega
    simp [ha, hb, this]
  · have : (a ^^^ b) % 2 = 1 := by omega
    simp [ha, hb, this, Nat.xor_assoc]
  · have : (a ^^^ b) % 2 = 1 := by omega
    simp [ha, hb, this]
    rw [Nat.xor_assoc, Nat.xor_comm (b >>> 1) poly, ← Nat.xor_assoc]
  · have : (a ^^^ b) % 2 = 0 := by omega
    simp [ha, hb, this]
    rw [Nat.xor_assoc, ← Nat.xor_assoc poly, Nat.xor_comm poly (b >>> 1), Nat.xor_assoc (b >>> 1),
      Nat.xor_self, Nat.xor_zero]

theorem iterate_crcShift_xor (poly : Nat) (n a b : Nat) :
    Nat.iterate (crcShift poly) n (a ^^^ b)
      = Nat.iterate (crcShift poly) n a ^^^ Nat.iterate (crcShift poly) n b := by
  induction n generalizing a b with
  | zero => rfl
  | succ n ih => simp only [Function.iterate_succ, Function.comp_apply, crcShift_xor, ih]

theorem crcTable_xor (poly a b : Nat) :
    crcTable poly (a ^^^ b) = crcTable poly a ^^^ crcTable poly b :=
  iterate_crcShift_xor poly 8 a b

theorem crcTable_zero (poly : Nat) : crcTable poly 0 = 0 := by
  simp [crcTable, crcShift]

/-- One step of the loop is linear over xor, in the register and the data byte together. -/
theorem crcStep_xor (poly c d v m : Nat) :
    crcTable poly (((c ^^^ d) % 256) ^^^ (v ^^^ m)) ^^^ ((c ^^^ d) >>> 8)
      = (crcTable poly ((c % 256) ^^^ v) ^^^ (c >>> 8))
        ^^^ (crcTable poly ((d % 256) ^^^ m) ^^^ (d >>> 8)) := by
  have h256 : (c ^^^ d) % 256 = (c % 256) ^^^ (d % 256) := xor_mod_two_pow c d 8
  have hx : ((c % 256) ^^^ (d % 256)) ^^^ (v ^^^ m) = ((c % 256) ^^^ v) ^^^ ((d % 256) ^^^ m) := by
    simp only [Nat.xor_assoc]
    congr 1
    rw [← Nat.xor_assoc, Nat.xor_comm (d % 256) v, Nat.xor_assoc]
  rw [h256, hx, crcTable_xor, xor_shiftRight]
  simp only [Nat.xor_assoc]
  congr 1
  rw [← Nat.xor_assoc, Nat.xor_comm (crcTable poly ((d % 256) ^^^ m)), Nat.xor_assoc]

/-- A difference `d` in the register propagates through equal data as through zero bytes. -/
theorem crcLoop_xor (poly : Nat) (p : List Byte) (c d : Nat) :
    crcLoop poly (c ^^^ d) p = crcLoop poly c p ^^^ crcLoop poly d (List.replicate p.length 0) := by
  induction p generalizing c d with
  | nil => rfl
  | cons v p ih =>
    simp only [crcLoop, List.length_cons, List.replicate_succ]
    have := crcStep_xor poly c d v.val 0
    rw [Nat.xor_zero] at this
    rw [this, ih]
    rfl

theorem crcLoop_append (poly : Nat) (p q : List Byte) (c : Nat) :
    crcLoop poly c (p ++ q) = crcLoop poly (crcLoop poly c p) q := by
  induction p generalizing c with
  | nil => rfl
  | cons v p ih => simp only [List.cons_append, crcLoop, List.append_eq, ih]

theorem xor_two_pow_lt (b : Byte) (j : Nat) (hj : j < 8) : b.val ^^^ 2 ^ j < 256 := by
  have h1 : b.val < 2 ^ 8 := b.isLt
  have h2 : 2 ^ j < 2 ^ 8 := Nat.pow_lt_pow_right (by decide) hj
  exact Nat.xor_lt_two_pow h1 h2

theorem flip_val (b : Byte) (j : Nat) (hj : j < 8) :
    (byteOfNat (b.val ^^^ 2 ^ j)).val = b.val ^^^ 2 ^ j := by
  rw [byteOfNat_val, Nat.mod_eq_of_lt (xor_two_pow_lt b j hj)]

theorem flip_val_ne (b : Byte) (j : Nat) (hj : j < 8) :
    (byteOfNat (b.val ^^^ 2 ^ j)).val ≠ b.val := by
  rw [flip_val b j hj]
  intro h
  have h0 : b.val ^^^ 2 ^ j = b.val ^^^ 0 := by rw [Nat.xor_zero]; exact h
  have := Nat.xor_right_inj.mp h0
  have : 0 < 2 ^ j := Nat.pos_of_ne_zero (by positivity)
  omega

theorem crc_delta_ne_zero : ∀ k < 6, ∀ j < 8,
    crcLoop IEEE (crcTable IEEE (2 ^ j)) (List.replicate k 0) ≠ 0 := by
  decide

/-- Flipping one bit of one of at most six bytes changes the register after the loop. -/
theorem crcLoop_flip_ne (pre post : List Byte) (b : Byte) (j c : Nat) (hj : j < 8)
    (hpost : post.length < 6) :
    crcLoop IEEE c (pre ++ byteOfNat (b.val ^^^ 2 ^ j) :: post)
      ≠ crcLoop IEEE c (pre ++ b :: post) := by
  rw [crcLoop_append, crcLoop_append]
  simp only [crcLoop, flip_val b j hj]
  have h := crcStep_xor IEEE (crcLoop IEEE c pre) 0 b.val (2 ^ j)
  simp only [Nat.xor_zero, Nat.zero_mod, Nat.zero_xor, Nat.zero_shiftRight] at h
  rw [h, crcLoop_xor]
  intro hcon
  have h0 : crcLoop IEEE (crcTable IEEE (2 ^ j)) (List.replicate post.length 0) = 0 := by
    have := hcon
    conv at this => rhs; rw [← Nat.xor_zero (crcLoop IEEE _ post)]
    exact Nat.xor_right_inj.mp this
  exact crc_delta_ne_zero post.length hpost j hj h0


theorem flipBit_length (s : List Byte) (j : Nat) : ∀ p, (flipBit s p j).length = s.length := by
  induction s with
  | nil => intro p; rfl
  | cons b bs ih =>
    intro p
    cases p with
    | zero => rfl
    | succ p => simp [flipBit, ih]

theorem flipBit_drop (s : List Byte) (j : Nat) :
    ∀ k p, k ≤ p → (flipBit s p j).drop k = flipBit (s.drop k) (p - k) j := by
  induction s with
  | nil => intro k p _; simp [flipBit]
  | cons b bs ih =>
    intro k p hkp
    cases k with
    | zero => simp
    | succ k =>
      cases p with
      | zero => omega
      | succ p =>
        simp only [flipBit, List.drop_succ_cons]
        rw [ih k p (by omega)]
        congr 1
        omega

theorem length_eq_twelve (f : List Byte) (h : f.length = 12) :
    ∃ f0 f1 f2 f3 f4 f5 f6 f7 f8 f9 f10 f11,
      f = [f0, f1, f2, f3, f4, f5, f6, f7, f8, f9, f10, f11] := by
  match f, h with
  | [f0, f1, f2, f3, f4, f5, f6, f7, f8, f9, f10, f11], _ =>
    exact ⟨f0, f1, f2, f3, f4, f5, f6, f7, f8, f9, f10, f11, rfl⟩

/-- On a footer whose stored CRC matches, a bit flip in bytes `[0..10)` leaves the magic alone
and breaks the match. -/
theorem footer_flip (f : List Byte) (hlen : f.length = 12) (q j : Nat) (hq : q < 10) (hj : j < 8)
    (hcrc : leUint32 f 0 = ChecksumIEEE ((f.drop 4).take 6)) :
    (flipBit f q j).drop 10 = f.drop 10 ∧
    leUint32 (flipBit f q j) 0 ≠ ChecksumIEEE (((flipBit f q j).drop 4).take 6) := by
  obtain ⟨f0, f1, f2, f3, f4, f5, f6, f7, f8, f9, f10, f11, rfl⟩ := length_eq_twelve f hlen
  have hF : (0 : Nat) ^^^ 0xffffffff = 0xffffffff := by decide
  simp only [leUint32, ChecksumIEEE, simpleUpdate, List.drop_succ_cons, List.drop_zero,
    List.take_succ_cons, List.take_zero, List.getD_cons_zero, List.getD_cons_succ, hF] at hcrc
  have crcne : ∀ (d d' : List Byte), crcLoop IEEE 0xffffffff d' ≠ crcLoop IEEE 0xffffffff d →
      crcLoop IEEE 0xffffffff d ^^^ 0xffffffff ≠ crcLoop IEEE 0xffffffff d' ^^^ 0xffffffff := by
    intro d d' h h2
    exact h (Nat.xor_left_injective h2).symm
  interval_cases q
  all_goals
    simp only [flipBit, leUint32, ChecksumIEEE, simpleUpdate, List.drop_succ_cons, List.drop_zero,
      List.take_succ_cons, List.take_zero, List.getD_cons_zero, List.getD_cons_succ, hF,
      true_and]
  · rw [← hcrc]; have := flip_val_ne f0 j hj; omega
  · rw [← hcrc]; have := flip_val_ne f1 j hj; omega
  · rw [← hcrc]; have := flip_val_ne f2 j hj; omega
  · rw [← hcrc]; have := flip_val_ne f3 j hj; omega
  · rw [hcrc]
    exact crcne _ _ (crcLoop_flip_ne [] [f5, f6, f7, f8, f9] f4 j _ hj (by simp))
  · rw [hcrc]
    exact crcne _ _ (crcLoop_flip_ne [f4] [f6, f7, f8, f9] f5 j _ hj (by simp))
  · rw [hcrc]
    exact crcne _ _ (crcLoop_flip_ne [f4, f5] [f7, f8, f9] f6 j _ hj (by simp))
  · rw [hcrc]
    exact crcne _ _ (crcLoop_flip_ne [f4, f5, f6] [f8, f9] f7 j _ hj (by simp))
  · rw [hcrc]
    exact crcne _ _ (crcLoop_flip_ne [f4, f5, f6, f7] [f9] f8 j _ hj (by simp))
  · rw [hcrc]
    exact crcne _ _ (crcLoop_flip_ne [f4, f5, f6, f7, f8] [] f9 j _ hj (by simp))

/-- C5: for every input that `getXZUncompressedLength` accepts, flipping any single bit `j`
of a byte at offset `p` in the footer's CRC window (the first ten bytes of the last twelve:
the stored CRC-32 and the six bytes it covers) makes `getXZUncompressedLength` return the
error wrapping `ErrChecksumMismatch`; no single-bit flip there is accepted. -/
theorem getXZUncompressedLength_crc_window_flip (s : List Byte) (n : Int) (p j : Nat)
    (hok : getXZUncompressedLength s = .ok n)
    (hp1 : s.length - 12 ≤ p) (hp2 : p < s.length - 2) (hj : j < 8) :
    getXZUncompressedLength (flipBit s p j)
      = .error (.wrap "failed to read footer bytes" .ErrChecksumMismatch) := by
  have hlen : 12 ≤ s.length := by
    by_contra h
    rw [getXZUncompressedLength_short s (by omega)] at hok
    cases hok
  rw [getXZUncompressedLength_eq s hlen] at hok
  split_ifs at hok with hmagic hcrc
  have hl : (s.drop (s.length - 12)).length = 12 := by
    rw [List.length_drop]; omega
  obtain ⟨h1, h2⟩ := footer_flip (s.drop (s.length - 12)) hl (p - (s.length - 12)) j
    (by omega) hj (not_not.mp hcrc)
  rw [getXZUncompressedLength_eq _ (by rw [flipBit_length]; exact hlen), flipBit_length,
    flipBit_drop s j _ _ hp1, h1, if_neg hmagic, if_pos h2]

set_option maxRecDepth 100000 in
/-- Witness of C5: the 32-byte XZ stream of the empty input, bit 3 of footer byte 5 flipped. -/
theorem getXZUncompressedLength_crc_window_flip_witness :
    getXZUncompressedLength (flipBit
      [0xfd, 0x37, 0x7a, 0x58, 0x5a, 0x00, 0x00, 0x04, 0xe6, 0xd6, 0xb4, 0x46,
       0x00, 0x00, 0x00, 0x00, 0x1c, 0xdf, 0x44, 0x21,
       0x1f, 0xb6, 0xf3, 0x7d, 0x01, 0x00, 0x00, 0x00, 0x00, 0x04, 0x59, 0x5a] 25 3)
      = .error (.wrap "failed to read footer bytes" .ErrChecksumMismatch) :=
  getXZUncompressedLength_crc_window_flip
    [0xfd, 0x37, 0x7a, 0x58, 0x5a, 0x00, 0x00, 0x04, 0xe6, 0xd6, 0xb4, 0x46,
     0x00, 0x00, 0x00, 0x00, 0x1c, 0xdf, 0x44, 0x21,
     0x1f, 0xb6, 0xf3, 0x7d, 0x01, 0x00, 0x00, 0x00, 0x00, 0x04, 0x59, 0x5a] 0 25 3
    (by rfl) (by decide) (by decide) (by decide)

/-! ## The inspector reads the footer and the index only -/

theorem drop_agree {s t : List Byte} {a b : Nat} (h : s.drop a = t.drop a) (hab : a ≤ b) :
    s.drop b = t.drop b := by
  have hb : b = a + (b - a) := by omega
  rw [hb, ← List.drop_drop, ← List.drop_drop, h]

theorem backwardSize_le_spec (f : List Byte) : backwardSize f ≤ specBackwardSize f := by
  unfold backwardSize specBackwardSize
  exact Nat.mul_le_mul_right 4 (Nat.mod_le _ _)

theorem indexPart_congr (s t : List Byte) (bs : Nat) (hlen : s.length = t.length)
    (h : s.drop (s.length - (bs + 12)) = t.drop (t.length - (bs + 12))) :
    indexPart s bs = indexPart t bs := by
  unfold indexPart
  rw [show bs + footerLen = bs + 12 from rfl, seekEnd_neg, seekEnd_neg, hlen]
  by_cases hlt : t.length < bs + 12
  · rw [if_pos hlt, if_pos hlt]
  · rw [if_neg hlt, if_neg hlt, ← h, hlen]

/-- C6: the result of `getXZUncompressedLength` depends only on the footer and the index.
Two inputs of equal length that agree on their final `backward_size + 12` bytes
(`backward_size` computed from the footer as the specification states it; the whole input when
it is shorter than that) give the same result, value or error; bytes of the compressed blocks
never change the reported size. -/
theorem getXZUncompressedLength_footer_index_only (s t : List Byte) (hlen : s.length = t.length)
    (hagree : s.drop (s.length - (specBackwardSize (s.drop (s.length - 12)) + 12))
      = t.drop (t.length - (specBackwardSize (s.drop (s.length - 12)) + 12))) :
    getXZUncompressedLength s = getXZUncompressedLength t := by
  by_cases hshort : s.length < 12
  · rw [getXZUncompressedLength_short s hshort, getXZUncompressedLength_short t (by omega)]
  · have hfoot : s.drop (s.length - 12) = t.drop (t.length - 12) := by
      rw [← hlen] at hagree ⊢
      exact drop_agree hagree (by omega)
    have hidx : s.drop (s.length - (backwardSize (s.drop (s.length - 12)) + 12))
        = t.drop (t.length - (backwardSize (s.drop (s.length - 12)) + 12)) := by
      have := backwardSize_le_spec (s.drop (s.length - 12))
      rw [← hlen] at hagree ⊢
      exact drop_agree hagree (by omega)
    rw [getXZUncompressedLength_eq s (by omega), getXZUncompressedLength_eq t (by omega),
      ← hfoot, indexPart_congr s t _ hlen hidx]

set_option maxRecDepth 100000 in
/-- Witness of C6: two streams that differ in their three block bytes only. -/
theorem getXZUncompressedLength_footer_index_only_witness :
    getXZUncompressedLength
        [1, 2, 3, 0x00, 0x01, 0x20, 0xac, 0x02, 0, 0, 0,
         0x1f, 0xb6, 0xf3, 0x7d, 0x01, 0x00, 0x00, 0x00, 0x00, 0x04, 0x59, 0x5a]
      = getXZUncompressedLength
        [7, 8, 9, 0x00, 0x01, 0x20, 0xac, 0x02, 0, 0, 0,
         0x1f, 0xb6, 0xf3, 0x7d, 0x01, 0x00, 0x00, 0x00, 0x00, 0x04, 0x59, 0x5a] :=
  getXZUncompressedLength_footer_index_only
    [1, 2, 3, 0x00, 0x01, 0x20, 0xac, 0x02, 0, 0, 0,
     0x1f, 0xb6, 0xf3, 0x7d, 0x01, 0x00, 0x00, 0x00, 0x00, 0x04, 0x59, 0x5a]
    [7, 8, 9, 0x00, 0x01, 0x20, 0xac, 0x02, 0, 0, 0,
     0x1f, 0xb6, 0xf3, 0x7d, 0x01, 0x00, 0x00, 0x00, 0x00, 0x04, 0x59, 0x5a]
    (by rfl) (by rfl)

/-! ## The inspector on a well-formed stream -/

theorem crcShift_lt (c : Nat) (h : c < 2 ^ 32) : crcShift IEEE c < 2 ^ 32 := by
  unfold crcShift
  have h1 : c >>> 1 < 2 ^ 32 := by
    rw [Nat.shiftRight_eq_div_pow]; omega
  split_ifs
  · exact Nat.xor_lt_two_pow h1 (by decide)
  · exact h1

theorem crcTable_lt (c : Nat) (h : c < 2 ^ 32) : crcTable IEEE c < 2 ^ 32 := by
  unfold crcTable
  simp only [Function.iterate_succ, Function.iterate_zero, Function.comp_apply, id_eq]
  exact crcShift_lt _ (crcShift_lt _ (crcShift_lt _ (crcShift_lt _ (crcShift_lt _
    (crcShift_lt _ (crcShift_lt _ (crcShift_lt _ h)))))))

theorem crcLoop_lt (p : List Byte) : ∀ c, c < 2 ^ 32 → crcLoop IEEE c p < 2 ^ 32 := by
  induction p with
  | nil => intro c h; exact h
  | cons v p ih =>
    intro c h
    simp only [crcLoop]
    apply ih
    have h1 : c % 256 < 2 ^ 8 := Nat.mod_lt _ (by decide)
    have h2 : v.val < 2 ^ 8 := v.isLt
    have h3 : (c % 256) ^^^ v.val < 2 ^ 8 := Nat.xor_lt_two_pow h1 h2
    have h4 : c >>> 8 < 2 ^ 32 := by
      rw [Nat.shiftRight_eq_div_pow]
      exact lt_of_le_of_lt (Nat.div_le_self _ _) h
    exact Nat.xor_lt_two_pow (crcTable_lt _ (by omega)) h4

theorem ChecksumIEEE_lt (data : List Byte) : ChecksumIEEE data < 2 ^ 32 := by
  unfold ChecksumIEEE simpleUpdate
  exact Nat.xor_lt_two_pow (crcLoop_lt _ _ (by decide)) (by decide)

theorem leUint32_le32Bytes (v : Nat) (hv : v < 2 ^ 32) (rest : List Byte) :
    leUint32 (le32Bytes v ++ rest) 0 = v := by
  simp only [leUint32, le32Bytes, List.cons_append, List.nil_append, List.getD_cons_zero,
    List.getD_cons_succ, byteOfNat_val]
  omega

theorem wrapInt64_of_nonneg_lt (z : Int) (h0 : 0 ≤ z) (h1 : z < 2 ^ 63) : wrapInt64 z = z := by
  unfold wrapInt64
  rw [Int.emod_eq_of_lt (by omega) (by omega)]
  omega

theorem sum_cons_snd (r : Nat × Nat) (rs : List (Nat × Nat)) :
    ((r :: rs).map (fun r => r.2)).sum = r.2 + (rs.map (fun r => r.2)).sum := by
  simp

/-- The record loop on encoded records: it returns the running total plus the sum of the
uncompressed sizes, as long as that stays below `2 ^ 63`. -/
theorem recordLoop_encodeRecords (records : List (Nat × Nat)) :
    ∀ (i : Nat) (total : Nat) (rest : List Byte),
      (∀ r ∈ records, r.1 < 2 ^ 64) →
      total + (records.map (fun r => r.2)).sum < 2 ^ 63 →
      recordLoop records.length i (total : Int) (encodeRecords records ++ rest)
        = .ok ((total + (records.map (fun r => r.2)).sum : Nat) : Int) := by
  induction records with
  | nil => intro i total rest _ _; simp [recordLoop]
  | cons r rs ih =>
    intro i total rest hun hsum
    rw [sum_cons_snd] at hsum ⊢
    have h1 : r.1 < 2 ^ 64 := hun r (List.mem_cons_self _ _)
    have h2 : r.2 < 2 ^ 64 := by omega
    simp only [List.length_cons, recordLoop, encodeRecords, List.append_assoc]
    rw [readUvarint_encoded_append r.1 h1]
    simp only
    rw [readUvarint_encoded_append r.2 h2]
    simp only
    rw [wrapInt64_of_nonneg_lt (r.2 : Int) (by omega) (by omega),
      wrapInt64_of_nonneg_lt _ (by omega) (by omega)]
    have := ih (i + 1) (total + r.2) rest (fun q hq => hun q (List.mem_cons_of_mem _ hq))
      (by omega)
    rw [Nat.cast_add] at this
    rw [this]
    congr 2
    omega

/-- C1: for every byte string `s` and every well-formed XZ stream that compresses `s`
(arbitrary block bytes; then the index: marker `0x00`, uvarint record count, per record a
uvarint unpadded size and a uvarint uncompressed size, and the padding and CRC bytes `tail`;
then the 12-byte footer with a correct CRC-32, a stored backward-size field `v` with
`(v + 1) * 4` the length of the index, so that it points at the index start, two flag bytes
and the magic `YZ`), `getXZUncompressedLength` returns no error and the sum of the
uncompressed-size fields of the records, which is `len(s)`. The stored field of a 32-bit
footer whose index is shorter than `2 ^ 34` bytes satisfies `v + 1 < 2 ^ 32`; `len(s)` is a Go
`int`, below `2 ^ 63`. -/
theorem getXZUncompressedLength_wellFormed (s blocks tail flags : List Byte) (records : List (Nat × Nat)) (v : Nat)
    (hflags : flags.length = 2)
    (hv : v + 1 < 2 ^ 32)
    (hidx : (xzIndex records tail).length = (v + 1) * 4)
    (hcount : records.length < 2 ^ 64)
    (hrec : ∀ r ∈ records, r.1 < 2 ^ 64)
    (hsum : (records.map (fun r => r.2)).sum = s.length)
    (hs : s.length < 2 ^ 63) :
    getXZUncompressedLength (blocks ++ xzIndex records tail ++ xzFooter v flags)
      = .ok (s.length : Int) := by
  obtain ⟨g0, g1, rfl⟩ : ∃ g0 g1, flags = [g0, g1] := by
    match flags, hflags with
    | [g0, g1], _ => exact ⟨g0, g1, rfl⟩
  have hflen : (xzFooter v [g0, g1]).length = 12 := by simp [xzFooter, le32Bytes]
  have hdrop : ∀ pre : List Byte, (pre ++ xzFooter v [g0, g1]).drop
      ((pre ++ xzFooter v [g0, g1]).length - 12) = xzFooter v [g0, g1] := by
    intro pre
    rw [List.length_append, hflen, Nat.add_sub_cancel, List.drop_left]
  have hcrc : leUint32 (xzFooter v [g0, g1]) 0
      = ChecksumIEEE (((xzFooter v [g0, g1]).drop 4).take 6) := by
    have h6 : ((xzFooter v [g0, g1]).drop 4).take 6 = le32Bytes v ++ [g0, g1] := by
      simp [xzFooter, le32Bytes]
    rw [h6]
    unfold xzFooter
    rw [List.append_assoc, List.append_assoc, leUint32_le32Bytes _ (ChecksumIEEE_lt _)]
  have hmagic : (xzFooter v [g0, g1]).drop 10 = [0x59, 0x5a] := by
    simp [xzFooter, le32Bytes]
  have hbs : backwardSize (xzFooter v [g0, g1]) = (xzIndex records tail).length := by
    have h4 : leUint32 (xzFooter v [g0, g1]) 4 = v := by
      have := leUint32_le32Bytes v (by omega) ([g0, g1] ++ [0x59, 0x5a])
      simp only [leUint32, le32Bytes, xzFooter, List.cons_append, List.nil_append,
        List.getD_cons_zero, List.getD_cons_succ] at this ⊢
      exact this
    unfold backwardSize
    rw [h4, Nat.mod_eq_of_lt hv, hidx]
  have hlen12 : 12 ≤ (blocks ++ xzIndex records tail ++ xzFooter v [g0, g1]).length := by
    rw [List.length_append, hflen]; omega
  rw [getXZUncompressedLength_eq _ hlen12, hdrop, if_neg (not_not.mpr hmagic),
    if_neg (not_not.mpr hcrc), hbs]
  unfold indexPart
  rw [seekEnd_neg, if_neg (by simp [footerLen, hflen])]
  have hseek : (blocks ++ xzIndex records tail ++ xzFooter v [g0, g1]).drop
      ((blocks ++ xzIndex records tail ++ xzFooter v [g0, g1]).length
        - ((xzIndex records tail).length + footerLen))
      = xzIndex records tail ++ xzFooter v [g0, g1] := by
    rw [List.append_assoc]
    have : (blocks ++ (xzIndex records tail ++ xzFooter v [g0, g1])).length
        - ((xzIndex records tail).length + footerLen) = blocks.length := by
      simp only [List.length_append, hflen, footerLen]; omega
    rw [this, List.drop_left]
  rw [hseek]
  simp only [xzIndex, List.cons_append, ReadByte, List.append_assoc]
  rw [if_neg (by simp), readUvarint_encoded_append _ hcount]
  simp only
  have := recordLoop_encodeRecords records 0 0 (tail ++ xzFooter v [g0, g1]) hrec
    (by omega)
  simp only [Nat.cast_zero, Nat.zero_add] at this
  rw [this, hsum]

/-- Witness of C1: one record of 300 uncompressed bytes behind three block bytes. -/
theorem getXZUncompressedLength_wellFormed_witness :
    getXZUncompressedLength ([1, 2, 3] ++ xzIndex [(32, 300)] [0, 0, 0] ++ xzFooter 1 [0, 4])
      = .ok ((List.replicate 300 (0 : Byte)).length : Int) :=
  getXZUncompressedLength_wellFormed (List.replicate 300 0) [1, 2, 3] [0, 0, 0] [0, 4]
    [(32, 300)] 1 (by decide) (by decide)
    (by simp [xzIndex, encodeRecords, writeUvarint]) (by decide) (by simp)
    (by rw [List.length_replicate]; rfl) (by rw [List.length_replicate]; decide)

/-! ## The device list -/

theorem take_succ_set (items : List DeviceID) (x : DeviceID) :
    ∀ i, i < items.length → (items.set i x).take (i + 1) = items.take i ++ [x] := by
  induction items with
  | nil => intro i h; simp at h
  | cons a l ih =>
    intro i h
    cases i with
    | zero => simp
    | succ i =>
      simp only [List.length_cons] at h
      simp only [List.set_cons_succ, List.take_succ_cons, List.cons_append, ih i (by omega)]

theorem drop_four (b : List Byte) (k : Nat) (h : k + 3 < b.length) :
    b.drop k = b.getD k 0 :: b.getD (k + 1) 0 :: b.getD (k + 2) 0 :: b.getD (k + 3) 0
      :: b.drop (k + 4) := by
  have e : ∀ j, j < b.length → b.drop j = b.getD j 0 :: b.drop (j + 1) := by
    intro j hj
    rw [List.drop_eq_getElem_cons hj, List.getD_eq_getElem?_getD, List.getElem?_eq_getElem hj]
    rfl
  rw [e k (by omega), e (k + 1) (by omega), e (k + 2) (by omega), e (k + 3) (by omega)]

/-- Loop invariant of `bytesAsDeviceList`: the first `i` items are final, the others follow
from the bytes. -/
theorem bytesAsDeviceListLoop_eq (b : List Byte) (n : Nat) (hb : b.length = 4 * n) :
    ∀ (k i : Nat) (items : List DeviceID), n - i = k → i ≤ n → items.length = n →
      bytesAsDeviceListLoop (b.drop (4 * i)) i items
        = .ok (items.take i ++ (List.range' i (n - i)).map (deviceAt b)) := by
  intro k
  induction k with
  | zero =>
    intro i items hk hi hlen
    have : i = n := by omega
    subst this
    rw [List.drop_of_length_le (by omega), bytesAsDeviceListLoop]
    simp [← hlen]
  | succ k ih =>
    intro i items hk hi hlen
    rw [drop_four b (4 * i) (by omega), bytesAsDeviceListLoop, if_pos (by omega)]
    have h4 : 4 * i + 4 = 4 * (i + 1) := by ring
    rw [h4, ih (i + 1) _ (by omega) (by omega) (by simp [hlen]), take_succ_set _ _ i (by omega)]
    have hr : List.range' i (n - i) = i :: List.range' (i + 1) (n - (i + 1)) := by
      have : n - i = (n - (i + 1)) + 1 := by omega
      rw [this, List.range'_succ]
    rw [hr, List.map_cons, List.append_assoc]
    rfl

/-- The code and the reference definition of the device list agree. -/
theorem bytesAsDeviceList_eq (b : List Byte) : bytesAsDeviceList b = bytesAsDeviceListSpec b := by
  unfold bytesAsDeviceList bytesAsDeviceListSpec
  by_cases h : b.length % 4 ≠ 0
  · rw [if_pos h, if_pos h]
  · rw [if_neg h, if_neg h]
    have hb : b.length = 4 * (b.length / 4) := by omega
    have := bytesAsDeviceListLoop_eq b (b.length / 4) hb (b.length / 4) 0
      (List.replicate (b.length / 4) ⟨0, 0⟩) (by omega) (by omega) (by simp)
    simp only [Nat.mul_zero, List.take_zero, List.nil_append, Nat.sub_zero, List.drop_zero]
      at this
    rw [this, List.range_eq_range']

/-- C7: `bytesAsDeviceList` equals its reference definition for every byte string `b`: it
returns `ErrInvalidLength` (and no list) exactly when `len(b)` is not divisible by 4;
otherwise it returns the list of exactly `len(b)/4` entries, in input order, entry `i` having
`VendorID` the big-endian word `b[4i..4i+2)` and `ProductID` the big-endian word
`b[4i+2..4i+4)`; it never panics. -/
theorem bytesAsDeviceList_eq_spec (b : List Byte) :
    bytesAsDeviceList b = bytesAsDeviceListSpec b ∧
    (bytesAsDeviceList b = .error .ErrInvalidLength ↔ b.length % 4 ≠ 0) ∧
    ∀ items, bytesAsDeviceList b = .ok items ↔
      (b.length % 4 = 0 ∧ items = (List.range (b.length / 4)).map (deviceAt b)) := by
  refine ⟨bytesAsDeviceList_eq b, ?_, ?_⟩
  · rw [bytesAsDeviceList_eq, bytesAsDeviceListSpec]
    by_cases h : b.length % 4 ≠ 0
    · simp [h]
    · simp [h]
  · intro items
    rw [bytesAsDeviceList_eq, bytesAsDeviceListSpec]
    by_cases h : b.length % 4 ≠ 0
    · simp [h]
    · have h0 : b.length % 4 = 0 := by omega
      simp [h0, eq_comm]

end updater

/-! ## The reader task of the fastboot channel -/

namespace fastboot
open updater

/-- After an `OKAY` frame with a payload of fewer than four bytes the next read is offered a
buffer of that length, cannot return a frame, and the reader task returns. -/
theorem readerTask_short_okay (payload : List Byte) (hp : payload.length < 4) (rd : Read)
    (rest : List Read) (hrd : (rd payload.length).2 = none) :
    readerTask (frameRead (okay ++ payload) :: rd :: rest)
      = ([.result payload,
          .error (.TooShortPayloadError "message type"
            ((rd payload.length).1.take payload.length).length 4)], .returned) := by
  have hlen : (okay ++ payload).length ≤ 512 := by
    simp only [List.length_append]
    have : okay.length = 4 := by decide
    omega
  have h4 : okay.length = 4 := by decide
  have htake : (okay ++ payload).take 512 = okay ++ payload :=
    List.take_of_length_le hlen
  have hfr : frameRead (okay ++ payload) 512 = (okay ++ payload, none) := by
    simp only [frameRead, htake]
  have hn : ¬ (okay ++ payload).length < 4 := by
    simp only [List.length_append, h4]; omega
  have ht : (okay ++ payload).take 4 = okay := by
    rw [← h4, List.take_left]
  have hd : (okay ++ payload).drop 4 = payload := by
    rw [← h4, List.drop_left]
  have hshort : ((rd payload.length).1.take payload.length).length < 4 := by
    rw [List.length_take]; omega
  rw [readerTask, readerLoop]
  simp only [hfr, htake, if_neg hn, ht, hd, if_true]
  rw [readerLoop]
  simp only [hrd, if_pos hshort, send]

set_option maxRecDepth 100000 in
/-- C10 (failing input): the frames `OKAYfoo`, `INFObar`, `OKAYbaz`, one per read. After
`OKAYfoo` the reader task offers the next read a buffer of three bytes, so `INFObar` arrives
as three bytes, the task sends `TooShortPayloadError` and returns: `bar` is never sent on the
info channel and `baz` never on the result channel, and the second `Command` call is served
the error. -/
theorem readerTask_okay_info_okay :
    readerTask [frameRead (bytesOfString "OKAYfoo"), frameRead (bytesOfString "INFObar"),
        frameRead (bytesOfString "OKAYbaz")]
      = ([.result (bytesOfString "foo"), .error (.TooShortPayloadError "message type" 3 4)],
         .returned) ∧
    commandReturns (readerTask [frameRead (bytesOfString "OKAYfoo"),
        frameRead (bytesOfString "INFObar"), frameRead (bytesOfString "OKAYbaz")]).1
      = [.ok (bytesOfString "foo"), .error (.TooShortPayloadError "message type" 3 4)] ∧
    infoSent (readerTask [frameRead (bytesOfString "OKAYfoo"),
        frameRead (bytesOfString "INFObar"), frameRead (bytesOfString "OKAYbaz")]).1 = [] := by
  refine ⟨by decide, by decide, by decide⟩

set_option maxRecDepth 100000 in
/-- The framing law holds for a single frame: one `OKAY` frame is returned by the first
`Command` call, and the task then waits for the next read. -/
theorem readerTask_single_okay :
    readerTask [frameRead (bytesOfString "OKAYfoo")]
      = ([.result (bytesOfString "foo")], .waiting) := by
  decide

end fastboot

namespace fastboot
open updater

/-! ## The download handshake -/

/-- C11: for every requested size `s` and every reported size `r` with `r ≠ s`, when the write
of the download command succeeds and the first select receives the ready-for-data
notification of a `DATA` frame carrying `r`, `DownloadFromReader` returns
`UnexpectedDataSizeError` with `ExpectedLength = s` and `ActualLength = r`, and all it did is
write the command: the payload reader is not read and no payload is written. -/
theorem DownloadFromReader_size_mismatch (peer : Peer) (r : Reader) (s reported : Nat)
    (hwrite : peer.writeErr 0 = none) (hdata : peer.dataReply = .readyForData reported)
    (hne : reported ≠ s) :
    DownloadFromReader peer r s
      = (some (.UnexpectedDataSizeError "allocated data buffer" reported s),
         [.write (bytesOfString ("download:" ++ hex8 s))]) ∧
    readsIn (DownloadFromReader peer r s).2 = [] ∧
    writesIn (DownloadFromReader peer r s).2 = [bytesOfString ("download:" ++ hex8 s)] := by
  have h : DownloadFromReader peer r s
      = (some (.UnexpectedDataSizeError "allocated data buffer" reported s),
         [.write (bytesOfString ("download:" ++ hex8 s))]) := by
    simp only [DownloadFromReader, dataCommand, hwrite, hdata, if_pos hne]
  rw [h]
  exact ⟨rfl, rfl, rfl⟩

set_option maxRecDepth 100000 in
/-- Witness of C11: 256 bytes requested, `DATA000000ff` received. -/
theorem DownloadFromReader_size_mismatch_witness :
    DownloadFromReader ⟨fun _ => none, .result [], .readyForData 255, .result []⟩
        (fun _ => [([1, 2, 3], none)]) 256
      = (some (.UnexpectedDataSizeError "allocated data buffer" 255 256),
         [.write (bytesOfString "download:00000100")]) :=
  (DownloadFromReader_size_mismatch ⟨fun _ => none, .result [], .readyForData 255, .result []⟩
    (fun _ => [([1, 2, 3], none)]) 256 255 rfl rfl (by decide)).1

/-- The streaming loop over reads that all return data without an error, every write
succeeding: it reaches the end of the stream, and what it wrote is what was read. -/
theorem streamLoop_all (peer : Peer) (hwrite : ∀ i, peer.writeErr i = none) :
    ∀ (reads : List (List Byte × Option Error)) (wi : Nat),
      (∀ c ∈ reads, c.2 = none ∧ c.1.length ≤ 128 * 1024) →
      (streamLoop peer reads wi).1 = none ∧
      writesIn (streamLoop peer reads wi).2 = reads.map (fun c => c.1) := by
  intro reads
  induction reads with
  | nil => intro wi _; exact ⟨rfl, rfl⟩
  | cons c rest ih =>
    intro wi h
    obtain ⟨chunk, err⟩ := c
    have hc := h (chunk, err) (List.mem_cons_self _ _)
    simp only at hc
    obtain ⟨he, hl⟩ := hc
    subst he
    have hrest := ih (wi + 1) (fun c hc => h c (List.mem_cons_of_mem _ hc))
    simp only [streamLoop, hwrite, List.take_of_length_le hl, writesIn, List.map_cons]
    exact ⟨hrest.1, by rw [hrest.2]⟩

/-- The download of a reader that reports the end of the stream by itself (every read with
data has a nil error): with `DATA` for the matching size, `OKAY` at the end and every write
succeeding, `DownloadFromReader` returns nil and writes the command and then the chunks as
read, each of at most 128 KiB. -/
theorem DownloadFromReader_streams (peer : Peer) (r : Reader) (size : Nat) (d : List Byte)
    (hwrite : ∀ i, peer.writeErr i = none) (hdata : peer.dataReply = .readyForData size)
    (hfinal : peer.finalReply = .result d)
    (hreads : ∀ c ∈ r (128 * 1024), c.2 = none ∧ c.1.length ≤ 128 * 1024) :
    (DownloadFromReader peer r size).1 = none ∧
    writesIn (DownloadFromReader peer r size).2
      = bytesOfString ("download:" ++ hex8 size) :: (r (128 * 1024)).map (fun c => c.1) := by
  obtain ⟨h1, h2⟩ := streamLoop_all peer hwrite (r (128 * 1024)) 1 hreads
  simp only [DownloadFromReader, dataCommand, hwrite, hdata, ne_eq, not_true_eq_false,
    if_false]
  cases hs : streamLoop peer (r (128 * 1024)) 1 with
  | mk e acts =>
    rw [hs] at h1 h2
    simp only at h1 h2
    subst h1
    simp only [hfinal, writesIn, h2]
    exact ⟨trivial, trivial⟩

set_option maxRecDepth 100000 in
/-- C12 (failing input): a reader whose only `Read` returns the three bytes of the payload
together with `io.EOF`. The device answers `DATA00000003` and then `OKAY`, every write
succeeds, and `DownloadFromReader` returns nil having written the command only: the loop
breaks on the error before it writes the bytes that came with it. -/
theorem DownloadFromReader_data_with_EOF :
    DownloadFromReader ⟨fun _ => none, .result [], .readyForData 3, .result []⟩
        (fun _ => [([1, 2, 3], some .EOF)]) 3
      = (none, [.write (bytesOfString "download:00000003"), .read 3 (some .EOF)]) ∧
    writesIn (DownloadFromReader ⟨fun _ => none, .result [], .readyForData 3, .result []⟩
        (fun _ => [([1, 2, 3], some .EOF)]) 3).2 = [bytesOfString "download:00000003"] := by
  exact ⟨by decide, by decide⟩

/-! ## `DownloadFromReadSeeker` -/

/-- Whatever the reader holds, `DownloadFromReadSeeker` takes the offset `0` that
`Seek(0, io.SeekStart)` returns for the length. -/
theorem DownloadFromReadSeeker_eq (peer : Peer) (s : List Byte) :
    DownloadFromReadSeeker peer s = DownloadFromReader peer (bytesReader s) 0 := by
  simp [DownloadFromReadSeeker, seekStart, MaxUint32, uint32OfInt]

set_option maxRecDepth 100000 in
/-- C15 (failing input): a reader that holds the three bytes `1, 2, 3`. The command written is
`download:00000000`, not `download:00000003`; the device that answers with `DATA` for the
true length 3 makes the call fail with `UnexpectedDataSizeError`. -/
theorem DownloadFromReadSeeker_three_bytes :
    DownloadFromReadSeeker ⟨fun _ => none, .result [], .readyForData 3, .result []⟩ [1, 2, 3]
      = (some (.UnexpectedDataSizeError "allocated data buffer" 3 0),
         [.write (bytesOfString "download:00000000")]) := by
  decide

/-! ## `TEXT` frames -/

/-- A first frame `TEXT` with a payload that is not empty makes the reader task panic: it
calls `Write` on the nil `textBuf`. Nothing is sent on the text channel. -/
theorem readerTask_text_panics (payload : List Byte) (rest : List Read)
    (hne : 0 < payload.length) (hlen : payload.length ≤ 508) :
    readerTask (frameRead (text ++ payload) :: rest) = ([], .panicked) := by
  have h4 : text.length = 4 := by decide
  have hl : (text ++ payload).length ≤ 512 := by
    rw [List.length_append, h4]; omega
  have htake : (text ++ payload).take 512 = text ++ payload := List.take_of_length_le hl
  have hfr : frameRead (text ++ payload) 512 = (text ++ payload, none) := by
    simp only [frameRead, htake]
  have hn : ¬ (text ++ payload).length < 4 := by
    rw [List.length_append, h4]; omega
  have ht : (text ++ payload).take 4 = text := by rw [← h4, List.take_left]
  have hd : (text ++ payload).drop 4 = payload := by rw [← h4, List.drop_left]
  rw [readerTask, readerLoop]
  simp only [hfr, htake, if_neg hn, ht, hd]
  rw [if_neg (by decide), if_neg (by decide), if_neg (by decide), if_neg (by decide),
    if_pos trivial, if_pos hne]

set_option maxRecDepth 100000 in
/-- C16 (failing input): the one frame `TEXThello\0`. The reader task panics at
`textBuf.Write`, for `textBuf` is a nil `*bytes.Buffer` that is never assigned; the string
`hello` is not sent on the text channel. -/
theorem readerTask_text_hello :
    readerTask [frameRead (bytesOfString "TEXThello" ++ [0])] = ([], .panicked) := by
  decide

end fastboot

namespace updater

/-! ## `NewUpdater` -/

/-- C17: `NewUpdater` returns `ErrUnsupportedConfiguration` (and no `Updater`) if and only if
`config.Devices` is empty; otherwise it returns an `Updater` whose `Config()` equals the
config passed in, unchanged, with `DryRun` false. -/
theorem NewUpdater_spec (config : Config) :
    (NewUpdater config = .error .ErrUnsupportedConfiguration ↔ config.Devices = []) ∧
    (config.Devices ≠ [] →
      ∃ u, NewUpdater config = .ok u ∧ u.Config = config ∧ u.DryRun = false) ∧
    (∀ e, NewUpdater config = .error e → e = .ErrUnsupportedConfiguration) ∧
    NewUpdater config ≠ .panic := by
  unfold NewUpdater
  cases hd : config.Devices with
  | nil => simp
  | cons d ds => simp [Updater.Config]

/-- Witness of C17: the configuration with one device profile. -/
theorem NewUpdater_spec_witness :
    ∃ u, NewUpdater exampleConfig = .ok u ∧ u.Config = exampleConfig ∧ u.DryRun = false :=
  (NewUpdater_spec exampleConfig).2.1 (by decide)

/-! ## The backward size -/

/-- Below the largest value of the field the backward size is exact. -/
theorem backwardSize_exact (footerBytes : List Byte)
    (h : leUint32 footerBytes 4 + 1 < 2 ^ 32) :
    backwardSize footerBytes = (leUint32 footerBytes 4 + 1) * 4 := by
  unfold backwardSize
  rw [Nat.mod_eq_of_lt h]

set_option maxRecDepth 100000 in
/-- C20 (failing input): the twelve bytes `00 00 b4 58 ff ff ff ff be 6f 59 5a`, a footer with
the field `v = 2^32 - 1`, a matching CRC-32 and the magic. The code computes `v + 1` as a
`uint32`, which is 0, and the backward size 0 instead of `2^34`; it looks for the index
marker at `end - 12`, the first byte of the footer, finds `0x00` and a record count of 0 after
it, and returns the size 0 without an error. With the exact backward size the seek goes to
`end - (2^34 + 12)`, before the start of the input. -/
theorem backwardSize_wraps :
    leUint32 [0x00, 0x00, 0xb4, 0x58, 0xff, 0xff, 0xff, 0xff, 0xbe, 0x6f, 0x59, 0x5a] 4
      = 2 ^ 32 - 1 ∧
    backwardSize [0x00, 0x00, 0xb4, 0x58, 0xff, 0xff, 0xff, 0xff, 0xbe, 0x6f, 0x59, 0x5a] = 0 ∧
    specBackwardSize [0x00, 0x00, 0xb4, 0x58, 0xff, 0xff, 0xff, 0xff, 0xbe, 0x6f, 0x59, 0x5a]
      = 2 ^ 34 ∧
    getXZUncompressedLength
        [0x00, 0x00, 0xb4, 0x58, 0xff, 0xff, 0xff, 0xff, 0xbe, 0x6f, 0x59, 0x5a] = .ok 0 ∧
    indexPart [0x00, 0x00, 0xb4, 0x58, 0xff, 0xff, 0xff, 0xff, 0xbe, 0x6f, 0x59, 0x5a] (2 ^ 34)
      = .error (.wrap "failed to seek to index" .negativePosition) := by
  refine ⟨by decide, by decide, by decide, by rfl, by rfl⟩

end updater

namespace fastboot
open updater

/-! ## The length of commands -/

theorem bytesOfString_length (s : String) : (bytesOfString s).length = s.length := by
  unfold bytesOfString
  rw [List.length_map]
  rfl

theorem hex8_length (size : Nat) : (hex8 size).length = 8 := by
  simp [hex8, String.length]

theorem Command_writes (peer : Peer) (msg : List Byte) :
    writesIn (Command peer msg).2 = [msg] := by
  unfold Command
  cases peer.writeErr 0 with
  | some err => rfl
  | none =>
    cases peer.commandReply with
    | result d => rfl
    | error err => rfl

theorem Boot_writes (peer : Peer) : writesIn (Boot peer).2 = [bytesOfString "boot"] := by
  unfold Boot Command
  cases peer.writeErr 0 with
  | some err => rfl
  | none => cases peer.commandReply <;> rfl

theorem Continue_writes (peer : Peer) :
    writesIn (Continue peer).2 = [bytesOfString "continue"] := by
  unfold Continue Command
  cases peer.writeErr 0 with
  | some err => rfl
  | none => cases peer.commandReply <;> rfl

theorem Reboot_writes (peer : Peer) : writesIn (Reboot peer).2 = [bytesOfString "reboot"] := by
  unfold Reboot Command
  cases peer.writeErr 0 with
  | some err => rfl
  | none => cases peer.commandReply <;> rfl

theorem RebootBootloader_writes (peer : Peer) :
    writesIn (RebootBootloader peer).2 = [bytesOfString "reboot-bootloader"] := by
  unfold RebootBootloader Command
  cases peer.writeErr 0 with
  | some err => rfl
  | none => cases peer.commandReply <;> rfl

theorem Flash_writes (peer : Peer) (partition : String) :
    writesIn (Flash peer partition).2 = [bytesOfString ("flash:" ++ partition)] := by
  unfold Flash Command
  cases peer.writeErr 0 with
  | some err => rfl
  | none => cases peer.commandReply <;> rfl

theorem Erase_writes (peer : Peer) (partition : String) :
    writesIn (Erase peer partition).2 = [bytesOfString ("erase:" ++ partition)] := by
  unfold Erase Command
  cases peer.writeErr 0 with
  | some err => rfl
  | none => cases peer.commandReply <;> rfl

set_option maxRecDepth 100000 in
/-- C18 (counterexample): `Flash` with a partition name of 59 characters writes a command of
65 bytes to the OUT endpoint. -/
theorem Flash_long_partition :
    (writesIn (Flash (okPeer 0) longPartition).2).map List.length = [65] := by
  decide

/-- C18 (amended): the commands of `Boot`, `Continue`, `Reboot` and `RebootBootloader` and the
download command are at most 64 bytes long (4, 8, 6, 17 and 17 bytes, the download command
being the first write of `DownloadFromReader` for every size). `Flash`, `Erase`, `GetVar` and
`Command` write the formatted command whatever its length: `flash:` or `erase:` and the
partition name, `getvar:` and the variable name, 6 or 7 bytes more than the name. -/
theorem command_lengths (peer : Peer) (name : String) (msg : List Byte) (size : Nat)
    (r : Reader) :
    (writesIn (Boot peer).2).map List.length = [4] ∧
    (writesIn (Continue peer).2).map List.length = [8] ∧
    (writesIn (Reboot peer).2).map List.length = [6] ∧
    (writesIn (RebootBootloader peer).2).map List.length = [17] ∧
    ((writesIn (DownloadFromReader peer r size).2).head?).map List.length = some 17 ∧
    (writesIn (Flash peer name).2).map List.length = [6 + name.length] ∧
    (writesIn (Erase peer name).2).map List.length = [6 + name.length] ∧
    (writesIn (GetVar peer name).2).map List.length = [7 + name.length] ∧
    writesIn (Command peer msg).2 = [msg] := by
  refine ⟨?_, ?_, ?_, ?_, ?_, ?_, ?_, ?_, Command_writes peer msg⟩
  · rw [Boot_writes]; rfl
  · rw [Continue_writes]; rfl
  · rw [Reboot_writes]; rfl
  · rw [RebootBootloader_writes]; rfl
  · have hlen : (bytesOfString ("download:" ++ hex8 size)).length = 17 := by
      rw [bytesOfString_length, String.length_append, hex8_length]; rfl
    have hhead : (writesIn (DownloadFromReader peer r size).2).head?
        = some (bytesOfString ("download:" ++ hex8 size)) := by
      unfold DownloadFromReader dataCommand
      cases peer.writeErr 0 with
      | some err => rfl
      | none =>
        cases peer.dataReply with
        | result d => rfl
        | error err => rfl
        | readyForData returnedSize =>
          dsimp only
          split
          · rfl
          · split
            · rfl
            · split <;> rfl
    rw [hhead, Option.map_some', hlen]
  · rw [Flash_writes, List.map_singleton, bytesOfString_length, String.length_append]
    rfl
  · rw [Erase_writes, List.map_singleton, bytesOfString_length, String.length_append]
    rfl
  · rw [GetVar, Command_writes, List.map_singleton, bytesOfString_length,
      String.length_append]
    rfl

end fastboot

namespace updater

/-! ## The sum of the record sizes -/

theorem wrapInt64_add_wrapInt64 (a b : Int) :
    wrapInt64 (wrapInt64 a + wrapInt64 b) = wrapInt64 (a + b) := by
  unfold wrapInt64
  omega

/-- The record loop on encoded records, whatever their sizes: it returns the running total plus
the sum of the uncompressed sizes reduced into the range of an `int64`, and no error. -/
theorem recordLoop_encodeRecords_wraps (records : List (Nat × Nat)) :
    ∀ (i : Nat) (total : Int) (rest : List Byte),
      (∀ r ∈ records, r.1 < 2 ^ 64 ∧ r.2 < 2 ^ 64) →
      recordLoop records.length i (wrapInt64 total) (encodeRecords records ++ rest)
        = .ok (wrapInt64 (total + ((records.map (fun r => r.2)).sum : Nat))) := by
  induction records with
  | nil => intro i total rest _; simp [recordLoop]
  | cons r rs ih =>
    intro i total rest hun
    rw [sum_cons_snd]
    obtain ⟨h1, h2⟩ := hun r (List.mem_cons_self _ _)
    simp only [List.length_cons, recordLoop, encodeRecords, List.append_assoc]
    rw [readUvarint_encoded_append r.1 h1]
    simp only
    rw [readUvarint_encoded_append r.2 h2]
    simp only
    rw [wrapInt64_add_wrapInt64,
      ih (i + 1) (total + r.2) rest (fun q hq => hun q (List.mem_cons_of_mem _ hq))]
    congr 2
    push_cast
    omega

/-- A stream with a well-formed index and footer takes `getXZUncompressedLength` to its record
loop over the encoded records. -/
theorem getXZUncompressedLength_index (blocks tail flags : List Byte)
    (records : List (Nat × Nat)) (v : Nat)
    (hflags : flags.length = 2)
    (hv : v + 1 < 2 ^ 32)
    (hidx : (xzIndex records tail).length = (v + 1) * 4)
    (hcount : records.length < 2 ^ 64) :
    getXZUncompressedLength (blocks ++ xzIndex records tail ++ xzFooter v flags)
      = recordLoop records.length 0 0 (encodeRecords records ++ (tail ++ xzFooter v flags)) := by
  obtain ⟨g0, g1, rfl⟩ : ∃ g0 g1, flags = [g0, g1] := by
    match flags, hflags with
    | [g0, g1], _ => exact ⟨g0, g1, rfl⟩
  have hflen : (xzFooter v [g0, g1]).length = 12 := by simp [xzFooter, le32Bytes]
  have hdrop : ∀ pre : List Byte, (pre ++ xzFooter v [g0, g1]).drop
      ((pre ++ xzFooter v [g0, g1]).length - 12) = xzFooter v [g0, g1] := by
    intro pre
    rw [List.length_append, hflen, Nat.add_sub_cancel, List.drop_left]
  have hcrc : leUint32 (xzFooter v [g0, g1]) 0
      = ChecksumIEEE (((xzFooter v [g0, g1]).drop 4).take 6) := by
    have h6 : ((xzFooter v [g0, g1]).drop 4).take 6 = le32Bytes v ++ [g0, g1] := by
      simp [xzFooter, le32Bytes]
    rw [h6]
    unfold xzFooter
    rw [List.append_assoc, List.append_assoc, leUint32_le32Bytes _ (ChecksumIEEE_lt _)]
  have hmagic : (xzFooter v [g0, g1]).drop 10 = [0x59, 0x5a] := by
    simp [xzFooter, le32Bytes]
  have hbs : backwardSize (xzFooter v [g0, g1]) = (xzIndex records tail).length := by
    have h4 : leUint32 (xzFooter v [g0, g1]) 4 = v := by
      have := leUint32_le32Bytes v (by omega) ([g0, g1] ++ [0x59, 0x5a])
      simp only [leUint32, le32Bytes, xzFooter, List.cons_append, List.nil_append,
        List.getD_cons_zero, List.getD_cons_succ] at this ⊢
      exact this
    unfold backwardSize
    rw [h4, Nat.mod_eq_of_lt hv, hidx]
  have hlen12 : 12 ≤ (blocks ++ xzIndex records tail ++ xzFooter v [g0, g1]).length := by
    rw [List.length_append, hflen]; omega
  rw [getXZUncompressedLength_eq _ hlen12, hdrop, if_neg (not_not.mpr hmagic),
    if_neg (not_not.mpr hcrc), hbs]
  unfold indexPart
  rw [seekEnd_neg, if_neg (by simp [footerLen, hflen])]
  have hseek : (blocks ++ xzIndex records tail ++ xzFooter v [g0, g1]).drop
      ((blocks ++ xzIndex records tail ++ xzFooter v [g0, g1]).length
        - ((xzIndex records tail).length + footerLen))
      = xzIndex records tail ++ xzFooter v [g0, g1] := by
    rw [List.append_assoc]
    have : (blocks ++ (xzIndex records tail ++ xzFooter v [g0, g1])).length
        - ((xzIndex records tail).length + footerLen) = blocks.length := by
      simp only [List.length_append, hflen, footerLen]; omega
    rw [this, List.drop_left]
  rw [hseek]
  simp only [xzIndex, List.cons_append, ReadByte, List.append_assoc]
  rw [if_neg (by simp), readUvarint_encoded_append _ hcount]

/-- For a stream with a well-formed index and footer, whatever the sizes in its records,
`getXZUncompressedLength` returns no error and the sum of the uncompressed sizes reduced into
the range of an `int64`. -/
theorem getXZUncompressedLength_sum_wraps (blocks tail flags : List Byte)
    (records : List (Nat × Nat)) (v : Nat)
    (hflags : flags.length = 2)
    (hv : v + 1 < 2 ^ 32)
    (hidx : (xzIndex records tail).length = (v + 1) * 4)
    (hcount : records.length < 2 ^ 64)
    (hrec : ∀ r ∈ records, r.1 < 2 ^ 64 ∧ r.2 < 2 ^ 64) :
    getXZUncompressedLength (blocks ++ xzIndex records tail ++ xzFooter v flags)
      = .ok (wrapInt64 (((records.map (fun r => r.2)).sum : Nat) : Int)) := by
  rw [getXZUncompressedLength_index blocks tail flags records v hflags hv hidx hcount]
  have h := recordLoop_encodeRecords_wraps records 0 0 (tail ++ xzFooter v flags) hrec
  have h0 : wrapInt64 0 = 0 := by decide
  rw [h0, zero_add] at h
  exact h

set_option maxRecDepth 100000 in
/-- C21 (failing input): three streams that are an index and a footer with a matching CRC-32.
In the first the one record has the uncompressed size `2 ^ 63` (the ten bytes
`80 80 80 80 80 80 80 80 80 01`), which does not fit a non-negative `int64`: the function
returns `-2 ^ 63` and no error. In the second the two records have the size `2 ^ 62` each, so
the running sum exceeds `2 ^ 63 - 1`: the function returns `-2 ^ 63` and no error. In the
third the two records have the size `2 ^ 63` each: the function returns `0` and no error,
where the exact sum is `2 ^ 64`. -/
theorem getXZUncompressedLength_wraps :
    (readUvarint [0x80, 0x80, 0x80, 0x80, 0x80, 0x80, 0x80, 0x80, 0x80, 0x01]).1
      = ⟨2 ^ 63, 10, none⟩ ∧
    (readUvarint [0x80, 0x80, 0x80, 0x80, 0x80, 0x80, 0x80, 0x80, 0x40]).1
      = ⟨2 ^ 62, 9, none⟩ ∧
    getXZUncompressedLength
        [0x00, 0x01, 0x01, 0x80, 0x80, 0x80, 0x80, 0x80, 0x80, 0x80, 0x80, 0x80, 0x01,
         0x00, 0x00, 0x00,
         0x0d, 0xd3, 0x56, 0x37, 0x03, 0x00, 0x00, 0x00, 0x00, 0x00, 0x59, 0x5a]
      = .ok (-(2 ^ 63)) ∧
    getXZUncompressedLength
        [0x00, 0x02, 0x01, 0x80, 0x80, 0x80, 0x80, 0x80, 0x80, 0x80, 0x80, 0x40,
         0x01, 0x80, 0x80, 0x80, 0x80, 0x80, 0x80, 0x80, 0x80, 0x40, 0x00, 0x00,
         0x10, 0x30, 0x0f, 0xe1, 0x05, 0x00, 0x00, 0x00, 0x00, 0x00, 0x59, 0x5a]
      = .ok (-(2 ^ 63)) ∧
    getXZUncompressedLength
        [0x00, 0x02, 0x01, 0x80, 0x80, 0x80, 0x80, 0x80, 0x80, 0x80, 0x80, 0x80, 0x01,
         0x01, 0x80, 0x80, 0x80, 0x80, 0x80, 0x80, 0x80, 0x80, 0x80, 0x01,
         0x10, 0x30, 0x0f, 0xe1, 0x05, 0x00, 0x00, 0x00, 0x00, 0x00, 0x59, 0x5a]
      = .ok 0 := by
  refine ⟨by decide, by decide, by rfl, by rfl, by rfl⟩

end updater

namespace fastboot
open updater

/-! ## The buffer of the reader task -/

/-- After an `OKAY` frame that fits the buffer the loop goes on with a buffer of the length of
the payload: that is what the next read is offered. -/
theorem readerLoop_okay_next (payload : List Byte) (rest : List Read) (bufLen : Nat)
    (hfit : 4 + payload.length ≤ bufLen) :
    readerLoop (frameRead (okay ++ payload) :: rest) bufLen
      = send (.result payload) (readerLoop rest payload.length) := by
  have h4 : okay.length = 4 := by decide
  have hlen : (okay ++ payload).length ≤ bufLen := by
    rw [List.length_append, h4]; exact hfit
  have htake : (okay ++ payload).take bufLen = okay ++ payload :=
    List.take_of_length_le hlen
  have hfr : frameRead (okay ++ payload) bufLen = (okay ++ payload, none) := by
    simp only [frameRead, htake]
  have hn : ¬ (okay ++ payload).length < 4 := by
    rw [List.length_append, h4]; omega
  have ht : (okay ++ payload).take 4 = okay := by rw [← h4, List.take_left]
  have hd : (okay ++ payload).drop 4 = payload := by rw [← h4, List.drop_left]
  rw [readerLoop]
  simp only [hfr, htake, if_neg hn, ht, hd, if_true]

set_option maxRecDepth 100000 in
/-- C22 (failing input): the read `lengthProbe` answers with the length of the buffer it is
given. As the first read it is given 512 bytes (`02 00`). After the frame `OKAY0123456789`
it is given 10 bytes (`00 0a`), the length of the payload of that frame. After the frame
`INFObar` the next read is given 3 bytes, too few for a frame, and the task returns. -/
theorem readerTask_buffer_shrinks :
    readerTask [lengthProbe] = ([.info [0x02, 0x00]], .waiting) ∧
    readerTask [frameRead (bytesOfString "OKAY0123456789"), lengthProbe]
      = ([.result (bytesOfString "0123456789"), .info [0x00, 0x0a]], .waiting) ∧
    readerTask [frameRead (bytesOfString "INFObar"), lengthProbe]
      = ([.info (bytesOfString "bar"), .error (.TooShortPayloadError "message type" 3 4)],
         .returned) := by
  refine ⟨by decide, by decide, by decide⟩

/-! ## Short reads -/

/-- C23: for every read that returns `n < 4` bytes without an error, at any iteration of the
loop (whatever the length `bufLen` of the buffer that the frames before have left), the reader
task sends on the error channel a `TooShortPayloadError` with `Purpose = "message type"`,
`ExpectedLength = 4` and `ActualLength = n`, sends nothing else, and returns without making
any of the later reads `rest`. -/
theorem readerLoop_short_read (rd : Read) (rest : List Read) (bufLen : Nat)
    (herr : (rd bufLen).2 = none) (hn : ((rd bufLen).1.take bufLen).length < 4) :
    readerLoop (rd :: rest) bufLen
      = ([.error (.TooShortPayloadError "message type" ((rd bufLen).1.take bufLen).length 4)],
         .returned) := by
  rw [readerLoop]
  simp only [herr, if_pos hn]

set_option maxRecDepth 100000 in
/-- Witness of C23: a first read of the three bytes `OKA`, followed by a frame `OKAYfoo` that
is never read. -/
theorem readerLoop_short_read_witness :
    readerTask [frameRead (bytesOfString "OKA"), frameRead (bytesOfString "OKAYfoo")]
      = ([.error (.TooShortPayloadError "message type" 3 4)], .returned) :=
  readerLoop_short_read (frameRead (bytesOfString "OKA")) [frameRead (bytesOfString "OKAYfoo")]
    512 rfl (by decide)

end fastboot

namespace fastboot
open updater

/-! ## The size of a download, there and back -/

/-- The byte of the hexadecimal digit that `%x` prints for `d`. -/
theorem fromHexChar_digitChar :
    ∀ d : Fin 16, fromHexChar (byteOfNat (Nat.digitChar d.val).toNat) = some d.val ∧
      ((0x30 ≤ (byteOfNat (Nat.digitChar d.val).toNat).val ∧
          (byteOfNat (Nat.digitChar d.val).toNat).val ≤ 0x39) ∨
        (0x61 ≤ (byteOfNat (Nat.digitChar d.val).toNat).val ∧
          (byteOfNat (Nat.digitChar d.val).toNat).val ≤ 0x66)) := by
  decide

theorem bytesOfString_append (a b : String) :
    bytesOfString (a ++ b) = bytesOfString a ++ bytesOfString b := by
  simp [bytesOfString, String.toList, String.data_append]

theorem bytesOfString_hex8 (v : Nat) :
    bytesOfString (hex8 v)
      = [byteOfNat (Nat.digitChar (v / 16 ^ 7 % 16)).toNat,
         byteOfNat (Nat.digitChar (v / 16 ^ 6 % 16)).toNat,
         byteOfNat (Nat.digitChar (v / 16 ^ 5 % 16)).toNat,
         byteOfNat (Nat.digitChar (v / 16 ^ 4 % 16)).toNat,
         byteOfNat (Nat.digitChar (v / 16 ^ 3 % 16)).toNat,
         byteOfNat (Nat.digitChar (v / 16 ^ 2 % 16)).toNat,
         byteOfNat (Nat.digitChar (v / 16 ^ 1 % 16)).toNat,
         byteOfNat (Nat.digitChar (v / 16 ^ 0 % 16)).toNat] := by
  rfl

theorem fromHexChar_digit (d : Nat) (h : d < 16) :
    fromHexChar (byteOfNat (Nat.digitChar d).toNat) = some d :=
  (fromHexChar_digitChar ⟨d, h⟩).1

theorem lowerHexDigit_digit (d : Nat) (h : d < 16) :
    LowerHexDigit (byteOfNat (Nat.digitChar d).toNat) :=
  (fromHexChar_digitChar ⟨d, h⟩).2

/-- Decoding the eight digits of `%08x` gives the four bytes of the size, high byte first. -/
theorem hexDecode_hex8 (v : Nat) :
    hexDecode (bytesOfString (hex8 v))
      = ([v / 16 ^ 7 % 16 * 16 + v / 16 ^ 6 % 16, v / 16 ^ 5 % 16 * 16 + v / 16 ^ 4 % 16,
          v / 16 ^ 3 % 16 * 16 + v / 16 ^ 2 % 16, v / 16 ^ 1 % 16 * 16 + v / 16 ^ 0 % 16],
         none) := by
  rw [bytesOfString_hex8]
  simp only [hexDecode, fromHexChar_digit _ (Nat.mod_lt _ (by decide : 0 < 16))]

theorem beUint32_hex8 (v : Nat) (hv : v < 2 ^ 32) :
    beUint32 [v / 16 ^ 7 % 16 * 16 + v / 16 ^ 6 % 16, v / 16 ^ 5 % 16 * 16 + v / 16 ^ 4 % 16,
          v / 16 ^ 3 % 16 * 16 + v / 16 ^ 2 % 16, v / 16 ^ 1 % 16 * 16 + v / 16 ^ 0 % 16]
      = v := by
  simp only [beUint32, List.getD_cons_zero, List.getD_cons_succ]
  norm_num
  omega

theorem DownloadFromReader_first_write (peer : Peer) (r : Reader) (size : Nat) :
    (writesIn (DownloadFromReader peer r size).2).head?
      = some (bytesOfString ("download:" ++ hex8 size)) := by
  unfold DownloadFromReader dataCommand
  cases peer.writeErr 0 with
  | some err => rfl
  | none =>
    cases peer.dataReply with
    | result d => rfl
    | error err => rfl
    | readyForData returnedSize =>
      dsimp only
      split
      · rfl
      · split
        · rfl
        · split <;> rfl

/-- A `DATA` frame with the eight digits of `%08x` for `v` that fits the buffer: the loop
sends `v` on `readyForDataC`, once, and goes on. -/
theorem readerLoop_data_hex8 (v : Nat) (hv : v < 2 ^ 32) (rest : List Read) (bufLen : Nat)
    (hfit : 12 ≤ bufLen) :
    readerLoop (frameRead (data ++ bytesOfString (hex8 v)) :: rest) bufLen
      = send (.readyForData v) (readerLoop rest 8) := by
  have h4 : data.length = 4 := by decide
  have h8 : (bytesOfString (hex8 v)).length = 8 := by rw [bytesOfString_hex8]; rfl
  have hlen : (data ++ bytesOfString (hex8 v)).length ≤ bufLen := by
    rw [List.length_append, h4, h8]; exact hfit
  have htake : (data ++ bytesOfString (hex8 v)).take bufLen = data ++ bytesOfString (hex8 v) :=
    List.take_of_length_le hlen
  have hfr : frameRead (data ++ bytesOfString (hex8 v)) bufLen
      = (data ++ bytesOfString (hex8 v), none) := by
    simp only [frameRead, htake]
  have hn : ¬ (data ++ bytesOfString (hex8 v)).length < 4 := by
    rw [List.length_append, h4]; omega
  have ht : (data ++ bytesOfString (hex8 v)).take 4 = data := by rw [← h4, List.take_left]
  have hd : (data ++ bytesOfString (hex8 v)).drop 4 = bytesOfString (hex8 v) := by
    rw [← h4, List.drop_left]
  have ht8 : (bytesOfString (hex8 v)).take 8 = bytesOfString (hex8 v) :=
    List.take_of_length_le (by rw [h8])
  rw [readerLoop]
  simp only [hfr, htake, if_neg hn, ht, hd]
  rw [if_neg (by decide), if_neg (by decide), if_pos trivial, if_neg (by rw [h8]; decide), ht8,
    hexDecode_hex8]
  simp only [beUint32_hex8 v hv, h8]

/-- C24: for every 32-bit size `v`, the command that `DownloadFromReader` writes is the 9
ASCII characters `download:` followed by exactly 8 lower-case hexadecimal digits, which are
the digits of `v` from the highest down, padded with zeros; and the reader task decodes a
`DATA` frame whose payload is those 8 digits to `v` and sends it as one ready-for-data
notification, nothing else. -/
theorem download_size_round_trip (v : Nat) (hv : v < 2 ^ 32) (peer : Peer) (r : Reader) :
    (writesIn (DownloadFromReader peer r v).2).head?
      = some (bytesOfString "download:" ++ bytesOfString (hex8 v)) ∧
    (bytesOfString "download:").length = 9 ∧
    (bytesOfString (hex8 v)).length = 8 ∧
    (∀ c ∈ bytesOfString (hex8 v), LowerHexDigit c) ∧
    (bytesOfString (hex8 v)).map fromHexChar
      = (List.range 8).reverse.map (fun k => some (v / 16 ^ k % 16)) ∧
    readerTask [frameRead (data ++ bytesOfString (hex8 v))] = ([.readyForData v], .waiting) := by
  refine ⟨?_, by decide, ?_, ?_, ?_, ?_⟩
  · rw [DownloadFromReader_first_write, bytesOfString_append]
  · rw [bytesOfString_hex8]; rfl
  · intro c hc
    rw [bytesOfString_hex8] at hc
    simp only [List.mem_cons, List.mem_singleton, List.not_mem_nil, or_false] at hc
    rcases hc with h | h | h | h | h | h | h | h <;> rw [h] <;>
      exact lowerHexDigit_digit _ (Nat.mod_lt _ (by decide))
  · rw [bytesOfString_hex8]
    simp only [List.map, fromHexChar_digit _ (Nat.mod_lt _ (by decide : 0 < 16))]
  · rw [readerTask, readerLoop_data_hex8 v hv [] 512 (by decide)]
    rfl

set_option maxRecDepth 100000 in
/-- Witness of C24: the size 256, the command `download:00000100` and the frame
`DATA00000100`. -/
theorem download_size_round_trip_witness :
    (writesIn (DownloadFromReader (okPeer 256) (fun _ => []) 256).2).head?
      = some (bytesOfString "download:" ++ bytesOfString (hex8 256)) ∧
    bytesOfString (hex8 256) = bytesOfString "00000100" ∧
    readerTask [frameRead (data ++ bytesOfString (hex8 256))]
      = ([.readyForData 256], .waiting) :=
  ⟨(download_size_round_trip 256 (by decide) (okPeer 256) (fun _ => [])).1, by decide,
   (download_size_round_trip 256 (by decide) (okPeer 256) (fun _ => [])).2.2.2.2.2⟩

end fastboot

namespace updater

/-! ## Termination of the XZ inspector -/

/-- Every iteration of the loop of `readUvarint` reads one byte and the loop ends after at most
eleven: `n` counts the bytes read, whatever the result. -/
theorem readUvarintLoop_reads (bs : ByteReader) :
    ∀ (x s i : Nat), i ≤ maxUvarintLen →
      (readUvarintLoop bs x s i).1.n ≤ maxUvarintLen + 1 ∧
      (readUvarintLoop bs x s i).1.n + (readUvarintLoop bs x s i).2.length = i + bs.length ∧
      ((readUvarintLoop bs x s i).1.err = none → i + 1 ≤ (readUvarintLoop bs x s i).1.n) := by
  induction bs with
  | nil =>
    intro x s i hi
    simp only [maxUvarintLen] at hi ⊢
    simp only [readUvarintLoop, List.length_nil]
    exact ⟨by omega, trivial, fun h => by simp at h⟩
  | cons b rest ih =>
    intro x s i hi
    rw [readUvarintLoop]
    simp only [maxUvarintLen] at hi ih ⊢
    split_ifs with h1 h2 h3
    · dsimp only [List.length_cons]
      exact ⟨by omega, by omega, fun h => by simp at h⟩
    · dsimp only [List.length_cons]
      exact ⟨by omega, by omega, fun h => by simp at h⟩
    · dsimp only [List.length_cons]
      exact ⟨by omega, by omega, fun _ => by omega⟩
    · obtain ⟨g1, g2, g3⟩ := ih (x ||| (((b.val &&& 0x7f) <<< s) % 2 ^ 64)) (s + 7) (i + 1)
        (by omega)
      dsimp only [List.length_cons]
      exact ⟨g1, by omega, fun h => by have := g3 h; omega⟩

/-- A `readUvarint` without an error has read at least one byte. -/
theorem readUvarint_consumes (br : ByteReader) (res : UvarintResult) (br1 : ByteReader)
    (h : readUvarint br = (res, br1)) (herr : res.err = none) :
    br1.length + 1 ≤ br.length := by
  have := readUvarintLoop_reads br 0 0 0 (by decide)
  unfold readUvarint at h
  rw [h] at this
  obtain ⟨_, g2, g3⟩ := this
  have := g3 herr
  simp only at g2 this
  omega

/-- One iteration of the record loop, whatever the number of records that remain: it ends the
function with an error, or it has read at least two bytes and the loop goes on. -/
theorem recordLoop_step (i : Nat) (total : Int) (br : ByteReader) :
    (∃ e, ∀ remaining, recordLoop (remaining + 1) i total br = .error e) ∨
    (∃ t br1, br1.length + 2 ≤ br.length ∧
      ∀ remaining, recordLoop (remaining + 1) i total br = recordLoop remaining (i + 1) t br1) := by
  cases h1 : readUvarint br with
  | mk res1 br1 =>
    obtain ⟨x1, n1, err1⟩ := res1
    cases err1 with
    | some e =>
      left
      exact ⟨.wrapIdx "failed to read index record" i e,
        fun remaining => by simp only [recordLoop, h1]⟩
    | none =>
      have c1 := readUvarint_consumes br _ br1 h1 rfl
      cases h2 : readUvarint br1 with
      | mk res2 br2 =>
        obtain ⟨x2, n2, err2⟩ := res2
        cases err2 with
        | some e =>
          left
          exact ⟨.wrapIdx "failed to read uncompressed size for index record" i e,
            fun remaining => by simp only [recordLoop, h1, h2]⟩
        | none =>
          have c2 := readUvarint_consumes br1 _ br2 h2 rfl
          right
          exact ⟨wrapInt64 (total + wrapInt64 x2), br2, by omega,
            fun remaining => by simp only [recordLoop, h1, h2]⟩

/-- Once the announced number of records exceeds half the bytes that are left, it does not
matter what it is: the loop ends with the same error. -/
theorem recordLoop_count_irrelevant :
    ∀ (m n i : Nat) (total : Int) (br : ByteReader), br.length < 2 * m → br.length < 2 * n →
      ∃ e, recordLoop m i total br = .error e ∧ recordLoop n i total br = .error e := by
  intro m
  induction m with
  | zero => intro n i total br hm _; omega
  | succ m ih =>
    intro n i total br hm hn
    cases n with
    | zero => omega
    | succ n =>
      rcases recordLoop_step i total br with ⟨e, he⟩ | ⟨t, br1, hlen, hgo⟩
      · exact ⟨e, he m, he n⟩
      · rw [hgo m, hgo n]
        exact ih n (i + 1) t br1 (by omega) (by omega)

/-- C25: `getXZUncompressedLength` is total. For every byte string it returns a size or an
error. An input shorter than 12 bytes fails at the first seek; otherwise the footer read has
exactly the 12 bytes that the slices `[0:4]`, `[4:8]`, `[4:10]` and `[10:12]` are taken from;
a backward size larger than what precedes the footer fails at the second seek. `readUvarint`
reads one byte per iteration and at most eleven. Every iteration of the record loop ends the
function with an error or consumes at least two bytes, so whatever number of records the index
announces, up to `2 ^ 64 - 1`, once it exceeds half the bytes left the loop ends with an error
within `len / 2 + 1` iterations. -/
theorem getXZUncompressedLength_total (s : List Byte) :
    ((∃ size, getXZUncompressedLength s = .ok size) ∨
      (∃ e, getXZUncompressedLength s = .error e)) ∧
    (s.length < 12 →
      getXZUncompressedLength s = .error (.wrap "failed to seek to footer" .negativePosition)) ∧
    (12 ≤ s.length →
      seekEnd s (-(footerLen : Int)) = .ok (s.drop (s.length - 12)) ∧
      readBytes (s.drop (s.length - 12)) footerLen = .ok (s.drop (s.length - 12)) ∧
      (s.drop (s.length - 12)).length = 12) ∧
    (∀ bs, s.length < bs + 12 →
      indexPart s bs = .error (.wrap "failed to seek to index" .negativePosition)) ∧
    (∀ br : ByteReader, (readUvarint br).1.n ≤ 11 ∧
      (readUvarint br).1.n + (readUvarint br).2.length = br.length) ∧
    (∀ (i : Nat) (total : Int) (br : ByteReader),
      (∃ e, ∀ remaining, recordLoop (remaining + 1) i total br = .error e) ∨
      (∃ t br1, br1.length + 2 ≤ br.length ∧
        ∀ remaining,
          recordLoop (remaining + 1) i total br = recordLoop remaining (i + 1) t br1)) ∧
    (∀ (numberOfRecords : Nat) (br : ByteReader), br.length < 2 * numberOfRecords →
      ∃ e, recordLoop numberOfRecords 0 0 br = .error e ∧
        recordLoop (br.length / 2 + 1) 0 0 br = .error e) := by
  refine ⟨?_, getXZUncompressedLength_short s, ?_, ?_, ?_, recordLoop_step, ?_⟩
  · cases getXZUncompressedLength s with
    | error e => exact Or.inr ⟨e, rfl⟩
    | ok size => exact Or.inl ⟨size, rfl⟩
  · intro h
    have hl : (s.drop (s.length - 12)).length = 12 := by
      rw [List.length_drop]; omega
    refine ⟨?_, ?_, hl⟩
    · rw [show (-(footerLen : Int)) = -((12 : Nat) : Int) from rfl, seekEnd_neg,
        if_neg (by omega)]
    · unfold readBytes
      rw [if_neg (by rw [hl]; decide), show footerLen = 12 from rfl,
        List.take_of_length_le (by omega)]
  · intro bs h
    unfold indexPart
    rw [seekEnd_neg, if_pos (by simp only [footerLen]; omega)]
  · intro br
    have := readUvarintLoop_reads br 0 0 0 (by decide)
    simp only [maxUvarintLen, Nat.zero_add] at this
    exact ⟨this.1, this.2.1⟩
  · intro numberOfRecords br h
    exact recordLoop_count_irrelevant numberOfRecords (br.length / 2 + 1) 0 0 br h (by omega)

set_option maxRecDepth 100000 in
/-- Witness of C25: an index that announces `2 ^ 64 - 1` records (the count
`ff ff ff ff ff ff ff ff ff 01`) in a stream of 24 bytes. The record loop runs over the 13
bytes that follow the count and ends with an error in its sixth iteration. -/
theorem getXZUncompressedLength_total_witness :
    (readUvarint [0xff, 0xff, 0xff, 0xff, 0xff, 0xff, 0xff, 0xff, 0xff, 0x01]).1
      = ⟨2 ^ 64 - 1, 10, none⟩ ∧
    getXZUncompressedLength
        [0x00, 0xff, 0xff, 0xff, 0xff, 0xff, 0xff, 0xff, 0xff, 0xff, 0x01, 0x00,
         0xa8, 0x00, 0x0a, 0xfc, 0x02, 0x00, 0x00, 0x00, 0x00, 0x00, 0x59, 0x5a]
      = .error (.wrapIdx "failed to read uncompressed size for index record" 5 .EOF) ∧
    ∃ e,
      recordLoop (2 ^ 64 - 1) 0 0
          [0x00, 0xa8, 0x00, 0x0a, 0xfc, 0x02, 0x00, 0x00, 0x00, 0x00, 0x00, 0x59, 0x5a]
        = .error e ∧
      recordLoop 7 0 0
          [0x00, 0xa8, 0x00, 0x0a, 0xfc, 0x02, 0x00, 0x00, 0x00, 0x00, 0x00, 0x59, 0x5a]
        = .error e :=
  ⟨by decide, by rfl,
   (getXZUncompressedLength_total []).2.2.2.2.2.2 (2 ^ 64 - 1)
     [0x00, 0xa8, 0x00, 0x0a, 0xfc, 0x02, 0x00, 0x00, 0x00, 0x00, 0x00, 0x59, 0x5a]
     (by decide)⟩

end updater

namespace updater

/-! ## The inventory of `runDevice` -/

theorem declaredSize_ret_error (compression : Property) (dataBytes : List Byte) (o : Outcome)
    (h : declaredSize compression dataBytes = .ret o) : ∃ e, o = .error e := by
  unfold declaredSize at h
  split at h
  · simp only [Flow.ret.injEq] at h; exact ⟨_, h.symm⟩
  · split at h
    · split at h
      · simp only [Flow.ret.injEq] at h; exact ⟨_, h.symm⟩
      · simp at h
    · simp only [Flow.ret.injEq] at h; exact ⟨_, h.symm⟩

theorem verifyHash_ret_error (env : Env) (hash : HashNode) (dataBytes : List Byte)
    (o : Outcome) (h : verifyHash env hash dataBytes = .ret o) : ∃ e, o = .error e := by
  unfold verifyHash at h
  split at h
  · simp only [Flow.ret.injEq] at h; exact ⟨_, h.symm⟩
  · split at h
    · simp only [Flow.ret.injEq] at h; exact ⟨_, h.symm⟩
    · split at h
      · split at h
        · simp only [Flow.ret.injEq] at h; exact ⟨_, h.symm⟩
        · simp at h
      · simp only [Flow.ret.injEq] at h; exact ⟨_, h.symm⟩

/-- Every `return` of the first loop body returns an error that is not nil. -/
theorem inventoryImage_ret_error (env : Env) (image : ImageNode) (total : Int) (o : Outcome)
    (h : inventoryImage env image total = .ret o) : ∃ e, o = .error e := by
  unfold inventoryImage at h
  split at h
  · simp only [Flow.ret.injEq] at h; exact ⟨_, h.symm⟩
  · split at h
    · rename_i o1 hd
      simp only [Flow.ret.injEq] at h
      rw [← h]
      exact declaredSize_ret_error _ _ _ hd
    · split at h
      · rename_i o1 hv
        simp only [Flow.ret.injEq] at h
        rw [← h]
        exact verifyHash_ret_error _ _ _ _ hv
      · simp at h

/-- The inventory over names of which one walks to an image that its loop body returns on
ends the run with an error that is not nil. -/
theorem inventoryLoop_rejects (env : Env) (images : ImagesNode) (imageNames : List String)
    (name : String) (hname : name ∈ imageNames) (h : Rejected env (images.Walk name)) :
    ∀ total, ∃ e, inventoryLoop env images imageNames total = .ret (.error e) := by
  induction imageNames with
  | nil => simp at hname
  | cons first rest ih =>
    intro total
    rw [inventoryLoop]
    cases hi : inventoryImage env (images.Walk first) total with
    | ret o =>
      obtain ⟨e, he⟩ := inventoryImage_ret_error env _ total o hi
      exact ⟨e, by rw [he]⟩
    | go t =>
      rcases List.mem_cons.mp hname with h1 | h1
      · subst h1
        obtain ⟨e, he⟩ := h total
        rw [he] at hi
        simp at hi
      · exact ih h1 t

/-- The inventory over two lists of names in a row. -/
theorem inventoryLoop_append (env : Env) (images : ImagesNode) (before rest : List String) :
    ∀ total, inventoryLoop env images (before ++ rest) total =
      match inventoryLoop env images before total with
      | .ret o => .ret o
      | .go t => inventoryLoop env images rest t := by
  induction before with
  | nil => intro total; rfl
  | cons first before ih =>
    intro total
    rw [List.cons_append, inventoryLoop, inventoryLoop]
    cases inventoryImage env (images.Walk first) total with
    | ret o => rfl
    | go t => exact ih t

/-- The inventory that comes to an image on which its loop body returns `o`. -/
theorem inventoryLoop_reached (env : Env) (images : ImagesNode) (before rest : List String)
    (name : String) (total : Int) (o : Outcome)
    (hbefore : inventoryLoop env images before 0 = .go total)
    (h : inventoryImage env (images.Walk name) total = .ret o) :
    inventoryLoop env images (before ++ name :: rest) 0 = .ret o := by
  rw [inventoryLoop_append, hbefore]
  simp only [inventoryLoop, h]

theorem bytesAsDeviceList_ne_panic (b : List Byte) : bytesAsDeviceList b ≠ .panic := by
  rw [bytesAsDeviceList_eq]
  unfold bytesAsDeviceListSpec
  split <;> simp

/-- Before its loop over the devices `runDevice` does nothing but send its first tick. -/
theorem runDevice_of_inventory_ret (u : Updater) (env : Env) (fdt : FDT)
    (devicesList : List DeviceID) (imageNames : List String) (o : Outcome)
    (hl : Listed fdt devicesList imageNames)
    (hinv : inventoryLoop env fdt.images imageNames 0 = .ret o) :
    runDevice u env (.ok fdt) = (o, [preparing]) := by
  obtain ⟨devicesBytes, versionStr, h1, h2, h3, h4⟩ := hl
  simp only [runDevice, h1, h2, h3, h4, hinv]

/-- A manifest with an image on which the first loop body returns: `runDevice` returns an
error that is not nil before its loop over the devices, having done nothing but send its first
tick. -/
theorem runDevice_rejects (u : Updater) (env : Env) (fdt : FDT) (imageNames : List String)
    (name : String) (hnames : fdt.images.ListChildNodes = .ok imageNames)
    (hname : name ∈ imageNames) (h : Rejected env (fdt.images.Walk name)) :
    ∃ e, runDevice u env (.ok fdt) = (.error e, [preparing]) := by
  obtain ⟨e, he⟩ := inventoryLoop_rejects env fdt.images imageNames name hname h 0
  unfold runDevice
  simp only [hnames, he]
  cases fdt.devices.AsBytes with
  | error err => exact ⟨err, rfl⟩
  | ok devicesBytes =>
    dsimp only
    cases hd : bytesAsDeviceList devicesBytes with
    | panic => exact absurd hd (bytesAsDeviceList_ne_panic devicesBytes)
    | error err => exact ⟨err, rfl⟩
    | ok devicesList =>
      dsimp only
      cases fdt.version.AsString with
      | error err => exact ⟨.ErrBadVersion, rfl⟩
      | ok versionStr => exact ⟨e, rfl⟩

theorem outWrites_preparing : outWrites [preparing] = [] := rfl

/-! ## Hash before write -/

theorem inventoryImage_mismatch (env : Env) (image : ImageNode) (h : HashMismatch env image) :
    Rejected env image ∧
    ∀ dataBytes size total, image.data.AsBytes = .ok dataBytes →
      declaredSize image.compression dataBytes = .go size →
      inventoryImage env image total = .ret (.error .ErrChecksumMismatch) := by
  obtain ⟨dataBytes, hashBytes, h1, h2, h3, h4⟩ := h
  have hv : verifyHash env image.hash dataBytes = .ret (.error .ErrChecksumMismatch) := by
    simp only [verifyHash, h2, h3]
    rw [if_pos trivial, if_pos h4]
  constructor
  · intro total
    cases hd : declaredSize image.compression dataBytes with
    | ret o =>
      obtain ⟨e, he⟩ := declaredSize_ret_error _ _ _ hd
      exact ⟨e, by simp only [inventoryImage, h1, hd, he]⟩
    | go size => exact ⟨.ErrChecksumMismatch, by simp only [inventoryImage, h1, hd, hv]⟩
  · intro dataBytes1 size total hb hd
    rw [h1] at hb
    simp only [Except.ok.injEq] at hb
    subst hb
    simp only [inventoryImage, h1, hd, hv]

/-- C8: for every manifest in which some image has a hash node with the algorithm `sha1` and
a value that differs from the SHA-1 digest of the raw bytes of its property `data`,
`runDevice` returns an error that is not nil and writes nothing to the USB OUT endpoint: all
it has done is send its first tick. The error is `ErrChecksumMismatch` when no earlier error
of the inventory occurs: the manifest is listed, the images before pass the inventory and the
data size of the image can be determined. -/
theorem runDevice_hash_before_write (u : Updater) (env : Env) (fdt : FDT)
    (imageNames : List String) (name : String)
    (hnames : fdt.images.ListChildNodes = .ok imageNames) (hname : name ∈ imageNames)
    (h : HashMismatch env (fdt.images.Walk name)) :
    (∃ e, runDevice u env (.ok fdt) = (.error e, [preparing])) ∧
    outWrites (runDevice u env (.ok fdt)).2 = [] ∧
    (∀ devicesList before rest total dataBytes size,
      Listed fdt devicesList imageNames → imageNames = before ++ name :: rest →
      inventoryLoop env fdt.images before 0 = .go total →
      (fdt.images.Walk name).data.AsBytes = .ok dataBytes →
      declaredSize (fdt.images.Walk name).compression dataBytes = .go size →
      runDevice u env (.ok fdt) = (.error .ErrChecksumMismatch, [preparing])) := by
  obtain ⟨hrej, hreach⟩ := inventoryImage_mismatch env _ h
  obtain ⟨e, he⟩ := runDevice_rejects u env fdt imageNames name hnames hname hrej
  refine ⟨⟨e, he⟩, by rw [he]; rfl, ?_⟩
  intro devicesList before rest total dataBytes size hl hsplit hbefore hdata hsize
  refine runDevice_of_inventory_ret u env fdt devicesList imageNames _ hl ?_
  rw [hsplit]
  exact inventoryLoop_reached env fdt.images before rest name total _ hbefore
    (hreach dataBytes size total hdata hsize)

set_option maxRecDepth 100000 in
/-- Witness of C8: the manifest `manifestCorrupt`, whose image has one byte of its data
corrupted, with a device that would accept everything. -/
theorem runDevice_hash_before_write_witness :
    HashMismatch (acceptingEnv readsWithEOF) (manifestCorrupt.images.Walk "image1") ∧
    runDevice ⟨exampleConfig, false⟩ (acceptingEnv readsWithEOF) (.ok manifestCorrupt)
      = (.error .ErrChecksumMismatch, [preparing]) ∧
    outWrites (runDevice ⟨exampleConfig, false⟩ (acceptingEnv readsWithEOF)
      (.ok manifestCorrupt)).2 = [] :=
  ⟨⟨xzCorrupt, sha1OneTwoThree, rfl, rfl, rfl, by decide⟩,
   (runDevice_hash_before_write ⟨exampleConfig, false⟩ (acceptingEnv readsWithEOF)
      manifestCorrupt ["image1"] "image1" rfl (by decide)
      ⟨xzCorrupt, sha1OneTwoThree, rfl, rfl, rfl, by decide⟩).2.2
      [⟨0x15e4, 0x0001⟩] [] [] 0 xzCorrupt 3 ⟨_, _, rfl, rfl, rfl, rfl⟩ rfl rfl rfl (by rfl),
   (runDevice_hash_before_write ⟨exampleConfig, false⟩ (acceptingEnv readsWithEOF)
      manifestCorrupt ["image1"] "image1" rfl (by decide)
      ⟨xzCorrupt, sha1OneTwoThree, rfl, rfl, rfl, by decide⟩).2.1⟩

/-! ## Images without a hash, images without data -/

theorem inventoryImage_without_algo (env : Env) (image : ImageNode) (e : Error)
    (h : image.hash.algo.AsString = .error e) :
    Rejected env image ∧
    ∀ dataBytes size total, image.data.AsBytes = .ok dataBytes →
      declaredSize image.compression dataBytes = .go size →
      inventoryImage env image total = .ret (.error e) := by
  constructor
  · intro total
    cases h1 : image.data.AsBytes with
    | error err => exact ⟨err, by simp only [inventoryImage, h1]⟩
    | ok dataBytes =>
      cases hd : declaredSize image.compression dataBytes with
      | ret o =>
        obtain ⟨e1, he⟩ := declaredSize_ret_error _ _ _ hd
        exact ⟨e1, by simp only [inventoryImage, h1, hd, he]⟩
      | go size => exact ⟨e, by simp only [inventoryImage, h1, hd, verifyHash, h]⟩
  · intro dataBytes size total h1 hd
    simp only [inventoryImage, h1, hd, verifyHash, h]

set_option maxRecDepth 100000 in
/-- C9 (failing input): the manifest `manifestWithoutHash`, whose image has no node `hash`,
with a device that would accept everything. The run is rejected before any USB traffic, but
the error is the one of the walk, `cannot find node name "hash"`, not "missing image hash". -/
theorem runDevice_without_hash_error :
    runDevice ⟨exampleConfig, false⟩ (acceptingEnv readsWithEOF) (.ok manifestWithoutHash)
      = (.error (.new "cannot find node name \x22hash\x22"), [preparing]) ∧
    Error.Is (.new "cannot find node name \x22hash\x22") (.new "missing image hash") = false := by
  refine ⟨by decide, by decide⟩

/-- For every manifest in which some image has no node `hash` (the walk
`hashProp.Property("algo")` carries an error, which `AsString()` returns), the run is rejected
with an error that is not nil before any USB traffic: `runDevice` has done nothing but send its
first tick, and nothing is written to the OUT endpoint. The error is the one of the walk when
no earlier error of the inventory occurs. Such an image is never accepted unverified. -/
theorem runDevice_hash_required (u : Updater) (env : Env) (fdt : FDT)
    (imageNames : List String) (name : String) (e : Error)
    (hnames : fdt.images.ListChildNodes = .ok imageNames) (hname : name ∈ imageNames)
    (h : (fdt.images.Walk name).hash.algo.AsString = .error e) :
    (∃ e1, runDevice u env (.ok fdt) = (.error e1, [preparing])) ∧
    outWrites (runDevice u env (.ok fdt)).2 = [] ∧
    (∀ devicesList before rest total dataBytes size,
      Listed fdt devicesList imageNames → imageNames = before ++ name :: rest →
      inventoryLoop env fdt.images before 0 = .go total →
      (fdt.images.Walk name).data.AsBytes = .ok dataBytes →
      declaredSize (fdt.images.Walk name).compression dataBytes = .go size →
      runDevice u env (.ok fdt) = (.error e, [preparing])) := by
  obtain ⟨hrej, hreach⟩ := inventoryImage_without_algo env _ e h
  obtain ⟨e1, he⟩ := runDevice_rejects u env fdt imageNames name hnames hname hrej
  refine ⟨⟨e1, he⟩, by rw [he]; rfl, ?_⟩
  intro devicesList before rest total dataBytes size hl hsplit hbefore hdata hsize
  refine runDevice_of_inventory_ret u env fdt devicesList imageNames _ hl ?_
  rw [hsplit]
  exact inventoryLoop_reached env fdt.images before rest name total _ hbefore
    (hreach dataBytes size total hdata hsize)

theorem inventoryImage_without_data (env : Env) (image : ImageNode) (e : Error)
    (h : image.data.AsBytes = .error e) (total : Int) :
    inventoryImage env image total = .ret (.error e) := by
  simp only [inventoryImage, h]

/-- C26: for every manifest in which some image node has no property `data` (the walk
`image.Property("data")` carries an error, which `AsBytes()` returns), `runDevice` returns an
error that is not nil, having done nothing but send its first tick: it never returns nil. The
error is the one of the walk when the manifest is listed and the images before pass the
inventory. -/
theorem runDevice_data_required (u : Updater) (env : Env) (fdt : FDT)
    (imageNames : List String) (name : String) (e : Error)
    (hnames : fdt.images.ListChildNodes = .ok imageNames) (hname : name ∈ imageNames)
    (h : (fdt.images.Walk name).data.AsBytes = .error e) :
    (∃ e1, runDevice u env (.ok fdt) = (.error e1, [preparing])) ∧
    (runDevice u env (.ok fdt)).1 ≠ .nil ∧
    (∀ devicesList before rest total,
      Listed fdt devicesList imageNames → imageNames = before ++ name :: rest →
      inventoryLoop env fdt.images before 0 = .go total →
      runDevice u env (.ok fdt) = (.error e, [preparing])) := by
  obtain ⟨e1, he⟩ := runDevice_rejects u env fdt imageNames name hnames hname
    (fun total => ⟨e, inventoryImage_without_data env _ e h total⟩)
  refine ⟨⟨e1, he⟩, by rw [he]; simp, ?_⟩
  intro devicesList before rest total hl hsplit hbefore
  refine runDevice_of_inventory_ret u env fdt devicesList imageNames _ hl ?_
  rw [hsplit]
  exact inventoryLoop_reached env fdt.images before rest name total _ hbefore
    (inventoryImage_without_data env _ e h total)

set_option maxRecDepth 100000 in
/-- Witness of C26: the manifest `manifestWithoutData`, whose image has no property `data`,
with a device that would accept everything. -/
theorem runDevice_data_required_witness :
    (manifestWithoutData.images.Walk "image1").data.AsBytes
      = .error (.new "cannot find property name \x22data\x22") ∧
    runDevice ⟨exampleConfig, false⟩ (acceptingEnv readsWithEOF) (.ok manifestWithoutData)
      = (.error (.new "cannot find property name \x22data\x22"), [preparing]) :=
  ⟨rfl,
   (runDevice_data_required ⟨exampleConfig, false⟩ (acceptingEnv readsWithEOF)
      manifestWithoutData ["image1"] "image1" _ rfl (by decide) rfl).2.2
      [⟨0x15e4, 0x0001⟩] [] [] 0 ⟨_, _, rfl, rfl, rfl, rfl⟩ rfl rfl⟩

end updater

namespace updater

/-! ## A device that is not there -/

/-- A device of the list that cannot be opened ends the run: `withDevice` returns the error of
the unlock step, `ErrNoMatchingDevices` for a device that is not there, and the loop over the
devices does not go on to the next entry. -/
theorem deviceLoop_absent (u : Updater) (env : Env) (totalData : Int) (images : ImagesNode)
    (imageNames : List String) (deviceID : DeviceID) (rest : List DeviceID) (st : St)
    (h : env.openDevice st.calls deviceID = .absent) :
    deviceLoop u env totalData images imageNames (deviceID :: rest) st
      = (.error .ErrNoMatchingDevices, { st with calls := st.calls + 1 }) := by
  simp only [deviceLoop, updateDevice, unlock, withDevice, h]

set_option maxRecDepth 100000 in
/-- C13 (failing input): the manifest `manifestTwoDevices`, which the inventory accepts (its
total is 3 bytes), lists the devices `15e4:0001`, `15e4:0002`; the first is not there, the
second is present and accepts everything. The run fails with `ErrNoMatchingDevices` at the
first entry and never opens the second: nothing is written. With the second entry alone in the
list the same image is flashed and the run returns nil. -/
theorem runDevice_first_device_absent :
    Listed manifestTwoDevices [⟨0x15e4, 0x0001⟩, ⟨0x15e4, 0x0002⟩] ["image1"] ∧
    inventoryLoop (secondDeviceEnv readsWithEOF) manifestTwoDevices.images ["image1"] 0
      = .go 3 ∧
    (secondDeviceEnv readsWithEOF).openDevice 0 ⟨0x15e4, 0x0001⟩ = .absent ∧
    (∀ n, ∃ peer,
      (secondDeviceEnv readsWithEOF).openDevice n ⟨0x15e4, 0x0002⟩ = .opened none peer) ∧
    runDevice ⟨exampleConfig, false⟩ (secondDeviceEnv readsWithEOF) (.ok manifestTwoDevices)
      = (.error .ErrNoMatchingDevices, [preparing]) ∧
    (runDevice ⟨exampleConfig, false⟩ (secondDeviceEnv readsWithEOF)
      (.ok (manifestOf [0x15, 0xe4, 0x00, 0x02]
        [("image1", xzImage xzOneTwoThree "rootfs" sha1OneTwoThree)]))).1 = .nil := by
  refine ⟨⟨_, _, rfl, by rfl, rfl, rfl⟩, by rfl, rfl, fun n => ⟨_, rfl⟩, by decide, by decide⟩

/-! ## What a run writes -/

theorem outWrites_append (a b : List Event) : outWrites (a ++ b) = outWrites a ++ outWrites b := by
  induction a with
  | nil => rfl
  | cons e a ih =>
    cases e with
    | write msg => simp only [List.cons_append, outWrites, List.append_eq, ih, List.cons_append]
    | progress p => simp only [List.cons_append, outWrites, List.append_eq, ih]

theorem outWrites_writesOf (acts : List fastboot.Action) :
    outWrites (writesOf acts) = fastboot.writesIn acts := by
  induction acts with
  | nil => rfl
  | cons a acts ih =>
    cases a with
    | write msg => simp only [writesOf, outWrites, fastboot.writesIn, ih]
    | read n err => simp only [writesOf, fastboot.writesIn, ih]

/-- `withDevice` keeps every property of the events and of the bytes downloaded that the
function it runs keeps. -/
theorem withDevice_keeps (P : List Event → Int → Prop) (env : Env) (deviceID : DeviceID)
    (f : fastboot.Peer → St → Option Error × St) (st : St)
    (hf : ∀ peer st, P st.events st.totalDownloaded →
      P (f peer st).2.events (f peer st).2.totalDownloaded)
    (h : P st.events st.totalDownloaded) :
    P (withDevice env deviceID f st).2.events (withDevice env deviceID f st).2.totalDownloaded := by
  unfold withDevice
  cases env.openDevice st.calls deviceID with
  | error err => exact h
  | absent => exact h
  | opened setup peer =>
    cases setup with
    | some err => exact h
    | none => exact hf peer _ h

theorem monitored_outWrites (totalData : Int) (acts : List fastboot.Action) :
    ∀ st, outWrites (monitored totalData acts st).events
      = outWrites st.events ++ fastboot.writesIn acts := by
  induction acts with
  | nil => intro st; simp [monitored, fastboot.writesIn]
  | cons a acts ih =>
    intro st
    cases a with
    | write msg =>
      simp only [monitored, ih, outWrites_append, outWrites, fastboot.writesIn,
        List.append_assoc, List.singleton_append]
    | read n err =>
      cases err with
      | some e => simp only [monitored, ih, fastboot.writesIn]
      | none =>
        simp only [monitored, ih, outWrites_append, outWrites, fastboot.writesIn,
          List.append_nil]

theorem discardReads_writes (reads : List (List Byte × Option Error)) :
    fastboot.writesIn (discardReads reads) = [] := by
  induction reads with
  | nil => rfl
  | cons c rest ih =>
    obtain ⟨chunk, err⟩ := c
    cases err with
    | some e => rfl
    | none => simp only [discardReads, fastboot.writesIn, ih]

/-- The property of a state that all its writes are writes of a dry run. -/
theorem dry_append (events : List Event) (msgs : List Event)
    (h : ∀ msg ∈ outWrites events, DryRunWrite msg)
    (hm : ∀ msg ∈ outWrites msgs, DryRunWrite msg) :
    ∀ msg ∈ outWrites (events ++ msgs), DryRunWrite msg := by
  intro msg hmem
  rw [outWrites_append] at hmem
  rcases List.mem_append.mp hmem with h1 | h1
  · exact h msg h1
  · exact hm msg h1

theorem unlock_dry (env : Env) (deviceID : DeviceID) (st : St)
    (h : ∀ msg ∈ outWrites st.events, DryRunWrite msg) :
    ∀ msg ∈ outWrites (unlock env deviceID st).2.events, DryRunWrite msg := by
  unfold unlock
  apply withDevice_keeps (fun events _ => ∀ msg ∈ outWrites events, DryRunWrite msg)
  · intro peer st hst
    have hw : ∀ msg ∈ outWrites (writesOf (fastboot.Command peer unlockCommand).2),
        DryRunWrite msg := by
      intro msg hmem
      rw [outWrites_writesOf, fastboot.Command_writes] at hmem
      rw [List.mem_singleton] at hmem
      exact Or.inl hmem
    change ∀ msg ∈ outWrites (match fastboot.Command peer unlockCommand with
      | (.error err, acts) => ((some err : Option Error),
          ({ st with events := st.events ++ writesOf acts } : St))
      | (_, acts) => (none, { st with events := st.events ++ writesOf acts })).2.events,
        DryRunWrite msg
    cases hc : fastboot.Command peer unlockCommand with
    | mk res acts =>
      rw [hc] at hw
      cases res <;> exact dry_append _ _ hst hw
  · exact h

theorem probe_dry (env : Env) (deviceID : DeviceID) (vars : List String)
    (hvars : ∀ v ∈ vars, v ∈ probeVariables) :
    ∀ st, (∀ msg ∈ outWrites st.events, DryRunWrite msg) →
      ∀ msg ∈ outWrites (probe env deviceID vars st).2.events, DryRunWrite msg := by
  induction vars with
  | nil => intro st h; exact h
  | cons v rest ih =>
    intro st h
    have hstep : ∀ msg ∈ outWrites (withDevice env deviceID
        (fun peer st =>
          (none, { st with events := st.events ++ writesOf (fastboot.GetVar peer v).2 }))
        st).2.events, DryRunWrite msg := by
      apply withDevice_keeps (fun events _ => ∀ msg ∈ outWrites events, DryRunWrite msg)
      · intro peer st hst
        apply dry_append _ _ hst
        intro msg hmem
        rw [outWrites_writesOf, fastboot.GetVar, fastboot.Command_writes,
          List.mem_singleton] at hmem
        exact Or.inr ⟨v, hvars v (List.mem_cons_self _ _), hmem⟩
      · exact h
    rw [probe]
    cases hw : withDevice env deviceID
        (fun peer st =>
          (none, { st with events := st.events ++ writesOf (fastboot.GetVar peer v).2 }))
        st with
    | mk res st1 =>
      rw [hw] at hstep
      cases res with
      | some err => exact hstep
      | none => exact ih (fun v hv => hvars v (List.mem_cons_of_mem _ hv)) st1 hstep

theorem flashImage_dry (u : Updater) (env : Env) (deviceID : DeviceID) (totalData : Int)
    (image : ImageNode) (st : St) (hdry : u.DryRun = true)
    (h : ∀ msg ∈ outWrites st.events, DryRunWrite msg) :
    ∀ msg ∈ outWrites (flashImage u env deviceID totalData image st).2.events,
      DryRunWrite msg := by
  unfold flashImage
  split
  · exact h
  · split
    · exact h
    · dsimp only
      split
      · exact h
      · rename_i dataSize finalReader _
        simp only [hdry, if_true]
        have hstep : ∀ msg ∈ outWrites (withDevice env deviceID
            (fun _ st => (none, monitored totalData (discardReads (finalReader 8192)) st))
            st).2.events, DryRunWrite msg := by
          apply withDevice_keeps (fun events _ => ∀ msg ∈ outWrites events, DryRunWrite msg)
          · intro peer st hst msg hmem
            rw [monitored_outWrites, discardReads_writes, List.append_nil] at hmem
            exact hst msg hmem
          · exact h
        cases hw : withDevice env deviceID
            (fun _ st => (none, monitored totalData (discardReads (finalReader 8192)) st))
            st with
        | mk res st1 =>
          rw [hw] at hstep
          cases res with
          | some err => exact hstep
          | none =>
            dsimp only
            apply withDevice_keeps
              (fun events _ => ∀ msg ∈ outWrites events, DryRunWrite msg)
            · intro peer st hst
              exact hst
            · exact dry_append _ _ hstep (fun msg hmem => by simp [outWrites] at hmem)

theorem flashLoop_dry (u : Updater) (env : Env) (deviceID : DeviceID) (totalData : Int)
    (images : ImagesNode) (hdry : u.DryRun = true) (imageNames : List String) :
    ∀ st, (∀ msg ∈ outWrites st.events, DryRunWrite msg) →
      ∀ msg ∈ outWrites (flashLoop u env deviceID totalData images imageNames st).2.events,
        DryRunWrite msg := by
  induction imageNames with
  | nil => intro st h; exact h
  | cons name rest ih =>
    intro st h
    rw [flashLoop]
    have hstep := flashImage_dry u env deviceID totalData (images.Walk name) st hdry h
    cases hf : flashImage u env deviceID totalData (images.Walk name) st with
    | mk res st1 =>
      rw [hf] at hstep
      cases res with
      | some err => exact hstep
      | none => exact ih st1 hstep

theorem updateDevice_dry (u : Updater) (env : Env) (totalData : Int) (images : ImagesNode)
    (imageNames : List String) (deviceID : DeviceID) (st : St) (hdry : u.DryRun = true)
    (h : ∀ msg ∈ outWrites st.events, DryRunWrite msg) :
    ∀ msg ∈ outWrites (updateDevice u env totalData images imageNames deviceID st).2.events,
      DryRunWrite msg := by
  unfold updateDevice
  have h1 := unlock_dry env deviceID st h
  cases hu : unlock env deviceID st with
  | mk res st1 =>
    rw [hu] at h1
    cases res with
    | some err => exact h1
    | none =>
      dsimp only
      have h2 := probe_dry env deviceID probeVariables (fun v hv => hv) st1 h1
      cases hp : probe env deviceID probeVariables st1 with
      | mk res st2 =>
        rw [hp] at h2
        cases res with
        | some err => exact h2
        | none =>
          dsimp only
          have h3 := flashLoop_dry u env deviceID totalData images hdry imageNames
            { st2 with totalDownloaded := 0 } h2
          cases hl : flashLoop u env deviceID totalData images imageNames
              { st2 with totalDownloaded := 0 } with
          | mk res st3 =>
            rw [hl] at h3
            cases res with
            | some err => exact h3
            | none =>
              dsimp only
              have h4 : ∀ msg ∈ outWrites (st3.events ++ [Event.progress ⟨true, none⟩]),
                  DryRunWrite msg :=
                dry_append _ _ h3 (fun msg hmem => by simp [outWrites] at hmem)
              split
              · exact h4
              · apply withDevice_keeps
                  (fun events _ => ∀ msg ∈ outWrites events, DryRunWrite msg)
                · intro peer st hst
                  simp only [hdry, if_true]
                  exact hst
                · exact h4

theorem deviceLoop_dry (u : Updater) (env : Env) (totalData : Int) (images : ImagesNode)
    (imageNames : List String) (hdry : u.DryRun = true) (devicesList : List DeviceID) :
    ∀ st, (∀ msg ∈ outWrites st.events, DryRunWrite msg) →
      ∀ msg ∈ outWrites (deviceLoop u env totalData images imageNames devicesList st).2.events,
        DryRunWrite msg := by
  induction devicesList with
  | nil => intro st h; exact h
  | cons deviceID rest ih =>
    intro st h
    rw [deviceLoop]
    have h1 := updateDevice_dry u env totalData images imageNames deviceID st hdry h
    cases hu : updateDevice u env totalData images imageNames deviceID st with
    | mk res st1 =>
      rw [hu] at h1
      cases res with
      | some err => exact h1
      | none => exact ih st1 h1

/-- The events of a run are its first tick alone, or those of the loop over the devices
started with the first tick. -/
theorem runDevice_events (u : Updater) (env : Env) (image : Except Error FDT) :
    (runDevice u env image).2 = [preparing] ∨
    ∃ totalData images imageNames devicesList,
      runDevice u env image
        = ((deviceLoop u env totalData images imageNames devicesList ⟨0, 0, 0, [preparing]⟩).1,
           (deviceLoop u env totalData images imageNames devicesList
              ⟨0, 0, 0, [preparing]⟩).2.events) := by
  unfold runDevice
  repeat' split
  all_goals first
    | exact Or.inl rfl
    | exact Or.inr ⟨_, _, _, _, rfl⟩

set_option maxRecDepth 100000 in
/-- C14 (counterexample): a dry run on the manifest `manifestOne`, which the inventory accepts,
with a device that is present. The run writes the unlock command and the seven queries to the
OUT endpoint, whichever way the decompressor hands out the payload. -/
theorem runDevice_dry_run_writes :
    outWrites (runDevice ⟨exampleConfig, true⟩ (acceptingEnv readsWithEOF) (.ok manifestOne)).2
      = [fastboot.bytesOfString "oem:inmusic-unlock-magic-7de5fbc22b8c524e",
         fastboot.bytesOfString "getvar:version",
         fastboot.bytesOfString "getvar:version-bootloader",
         fastboot.bytesOfString "getvar:version-baseband",
         fastboot.bytesOfString "getvar:product",
         fastboot.bytesOfString "getvar:serialno",
         fastboot.bytesOfString "getvar:secure",
         fastboot.bytesOfString "getvar:is-userspace"] ∧
    outWrites (runDevice ⟨exampleConfig, true⟩ (acceptingEnv readsThenEOF) (.ok manifestOne)).2
      = outWrites
          (runDevice ⟨exampleConfig, true⟩ (acceptingEnv readsWithEOF) (.ok manifestOne)).2 ∧
    (runDevice ⟨exampleConfig, true⟩ (acceptingEnv readsWithEOF) (.ok manifestOne)).1 = .nil := by
  refine ⟨by decide, by decide, by decide⟩

/-- C14 (amended): for every manifest and every device, when `Updater.DryRun` is true the run
writes no download command, no payload, no flash command and no reboot command to the USB OUT
endpoint: every write it makes is the unlock command or the query of one of the seven
variables of the probe, which are sent whether the run is dry or not. -/
theorem runDevice_dry_run (u : Updater) (env : Env) (image : Except Error FDT)
    (hdry : u.DryRun = true) :
    ∀ msg ∈ outWrites (runDevice u env image).2, DryRunWrite msg := by
  rcases runDevice_events u env image with h | ⟨totalData, images, imageNames, devicesList, h⟩
  · rw [h]
    intro msg hmem
    simp [preparing, outWrites] at hmem
  · rw [h]
    exact deviceLoop_dry u env totalData images imageNames hdry devicesList _
      (fun msg hmem => by simp [preparing, outWrites] at hmem)

set_option maxRecDepth 100000 in
/-- Witness of C14 (amended): the dry run of the counterexample. -/
theorem runDevice_dry_run_witness :
    (⟨exampleConfig, true⟩ : Updater).DryRun = true ∧
    List.Forall DryRunWrite
      (outWrites
        (runDevice ⟨exampleConfig, true⟩ (acceptingEnv readsWithEOF) (.ok manifestOne)).2) :=
  ⟨rfl, List.forall_iff_forall_mem.mpr
    (runDevice_dry_run ⟨exampleConfig, true⟩ (acceptingEnv readsWithEOF) (.ok manifestOne) rfl)⟩

end updater

namespace updater

/-! ## The ticks of a run -/

theorem determinate_append (a b : List Event) :
    determinate (a ++ b) = determinate a ++ determinate b := by
  induction a with
  | nil => rfl
  | cons e a ih =>
    cases e with
    | write msg => simp only [List.cons_append, determinate, List.append_eq, ih]
    | progress p =>
      obtain ⟨ind, pct⟩ := p
      cases ind <;> cases pct <;>
        simp only [List.cons_append, determinate, List.append_eq, ih]

theorem determinate_writesOf (acts : List fastboot.Action) : determinate (writesOf acts) = [] := by
  induction acts with
  | nil => rfl
  | cons a acts ih =>
    cases a with
    | write msg => simp only [writesOf, determinate, ih]
    | read n err => simp only [writesOf, ih]

theorem NoTicks.noTicks_append {base events : List Event} (h : NoTicks base events)
    (extra : List Event) (he : determinate extra = []) : NoTicks base (events ++ extra) := by
  obtain ⟨seg, h1, h2⟩ := h
  refine ⟨seg ++ extra, by rw [h1, List.append_assoc], ?_⟩
  rw [determinate_append, h2, he]; rfl

theorem NoTicks.refl (base : List Event) : NoTicks base base := ⟨[], by simp, rfl⟩

theorem NoTicks.ticksUpTo {base events : List Event} (h : NoTicks base events) (total : Int) :
    TicksUpTo total base events 0 := by
  obtain ⟨seg, h1, h2⟩ := h
  refine ⟨seg, h1, ?_, ?_, le_refl 0⟩
  · intro q hq; rw [h2] at hq; simp at hq
  · rw [h2]; simp

theorem TicksUpTo.ticksUpTo_append {total : Int} {base events : List Event} {k : Int}
    (h : TicksUpTo total base events k) (extra : List Event) (he : determinate extra = []) :
    TicksUpTo total base (events ++ extra) k := by
  obtain ⟨seg, h1, h2, h3, h4⟩ := h
  refine ⟨seg ++ extra, by rw [h1, List.append_assoc], ?_, ?_, h4⟩
  · intro q hq; rw [determinate_append, he, List.append_nil] at hq; exact h2 q hq
  · rw [determinate_append, he, List.append_nil]; exact h3

theorem TicksUpTo.ticksUpTo_tick {total : Int} {base events : List Event} {k : Int}
    (h : TicksUpTo total base events k) (k' : Int) (hk : k ≤ k') :
    TicksUpTo total base (events ++ [.progress ⟨false, some (k', total)⟩]) k' := by
  obtain ⟨seg, h1, h2, h3, h4⟩ := h
  refine ⟨seg ++ [.progress ⟨false, some (k', total)⟩], by rw [h1, List.append_assoc], ?_, ?_,
    le_trans h4 hk⟩
  · intro q hq
    rw [determinate_append] at hq
    rcases List.mem_append.mp hq with h5 | h5
    · obtain ⟨a, b, c⟩ := h2 q h5
      exact ⟨a, b, le_trans c hk⟩
    · simp only [determinate, List.mem_singleton] at h5
      subst h5
      exact ⟨rfl, le_trans h4 hk, le_refl _⟩
  · rw [determinate_append, List.map_append, List.pairwise_append]
    refine ⟨h3, by simp [determinate], ?_⟩
    intro a ha b hb
    simp only [determinate, List.map_cons, List.map_nil, List.mem_singleton] at hb
    subst hb
    obtain ⟨q, hq, rfl⟩ := List.mem_map.mp ha
    exact le_trans (h2 q hq).2.2 hk

theorem withDevice_keeps_eq (P : List Event → Int → Prop) {env : Env} {deviceID : DeviceID}
    {f : fastboot.Peer → St → Option Error × St} {st : St} {res : Option Error} {st1 : St}
    (heq : withDevice env deviceID f st = (res, st1))
    (hf : ∀ peer st, P st.events st.totalDownloaded →
      P (f peer st).2.events (f peer st).2.totalDownloaded)
    (h : P st.events st.totalDownloaded) : P st1.events st1.totalDownloaded := by
  have := withDevice_keeps P env deviceID f st hf h
  rw [heq] at this
  exact this

theorem monitored_ticksUpTo (total : Int) (base : List Event) (acts : List fastboot.Action) :
    ∀ st, TicksUpTo total base st.events st.totalDownloaded →
      TicksUpTo total base (monitored total acts st).events
        (monitored total acts st).totalDownloaded := by
  induction acts with
  | nil => intro st h; exact h
  | cons a acts ih =>
    intro st h
    cases a with
    | write msg =>
      rw [monitored]
      exact ih _ (h.ticksUpTo_append [.write msg] rfl)
    | read n err =>
      cases err with
      | some e => rw [monitored]; exact ih _ h
      | none =>
        rw [monitored]
        exact ih _ (h.ticksUpTo_tick (st.totalDownloaded + n) (by omega))

theorem unlock_noTicks (env : Env) (deviceID : DeviceID) (base : List Event) (st : St)
    (h : NoTicks base st.events) : NoTicks base (unlock env deviceID st).2.events := by
  unfold unlock
  apply withDevice_keeps (fun events _ => NoTicks base events)
  · intro peer st hst
    change NoTicks base (match fastboot.Command peer unlockCommand with
      | (.error err, acts) => ((some err : Option Error),
          ({ st with events := st.events ++ writesOf acts } : St))
      | (_, acts) => (none, { st with events := st.events ++ writesOf acts })).2.events
    cases fastboot.Command peer unlockCommand with
    | mk res acts =>
      cases res <;> exact hst.noTicks_append _ (determinate_writesOf _)
  · exact h

theorem probe_noTicks (env : Env) (deviceID : DeviceID) (base : List Event)
    (vars : List String) :
    ∀ st, NoTicks base st.events → NoTicks base (probe env deviceID vars st).2.events := by
  induction vars with
  | nil => intro st h; exact h
  | cons v rest ih =>
    intro st h
    have hstep : NoTicks base (withDevice env deviceID
        (fun peer st =>
          (none, { st with events := st.events ++ writesOf (fastboot.GetVar peer v).2 }))
        st).2.events := by
      apply withDevice_keeps (fun events _ => NoTicks base events)
      · intro peer st hst
        exact hst.noTicks_append _ (determinate_writesOf _)
      · exact h
    rw [probe]
    cases hw : withDevice env deviceID
        (fun peer st =>
          (none, { st with events := st.events ++ writesOf (fastboot.GetVar peer v).2 }))
        st with
    | mk res st1 =>
      rw [hw] at hstep
      cases res with
      | some err => exact hstep
      | none => exact ih st1 hstep

theorem ticks_append (a b : List Event) : ticks (a ++ b) = ticks a ++ ticks b := by
  induction a with
  | nil => rfl
  | cons e a ih =>
    cases e with
    | write msg => simp only [List.cons_append, ticks, List.append_eq, ih]
    | progress p => simp only [List.cons_append, ticks, List.append_eq, ih]

theorem ticks_writesOf (acts : List fastboot.Action) : ticks (writesOf acts) = [] := by
  induction acts with
  | nil => rfl
  | cons a acts ih =>
    cases a with
    | write msg => simp only [writesOf, ticks, ih]
    | read n err => simp only [writesOf, ih]

theorem TicksUpTo.monotone {total : Int} {base events : List Event} {k : Int}
    (h : TicksUpTo total base events k) :
    ∃ segment, events = base ++ segment ∧ MonotoneTicks total segment := by
  obtain ⟨seg, h1, h2, h3, _⟩ := h
  exact ⟨seg, h1, fun q hq => ⟨(h2 q hq).1, (h2 q hq).2.1⟩, h3⟩

/-- The second loop body keeps every property of the events and of the bytes downloaded that
writes, monitored reads and the tick of the flashing keep. -/
theorem flashImage_keeps (P : List Event → Int → Prop) (u : Updater) (env : Env)
    (deviceID : DeviceID) (total : Int) (image : ImageNode) (st : St)
    (hwrites : ∀ events k acts, P events k → P (events ++ writesOf acts) k)
    (hmonitored : ∀ acts (st : St), P st.events st.totalDownloaded →
      P (monitored total acts st).events (monitored total acts st).totalDownloaded)
    (htick : ∀ events k, P events k → P (events ++ [.progress ⟨false, some (k, total)⟩]) k)
    (h : P st.events st.totalDownloaded) :
    P (flashImage u env deviceID total image st).2.events
      (flashImage u env deviceID total image st).2.totalDownloaded := by
  unfold flashImage
  split
  · exact h
  · split
    · exact h
    · dsimp only
      split
      · exact h
      · rename_i dataSize finalReader _
        split
        · rename_i err st1 heq
          refine withDevice_keeps_eq P heq ?_ h
          intro peer st hst
          dsimp only
          split
          · exact hmonitored _ st hst
          · split <;> exact hmonitored _ st hst
        · rename_i st1 heq
          have hstep : P st1.events st1.totalDownloaded := by
            refine withDevice_keeps_eq P heq ?_ h
            intro peer st hst
            dsimp only
            split
            · exact hmonitored _ st hst
            · split <;> exact hmonitored _ st hst
          apply withDevice_keeps P
          · intro peer st hst
            split
            · exact hst
            · split <;> exact hwrites _ _ _ hst
          · exact htick _ _ hstep

theorem flashLoop_keeps (P : List Event → Int → Prop) (u : Updater) (env : Env)
    (deviceID : DeviceID) (total : Int) (images : ImagesNode)
    (hwrites : ∀ events k acts, P events k → P (events ++ writesOf acts) k)
    (hmonitored : ∀ acts (st : St), P st.events st.totalDownloaded →
      P (monitored total acts st).events (monitored total acts st).totalDownloaded)
    (htick : ∀ events k, P events k → P (events ++ [.progress ⟨false, some (k, total)⟩]) k)
    (imageNames : List String) :
    ∀ st, P st.events st.totalDownloaded →
      P (flashLoop u env deviceID total images imageNames st).2.events
        (flashLoop u env deviceID total images imageNames st).2.totalDownloaded := by
  induction imageNames with
  | nil => intro st h; exact h
  | cons name rest ih =>
    intro st h
    rw [flashLoop]
    have hstep := flashImage_keeps P u env deviceID total (images.Walk name) st hwrites
      hmonitored htick h
    cases hf : flashImage u env deviceID total (images.Walk name) st with
    | mk res st1 =>
      rw [hf] at hstep
      cases res with
      | some err => exact hstep
      | none => exact ih st1 hstep

/-- The ticks of the second loop for one device: they start from zero bytes after the unlock
and the probe and they never decrease. -/
theorem flashLoop_ticks (u : Updater) (env : Env) (deviceID : DeviceID) (total : Int)
    (base : List Event) (images : ImagesNode) (imageNames : List String) (st : St)
    (h : TicksUpTo total base st.events st.totalDownloaded) :
    TicksUpTo total base (flashLoop u env deviceID total images imageNames st).2.events
      (flashLoop u env deviceID total images imageNames st).2.totalDownloaded := by
  refine flashLoop_keeps (fun events k => TicksUpTo total base events k)
    u env deviceID total images ?_ ?_ ?_ imageNames st h
  · intro events k acts h
    exact h.ticksUpTo_append _ (determinate_writesOf acts)
  · intro acts st h
    exact monitored_ticksUpTo total base acts st h
  · intro events k h
    exact h.ticksUpTo_tick k (le_refl k)

/-- The events of the update of one device: the determinate ticks never decrease, and after a
successful update the last tick of all is the indeterminate one. -/
theorem updateDevice_progress (u : Updater) (env : Env) (total : Int) (images : ImagesNode)
    (imageNames : List String) (deviceID : DeviceID) (st : St) :
    ∃ segment,
      (updateDevice u env total images imageNames deviceID st).2.events = st.events ++ segment ∧
      MonotoneTicks total segment ∧
      ((updateDevice u env total images imageNames deviceID st).1 = none →
        Completed segment) := by
  have hu := unlock_noTicks env deviceID st.events st (NoTicks.refl _)
  unfold updateDevice
  split
  · rename_i err st1 heq
    rw [heq] at hu
    obtain ⟨seg, h1, h2⟩ := (hu.ticksUpTo total).monotone
    exact ⟨seg, h1, h2, fun h => by simp at h⟩
  · rename_i st1 heq
    rw [heq] at hu
    have hp := probe_noTicks env deviceID st.events probeVariables st1 hu
    split
    · rename_i err st2 heq2
      rw [heq2] at hp
      obtain ⟨seg, h1, h2⟩ := (hp.ticksUpTo total).monotone
      exact ⟨seg, h1, h2, fun h => by simp at h⟩
    · rename_i st2 heq2
      rw [heq2] at hp
      have hf := flashLoop_ticks u env deviceID total st.events images imageNames
        { st2 with totalDownloaded := 0 } (hp.ticksUpTo total)
      split
      · rename_i err st3 heq3
        rw [heq3] at hf
        obtain ⟨seg, h1, h2⟩ := hf.monotone
        exact ⟨seg, h1, h2, fun h => by simp at h⟩
      · rename_i st3 heq3
        rw [heq3] at hf
        obtain ⟨seg, h1, h2, h3, _⟩ := hf
        have hrest : ∀ r : Option Error × St,
            (∃ extra, r.2.events = (st3.events ++ [.progress ⟨true, none⟩]) ++ extra ∧
              ticks extra = [] ∧ determinate extra = []) →
            ∃ segment, r.2.events = st.events ++ segment ∧ MonotoneTicks total segment ∧
              (r.1 = none → Completed segment) := by
          intro r hr
          obtain ⟨extra, he1, he2, he3⟩ := hr
          have hd : determinate (seg ++ [Event.progress ⟨true, none⟩] ++ extra)
              = determinate seg := by
            rw [determinate_append, determinate_append, he3]
            simp [determinate]
          refine ⟨seg ++ [.progress ⟨true, none⟩] ++ extra, ?_, ?_, ?_⟩
          · rw [he1, h1]; simp only [List.append_assoc]
          · rw [MonotoneTicks, hd]
            exact ⟨fun q hq => ⟨(h2 q hq).1, (h2 q hq).2.1⟩, h3⟩
          · intro _
            rw [Completed, ticks_append, ticks_append, he2]
            simp [ticks]
        dsimp only
        split
        · exact hrest _ ⟨[], by simp, rfl, rfl⟩
        · apply hrest
          refine withDevice_keeps
            (fun events _ => ∃ extra,
              events = (st3.events ++ [.progress ⟨true, none⟩]) ++ extra ∧
                ticks extra = [] ∧ determinate extra = [])
            env deviceID _ _ ?_ ?_
          case refine_2 => exact ⟨[], by simp, rfl, rfl⟩
          intro peer st hst
          obtain ⟨extra, e1, e2, e3⟩ := hst
          split
          · exact ⟨extra, e1, e2, e3⟩
          · split
            · rename_i acts _
              refine ⟨extra ++ writesOf acts, ?_, ?_, ?_⟩
              · show st.events ++ writesOf acts = _
                rw [e1, List.append_assoc]
              · rw [ticks_append, e2, ticks_writesOf]; rfl
              · rw [determinate_append, e3, determinate_writesOf]; rfl
            · rename_i acts _
              refine ⟨extra ++ writesOf acts, ?_, ?_, ?_⟩
              · show st.events ++ writesOf acts = _
                rw [e1, List.append_assoc]
              · rw [ticks_append, e2, ticks_writesOf]; rfl
              · rw [determinate_append, e3, determinate_writesOf]; rfl

/-- The events of the loop over the devices: one segment for every device that the loop has
come to. -/
theorem deviceLoop_progress (u : Updater) (env : Env) (total : Int) (images : ImagesNode)
    (imageNames : List String) (devicesList : List DeviceID) :
    ∀ st, ∃ segments : List (List Event),
      (deviceLoop u env total images imageNames devicesList st).2.events
        = st.events ++ segments.flatten ∧
      segments.length ≤ devicesList.length ∧
      (∀ segment ∈ segments, MonotoneTicks total segment) ∧
      ((deviceLoop u env total images imageNames devicesList st).1 = .nil →
        segments.length = devicesList.length ∧ ∀ segment ∈ segments, Completed segment) := by
  induction devicesList with
  | nil =>
    intro st
    refine ⟨[], ?_, le_refl _, ?_, fun _ => ⟨rfl, fun seg hs => ?_⟩⟩
    · simp [deviceLoop]
    · intro seg hs; simp at hs
    · simp at hs
  | cons deviceID rest ih =>
    intro st
    obtain ⟨seg, h1, h2, h3⟩ := updateDevice_progress u env total images imageNames deviceID st
    rw [deviceLoop]
    split
    · rename_i err st1 heq
      rw [heq] at h1 h3
      refine ⟨[seg], ?_, ?_, ?_, ?_⟩
      · simpa using h1
      · simp
      · intro s hs
        simp only [List.mem_singleton] at hs
        rw [hs]; exact h2
      · intro h; simp at h
    · rename_i st1 heq
      rw [heq] at h1 h3
      obtain ⟨segs, g1, g2, g3, g4⟩ := ih st1
      refine ⟨seg :: segs, ?_, ?_, ?_, ?_⟩
      · rw [g1, h1]; simp
      · simp only [List.length_cons]; omega
      · intro s hs
        rcases List.mem_cons.mp hs with hs | hs
        · rw [hs]; exact h2
        · exact g3 s hs
      · intro h
        obtain ⟨g5, g6⟩ := g4 h
        refine ⟨by simp only [List.length_cons, g5], fun s hs => ?_⟩
        rcases List.mem_cons.mp hs with hs | hs
        · rw [hs]; exact h3 rfl
        · exact g6 s hs

theorem runDevice_listed (u : Updater) (env : Env) (fdt : FDT) (devicesList : List DeviceID)
    (imageNames : List String) (total : Int)
    (hl : Listed fdt devicesList imageNames)
    (hi : inventoryLoop env fdt.images imageNames 0 = .go total) :
    runDevice u env (.ok fdt)
      = ((deviceLoop u env total fdt.images imageNames devicesList ⟨0, 0, 0, [preparing]⟩).1,
         (deviceLoop u env total fdt.images imageNames devicesList
            ⟨0, 0, 0, [preparing]⟩).2.events) := by
  obtain ⟨devicesBytes, versionStr, h1, h2, h3, h4⟩ := hl
  simp only [runDevice, h1, h2, h3, h4, hi]

theorem runDevice_progress_aux (u : Updater) (env : Env) (fdt : FDT)
    (devicesList : List DeviceID) (imageNames : List String) (total : Int)
    (hl : Listed fdt devicesList imageNames)
    (hi : inventoryLoop env fdt.images imageNames 0 = .go total) :
    ∃ segments : List (List Event),
      (runDevice u env (.ok fdt)).2 = preparing :: segments.flatten ∧
      segments.length ≤ devicesList.length ∧
      (∀ segment ∈ segments, MonotoneTicks total segment) ∧
      ((runDevice u env (.ok fdt)).1 = .nil →
        segments.length = devicesList.length ∧ ∀ segment ∈ segments, Completed segment) := by
  rw [runDevice_listed u env fdt devicesList imageNames total hl hi]
  obtain ⟨segs, g1, g2, g3, g4⟩ :=
    deviceLoop_progress u env total fdt.images imageNames devicesList ⟨0, 0, 0, [preparing]⟩
  exact ⟨segs, by rw [g1]; rfl, g2, g3, g4⟩

/-! ## The progress ticks of a run -/

set_option maxRecDepth 100000 in
/-- C19 (counterexample): successful runs on manifests that the inventory accepts, with devices
that accept everything. On `manifestOne` with a decompressor that returns the payload together
with `io.EOF`, the ticks are the first one, `0/3` and "Finishing update...": the tick sent
last before the write of the reboot command is indeterminate and leaves `Percentage` unset,
below 0.999, and so is the last determinate tick, `0/3`. With a decompressor that returns the
first two bytes with a nil error and the third with `io.EOF` the last determinate tick is
`2/3`. With one that returns the payload with a nil error the values of `Percentage` are
0, 1, 1, 0: they fall from 1 to 0 at the last tick. On `manifestTwoByTwo`, two devices and two
images, the determinate ticks fall from `6/6` to `3/6` where the second device begins, for the
bytes downloaded are counted from zero for every device. -/
theorem runDevice_ticks_decrease :
    (runDevice ⟨exampleConfig, false⟩ (acceptingEnv readsWithEOF) (.ok manifestOne)).1 = .nil ∧
    ticks (runDevice ⟨exampleConfig, false⟩ (acceptingEnv readsWithEOF) (.ok manifestOne)).2
      = [⟨true, none⟩, ⟨false, some (0, 3)⟩, ⟨true, none⟩] ∧
    (runDevice ⟨exampleConfig, false⟩ (acceptingEnv readsWithEOF)
        (.ok manifestOne)).2.reverse.take 2
      = [.write (fastboot.bytesOfString "reboot"), .progress ⟨true, none⟩] ∧
    Progress.value ⟨true, none⟩ < 999 / 1000 ∧
    Progress.value ⟨false, some (0, 3)⟩ < 999 / 1000 ∧
    (runDevice ⟨exampleConfig, false⟩ (acceptingEnv readsInTwo) (.ok manifestOne)).1 = .nil ∧
    ticks (runDevice ⟨exampleConfig, false⟩ (acceptingEnv readsInTwo) (.ok manifestOne)).2
      = [⟨true, none⟩, ⟨false, some (2, 3)⟩, ⟨false, some (2, 3)⟩, ⟨true, none⟩] ∧
    Progress.value ⟨false, some (2, 3)⟩ < 999 / 1000 ∧
    (runDevice ⟨exampleConfig, false⟩ (acceptingEnv readsThenEOF) (.ok manifestOne)).1 = .nil ∧
    (ticks (runDevice ⟨exampleConfig, false⟩ (acceptingEnv readsThenEOF)
        (.ok manifestOne)).2).map Progress.value = [0, 1, 1, 0] ∧
    (runDevice ⟨exampleConfig, false⟩ (acceptingEnv readsThenEOF) (.ok manifestTwoByTwo)).1
      = .nil ∧
    determinate
        (runDevice ⟨exampleConfig, false⟩ (acceptingEnv readsThenEOF) (.ok manifestTwoByTwo)).2
      = [(3, 6), (3, 6), (6, 6), (6, 6), (3, 6), (3, 6), (6, 6), (6, 6)] := by
  have h : ticks (runDevice ⟨exampleConfig, false⟩ (acceptingEnv readsThenEOF)
        (.ok manifestOne)).2
      = [⟨true, none⟩, ⟨false, some (3, 3)⟩, ⟨false, some (3, 3)⟩, ⟨true, none⟩] := by decide
  refine ⟨by decide, by decide, by decide, ?_, ?_, by decide, by decide, ?_, by decide, ?_,
    by decide, by decide⟩
  · simp [Progress.value]
  · simp [Progress.value]
  · simp only [Progress.value]; norm_num
  · rw [h]
    simp [Progress.value]

/-- C19 (amended): for a manifest that lists the devices `devicesList` and whose inventory of
the images gives the total size `total`, the events of a run after the first tick are one
segment for every device that the loop has come to. In every segment the determinate ticks
have the denominator `total` and numerators that are not negative and never decrease. After a
successful run there is a segment for every device, and in every segment the last tick of all,
the one sent before the reboot step, is the indeterminate tick "Finishing update...", whose
`Percentage` is not set. -/
theorem runDevice_progress (u : Updater) (env : Env) (fdt : FDT)
    (devicesList : List DeviceID) (imageNames : List String) (total : Int)
    (hl : Listed fdt devicesList imageNames)
    (hi : inventoryLoop env fdt.images imageNames 0 = .go total) :
    ∃ segments : List (List Event),
      (runDevice u env (.ok fdt)).2 = preparing :: segments.flatten ∧
      segments.length ≤ devicesList.length ∧
      (∀ segment ∈ segments, MonotoneTicks total segment) ∧
      ((runDevice u env (.ok fdt)).1 = .nil →
        segments.length = devicesList.length ∧ ∀ segment ∈ segments, Completed segment) :=
  runDevice_progress_aux u env fdt devicesList imageNames total hl hi

set_option maxRecDepth 100000 in
/-- Witness of C19 (amended): the manifest with two devices and two images of three bytes. -/
theorem runDevice_progress_witness :
    Listed manifestTwoByTwo [⟨0x15e4, 0x0001⟩, ⟨0x15e4, 0x0002⟩] ["image1", "image2"] ∧
    inventoryLoop (acceptingEnv readsWithEOF) manifestTwoByTwo.images ["image1", "image2"] 0
      = .go 6 ∧
    ∃ segments : List (List Event),
      (runDevice ⟨exampleConfig, false⟩ (acceptingEnv readsWithEOF) (.ok manifestTwoByTwo)).2
        = preparing :: segments.flatten ∧
      segments.length ≤ ([⟨0x15e4, 0x0001⟩, ⟨0x15e4, 0x0002⟩] : List DeviceID).length ∧
      (∀ segment ∈ segments, MonotoneTicks 6 segment) ∧
      ((runDevice ⟨exampleConfig, false⟩ (acceptingEnv readsWithEOF)
          (.ok manifestTwoByTwo)).1 = .nil →
        segments.length = ([⟨0x15e4, 0x0001⟩, ⟨0x15e4, 0x0002⟩] : List DeviceID).length ∧
        ∀ segment ∈ segments, Completed segment) :=
  ⟨⟨_, _, rfl, by rfl, rfl, rfl⟩, by rfl,
   runDevice_progress ⟨exampleConfig, false⟩ (acceptingEnv readsWithEOF) manifestTwoByTwo
     [⟨0x15e4, 0x0001⟩, ⟨0x15e4, 0x0002⟩] ["image1", "image2"] 6
     ⟨_, _, rfl, by rfl, rfl, rfl⟩ (by rfl)⟩

end updater
